import Mathlib

/-!
Verification of the vibe_figma repository's core algorithmic engines against
their natural-language specification.

The development shallowly embeds the relevant TypeScript sources:
* `generateComponentName` from `src/core/figma/utils/component-name.ts`;
* `FigmaToTailwindConverter.convertCSSToTailwind` from
  `src/core/figma/figma-to-tailwind.ts`;
* the JSX repetition extractor (`transformJsx` and its helpers
  `createSignature`, `findVariableSites`, `navigateToPath`, `extractValue`,
  `replaceWithProp`, `collectExpressionRefs`, `createComponent`,
  `createInstance`, `areConsecutive`, `getUniqueName`).

JavaScript strings are modelled by Lean `String`, JS `Map`s by
insertion-ordered association lists, JS `Set`s by lists, and the Babel JSX
AST by the inductive types below.  Theorems after the definitions settle the
frozen claims.
-/

namespace VibeFigma

/-- Test for an ASCII uppercase letter, the `A-Z` range of the JS regexes. -/
def isAsciiUpperC (c : Char) : Bool := 'A' ≤ c && c ≤ 'Z'

/-- Test for an ASCII lowercase letter, the `a-z` range of the JS regexes. -/
def isAsciiLowerC (c : Char) : Bool := 'a' ≤ c && c ≤ 'z'

/-- Test for `[a-zA-Z]`, the letter class used by `component-name.ts`. -/
def isAsciiAlphaC (c : Char) : Bool := isAsciiUpperC c || isAsciiLowerC c

/-- Test for `[0-9]`. -/
def isAsciiDigitC (c : Char) : Bool := '0' ≤ c && c ≤ '9'

/-- Test for `[a-zA-Z0-9]`, the class kept by the first regex of
`generateComponentName`. -/
def isAsciiAlnumC (c : Char) : Bool := isAsciiAlphaC c || isAsciiDigitC c

/-- Model of JS `String.prototype.toUpperCase` on a single ASCII character:
a lowercase ASCII letter is shifted down by 32 code points, everything else
is returned unchanged. -/
def upperAscii (c : Char) : Char :=
  if 'a' ≤ c && c ≤ 'z' then Char.ofNat (c.toNat - 32) else c

/-- Model of JS `String.prototype.toLowerCase` on a single ASCII character. -/
def lowerAsciiChar (c : Char) : Char :=
  if 'A' ≤ c && c ≤ 'Z' then Char.ofNat (c.toNat + 32) else c

/-- JS `toLowerCase` over a whole string (ASCII fragment). -/
def lowerStr (s : String) : String := String.mk (s.data.map lowerAsciiChar)

theorem char_toNat_ofNat_valid (n : Nat) (h : n.isValidChar) :
    (Char.ofNat n).toNat = n := by
  simp only [Char.ofNat, dif_pos h, Char.ofNatAux]
  rfl

theorem char_le_iff_toNat {a b : Char} : a ≤ b ↔ a.toNat ≤ b.toNat :=
  ⟨fun h => h, fun h => h⟩

theorem upperAscii_isUpper {c : Char} (h : isAsciiAlphaC c = true) :
    isAsciiUpperC (upperAscii c) = true := by
  have hA : ('A').toNat = 65 := rfl
  have hZ : ('Z').toNat = 90 := rfl
  by_cases hc : ('a' ≤ c && c ≤ 'z') = true
  · simp only [Bool.and_eq_true, decide_eq_true_eq] at hc
    have h1 : 97 ≤ c.toNat := char_le_iff_toNat.mp hc.1
    have h2 : c.toNat ≤ 122 := char_le_iff_toNat.mp hc.2
    have hv : (c.toNat - 32).isValidChar := by
      unfold Nat.isValidChar
      omega
    have key := char_toNat_ofNat_valid _ hv
    have hup : upperAscii c = Char.ofNat (c.toNat - 32) := by
      unfold upperAscii
      rw [if_pos]
      simp only [Bool.and_eq_true, decide_eq_true_eq]
      exact hc
    rw [hup]
    simp only [isAsciiUpperC, Bool.and_eq_true, decide_eq_true_eq]
    refine ⟨char_le_iff_toNat.mpr ?_, char_le_iff_toNat.mpr ?_⟩ <;>
      rw [key] <;> omega
  · have hup : upperAscii c = c := by
      unfold upperAscii
      rw [if_neg hc]
    rw [hup]
    simp only [isAsciiAlphaC, Bool.or_eq_true] at h
    rcases h with h | h
    · exact h
    · exact absurd (by simpa only [isAsciiLowerC] using h) hc

theorem upperAscii_isAlnum {c : Char} (h : isAsciiAlnumC c = true) :
    isAsciiAlnumC (upperAscii c) = true := by
  by_cases halpha : isAsciiAlphaC c = true
  · have hu := upperAscii_isUpper halpha
    simp only [isAsciiAlnumC, isAsciiAlphaC, Bool.or_eq_true]
    exact Or.inl (Or.inl hu)
  · have hlow : ¬('a' ≤ c && c ≤ 'z') = true := fun hc =>
      halpha (by
        simp only [isAsciiAlphaC, isAsciiLowerC, Bool.or_eq_true]
        exact Or.inr hc)
    have hup : upperAscii c = c := by
      unfold upperAscii
      rw [if_neg hlow]
    rw [hup]
    exact h

/-- Fuel-driven decimal digit rendering (most significant first); with fuel
at least `n` it renders exactly the decimal digits of `n > 0`. -/
def natReprAux : Nat → Nat → List Char
  | 0, _ => []
  | fuel + 1, n =>
    if n = 0 then []
    else natReprAux fuel (n / 10) ++ [Nat.digitChar (n % 10)]

/-- Decimal rendering of a natural number, the model of the JS number-to-string
coercion used in template literals such as `` `${base}${suffix}` ``. -/
def natRepr (n : Nat) : String :=
  if n = 0 then "0" else String.mk (natReprAux n n)

theorem natReprAux_eq_digits : ∀ (fuel n : Nat), n ≤ fuel →
    natReprAux fuel n = ((Nat.digits 10 n).reverse).map Nat.digitChar := by
  intro fuel
  induction fuel with
  | zero =>
    intro n hn
    have : n = 0 := Nat.le_zero.mp hn
    subst this
    simp [natReprAux]
  | succ fuel ih =>
    intro n hn
    by_cases hzero : n = 0
    · subst hzero
      simp [natReprAux]
    · have hpos : 0 < n := Nat.pos_of_ne_zero hzero
      have hdig : Nat.digits 10 n = n % 10 :: Nat.digits 10 (n / 10) :=
        Nat.digits_def' (by norm_num) hpos
      have hdiv : n / 10 ≤ fuel := by
        have : n / 10 < n := Nat.div_lt_self hpos (by norm_num)
        omega
      unfold natReprAux
      rw [if_neg hzero, ih (n / 10) hdiv, hdig]
      simp

theorem natRepr_eq_digits (n : Nat) :
    natRepr n = if n = 0 then "0"
      else String.mk (((Nat.digits 10 n).reverse).map Nat.digitChar) := by
  unfold natRepr
  by_cases hzero : n = 0
  · rw [if_pos hzero, if_pos hzero]
  · rw [if_neg hzero, if_neg hzero, natReprAux_eq_digits n n (le_refl n)]

theorem digitChar_inj_lt :
    ∀ a < 10, ∀ b < 10, Nat.digitChar a = Nat.digitChar b → a = b := by
  decide

theorem map_digitChar_inj : ∀ (l1 l2 : List Nat),
    (∀ x ∈ l1, x < 10) → (∀ x ∈ l2, x < 10) →
    l1.map Nat.digitChar = l2.map Nat.digitChar → l1 = l2 := by
  intro l1
  induction l1 with
  | nil =>
    intro l2 _ _ h
    cases l2 with
    | nil => rfl
    | cons b bs => simp at h
  | cons a as ih =>
    intro l2 h1 h2 h
    cases l2 with
    | nil => simp at h
    | cons b bs =>
      simp only [List.map_cons, List.cons.injEq] at h
      have ha : a < 10 := h1 a (by simp)
      have hb : b < 10 := h2 b (by simp)
      have hab := digitChar_inj_lt a ha b hb h.1
      have hrest := ih bs (fun x hx => h1 x (by simp [hx]))
        (fun x hx => h2 x (by simp [hx])) h.2
      rw [hab, hrest]

theorem natRepr_inj : Function.Injective natRepr := by
  intro n m h
  have diglt : ∀ k : Nat, ∀ x ∈ Nat.digits 10 k, x < 10 := by
    intro k x hx
    exact Nat.digits_lt_base (by norm_num) hx
  rw [natRepr_eq_digits, natRepr_eq_digits] at h
  by_cases hn : n = 0 <;> by_cases hm : m = 0
  · rw [hn, hm]
  · exfalso
    simp only [if_pos hn, if_neg hm] at h
    have : ("0" : String).data = ((Nat.digits 10 m).reverse.map Nat.digitChar) := by
      rw [h]
    have hd : ((Nat.digits 10 m).reverse.map Nat.digitChar) = ['0'] := this.symm
    have : (Nat.digits 10 m).reverse = [0] := by
      have h0 : ([0].map Nat.digitChar) = ['0'] := by decide
      refine map_digitChar_inj _ [0] ?_ ?_ (hd.trans h0.symm)
      · intro x hx
        exact diglt m x (List.mem_reverse.mp hx)
      · intro x hx
        simp only [List.mem_singleton] at hx
        omega
    have : Nat.digits 10 m = [0] := by
      have := congrArg List.reverse this
      simpa using this
    have := congrArg (Nat.ofDigits 10) this
    rw [Nat.ofDigits_digits] at this
    simp [Nat.ofDigits] at this
    exact hm this
  · exfalso
    simp only [if_neg hn, if_pos hm] at h
    have hd : ((Nat.digits 10 n).reverse.map Nat.digitChar) = ['0'] := by
      have := congrArg String.data h
      simpa using this
    have : (Nat.digits 10 n).reverse = [0] := by
      have h0 : ([0].map Nat.digitChar) = ['0'] := by decide
      refine map_digitChar_inj _ [0] ?_ ?_ (hd.trans h0.symm)
      · intro x hx
        exact diglt n x (List.mem_reverse.mp hx)
      · intro x hx
        simp only [List.mem_singleton] at hx
        omega
    have : Nat.digits 10 n = [0] := by
      have := congrArg List.reverse this
      simpa using this
    have := congrArg (Nat.ofDigits 10) this
    rw [Nat.ofDigits_digits] at this
    simp [Nat.ofDigits] at this
    exact hn this
  · simp only [if_neg hn, if_neg hm] at h
    have hdata : ((Nat.digits 10 n).reverse.map Nat.digitChar)
        = ((Nat.digits 10 m).reverse.map Nat.digitChar) := congrArg String.data h
    have hrev := map_digitChar_inj _ _
      (fun x hx => diglt n x (List.mem_reverse.mp hx))
      (fun x hx => diglt m x (List.mem_reverse.mp hx)) hdata
    have hdig : Nat.digits 10 n = Nat.digits 10 m := by
      have := congrArg List.reverse hrev
      simpa using this
    have := congrArg (Nat.ofDigits 10) hdig
    rwa [Nat.ofDigits_digits, Nat.ofDigits_digits] at this

/-- JS `cleaned.charAt(0).toUpperCase() + cleaned.slice(1)`. -/
def capitalizeFirst : List Char → List Char
  | [] => []
  | c :: rest => upperAscii c :: rest

/-- The `cleaned` value computed by `generateComponentName` in
`src/core/figma/utils/component-name.ts`: strip non-alphanumerics, strip
leading non-letters, default to `Default` when empty, capitalize the first
character. -/
def cleanedName (name : String) : List Char :=
  capitalizeFirst
    (if ((name.data.filter isAsciiAlnumC).dropWhile
          (fun c => !isAsciiAlphaC c)).isEmpty then
      "Default".data
    else (name.data.filter isAsciiAlnumC).dropWhile (fun c => !isAsciiAlphaC c))

/-- Embedding of `generateComponentName` from
`src/core/figma/utils/component-name.ts`: the cleaned, capitalized name with
`Component` appended unless the name already ends with it. -/
def generateComponentName (name : String) : String :=
  if ("Component".data).isSuffixOf (cleanedName name) then
    String.mk (cleanedName name)
  else String.mk (cleanedName name ++ "Component".data)

theorem head_dropWhile_false {α : Type} (p : α → Bool) (l : List α) (c : α)
    (rest : List α) (h : l.dropWhile p = c :: rest) : p c = false := by
  induction l with
  | nil => simp at h
  | cons a as ih =>
    rw [List.dropWhile_cons] at h
    by_cases hp : p a = true
    · rw [if_pos hp] at h
      exact ih h
    · rw [if_neg hp] at h
      cases h
      simpa using hp

theorem mem_dropWhile {α : Type} (p : α → Bool) (l : List α) (x : α)
    (h : x ∈ l.dropWhile p) : x ∈ l := by
  induction l with
  | nil => simpa using h
  | cons a as ih =>
    rw [List.dropWhile_cons] at h
    by_cases hp : p a = true
    · rw [if_pos hp] at h
      exact List.mem_cons_of_mem a (ih h)
    · rwa [if_neg hp] at h

theorem cleanedName_shape (name : String) :
    ∃ c rest, cleanedName name = c :: rest ∧ isAsciiUpperC c = true ∧
      (∀ x ∈ cleanedName name, isAsciiAlnumC x = true) := by
  cases hm : (name.data.filter isAsciiAlnumC).dropWhile
      (fun c => !isAsciiAlphaC c) with
  | nil =>
    have hcl : cleanedName name = "Default".data := by
      unfold cleanedName
      rw [hm]
      decide
    rw [hcl]
    exact ⟨'D', "efault".data, by decide, by decide, by decide⟩
  | cons c rest =>
    have hcalpha : isAsciiAlphaC c = true := by
      have := head_dropWhile_false (fun c => !isAsciiAlphaC c) _ c rest hm
      simpa using this
    have hmem : ∀ x ∈ c :: rest, isAsciiAlnumC x = true := by
      intro x hx
      have hx1 : x ∈ (name.data.filter isAsciiAlnumC) :=
        mem_dropWhile _ _ _ (hm ▸ hx)
      exact (List.mem_filter.mp hx1).2
    have hcl : cleanedName name = upperAscii c :: rest := by
      unfold cleanedName
      rw [hm]
      simp [capitalizeFirst]
    rw [hcl]
    refine ⟨upperAscii c, rest, rfl, upperAscii_isUpper hcalpha, ?_⟩
    intro x hx
    rcases List.mem_cons.mp hx with hx | hx
    · rw [hx]
      exact upperAscii_isAlnum (hmem c (by simp))
    · exact hmem x (by simp [hx])

/-- Claim C10: for every input string, `generateComponentName` returns a
non-empty identifier that starts with an uppercase ASCII letter, contains
only ASCII letters and digits, and ends with the suffix `Component`; inputs
containing no letters yield `DefaultComponent`. -/
theorem C10_generateComponentName_shape (s : String) :
    generateComponentName s ≠ "" ∧
    (∃ c rest, (generateComponentName s).data = c :: rest ∧
      isAsciiUpperC c = true) ∧
    (∀ c ∈ (generateComponentName s).data, isAsciiAlnumC c = true) ∧
    ("Component".data.isSuffixOf (generateComponentName s).data = true) ∧
    ((∀ c ∈ s.data, isAsciiAlphaC c = false) →
      generateComponentName s = "DefaultComponent") := by
  obtain ⟨c, rest, hshape, hupper, halnum⟩ := cleanedName_shape s
  have hComp : ∀ x ∈ "Component".data, isAsciiAlnumC x = true := by decide
  have hdata : (generateComponentName s).data = cleanedName s ∨
      (generateComponentName s).data = cleanedName s ++ "Component".data := by
    unfold generateComponentName
    by_cases hsuf : (("Component".data).isSuffixOf (cleanedName s)) = true
    · rw [if_pos hsuf]
      exact Or.inl rfl
    · rw [if_neg hsuf]
      exact Or.inr rfl
  refine ⟨?_, ?_, ?_, ?_, ?_⟩
  · intro hempty
    have : (generateComponentName s).data = [] := by
      rw [hempty]
    rcases hdata with hd | hd <;> rw [hd] at this <;> rw [hshape] at this <;>
      simp at this
  · rcases hdata with hd | hd
    · exact ⟨c, rest, by rw [hd, hshape], hupper⟩
    · exact ⟨c, rest ++ "Component".data, by rw [hd, hshape]; rfl, hupper⟩
  · intro x hx
    rcases hdata with hd | hd
    · exact halnum x (hd ▸ hx)
    · rcases List.mem_append.mp (hd ▸ hx) with hx' | hx'
      · exact halnum x hx'
      · exact hComp x hx'
  · unfold generateComponentName
    by_cases hsuf : (("Component".data).isSuffixOf (cleanedName s)) = true
    · rw [if_pos hsuf]
      exact hsuf
    · rw [if_neg hsuf]
      exact List.isSuffixOf_iff_suffix.mpr (List.suffix_append _ _)
  · intro hnol
    have hc2 : (s.data.filter isAsciiAlnumC).dropWhile
        (fun c => !isAsciiAlphaC c) = [] := by
      apply List.dropWhile_eq_nil_iff.mpr
      intro x hx
      have := hnol x (List.mem_filter.mp hx).1
      simp [this]
    have hcl : cleanedName s = "Default".data := by
      unfold cleanedName
      rw [hc2]
      decide
    unfold generateComponentName
    rw [hcl]
    decide

/-- Witness for claim C10 at the concrete letterless input `"123"`. -/
theorem C10_generateComponentName_shape_witness :
    generateComponentName "123" = "DefaultComponent" :=
  (C10_generateComponentName_shape "123").2.2.2.2 (by decide)

/-- A node produced by the external `TailwindConverter`: either resolved (it
carries the originating rule, whose selector is used) or unresolved (it
carries a key).  Both carry the computed Tailwind class list.  This mirrors
the `TailwindNode` interface consumed by `figma-to-tailwind.ts`. -/
inductive TailwindNode where
  | resolved (selector : String) (tailwindClasses : List String)
  | unresolved (key : String) (tailwindClasses : List String)
deriving DecidableEq, Repr

/-- The result of the external `converter.convertCSS` call: the Tailwind
nodes plus the post-conversion CSS root, modelled as the list of its rules,
each a selector with its remaining (unconverted) declarations. -/
structure ConvertedCSS where
  nodes : List TailwindNode
  convertedRoot : List (String × List (String × String))
deriving DecidableEq, Repr

/-- Output shape of `convertCSSToTailwind` (`TailwindConversionResult` in
`figma-to-tailwind.ts`); JS `Map`s become insertion-ordered association
lists. -/
structure TailwindConversionResult where
  tailwindClasses : List (String × List String)
  fallbackCSS : String
  unsupportedDeclarations : List (String × List String)
deriving DecidableEq, Repr

/-- JS `Map.prototype.set`: overwrite in place if the key exists (keeping its
position), else append. -/
def setAssoc {α : Type} (m : List (String × α)) (k : String) (v : α) :
    List (String × α) :=
  if m.any (fun p => p.1 == k) then
    m.map (fun p => if p.1 == k then (k, v) else p)
  else m ++ [(k, v)]

/-- Embedding of `FigmaToTailwindConverter.extractClassNameFromSelector`. -/
def extractClassNameFromSelector (s : String) : String :=
  if s.startsWith "." then s.drop 1
  else
    match (s.splitOn " ").getLast? with
    | some lastPart => if lastPart.startsWith "." then lastPart.drop 1 else s
    | none => s

/-- Embedding of `FigmaToTailwindConverter.extractTailwindClasses`: map each
node's class name (from its selector) to its Tailwind classes, skipping empty
names and empty class lists. -/
def extractTailwindClasses (nodes : List TailwindNode) :
    List (String × List String) :=
  nodes.foldl (fun m node =>
    let selector := match node with
      | .resolved sel _ => sel
      | .unresolved key _ => key
    let classes := match node with
      | .resolved _ cs => cs
      | .unresolved _ cs => cs
    let className := extractClassNameFromSelector selector
    if className ≠ "" ∧ classes ≠ [] then setAssoc m className classes else m) []

/-- Embedding of `FigmaToTailwindConverter.extractUnsupportedDeclarations`:
walk the converted root's rules and record each rule's remaining
declarations, rendered `prop: value`. -/
def extractUnsupportedDeclarations
    (root : List (String × List (String × String))) :
    List (String × List String) :=
  root.foldl (fun m rule =>
    let unsupported := rule.2.map (fun d => d.1 ++ ": " ++ d.2)
    if unsupported ≠ [] then setAssoc m rule.1 unsupported else m) []

/-- Embedding of `FigmaToTailwindConverter.generateFallbackCSS`. -/
def generateFallbackCSS (unsup : List (String × List String)) : String :=
  if unsup = [] then ""
  else
    "\n/* Fallback styles for Tailwind-unsupported properties */\n" ++
      unsup.foldl (fun css entry =>
        if entry.2 = [] then css
        else
          css ++ entry.1 ++ " \x7b\n" ++
            entry.2.foldl (fun acc d => acc ++ "  " ++ d ++ ";\n") "" ++
            "\x7d\n") ""

/-- Embedding of `FigmaToTailwindConverter.convertCSSToTailwind`, with the
external `converter.convertCSS` call abstracted as a fallible function: on
success the classes and unsupported declarations are extracted, on failure
(the JS `catch` branch) fresh empty maps and the original CSS are
returned. -/
def convertCSSToTailwind (convert : String → Except String ConvertedCSS)
    (css : String) : TailwindConversionResult :=
  match convert css with
  | .ok result =>
    let unsup := extractUnsupportedDeclarations result.convertedRoot
    { tailwindClasses := extractTailwindClasses result.nodes
      fallbackCSS := generateFallbackCSS unsup
      unsupportedDeclarations := unsup }
  | .error _ =>
    { tailwindClasses := []
      fallbackCSS := css
      unsupportedDeclarations := [] }

/-- Babel expressions, restricted to the shapes the extractor inspects:
the four literal kinds recognized by `isLiteralLike`, identifier references,
and an opaque remainder carrying its Babel `type` tag and the identifier
names occurring inside it (used by `collectExpressionRefs`). -/
inductive Expr where
  | strLit (s : String)
  | numLit (n : Int)
  | boolLit (b : Bool)
  | nullLit
  | ident (name : String)
  | otherExpr (ty : String) (refs : List String)
deriving DecidableEq, Repr

/-- The value of a `JSXAttribute`: `absent` models Babel's `null` (bare
attribute), `str` a string literal, `expr` a `JSXExpressionContainer`, and
`elemVal` an element-valued attribute. -/
inductive AttrValue where
  | absent
  | str (s : String)
  | expr (e : Expr)
  | elemVal
deriving DecidableEq, Repr

/-- An attribute of a `JSXOpeningElement`: a named `JSXAttribute` (names are
plain `JSXIdentifier`s) or a `JSXSpreadAttribute`. -/
inductive JSXAttr where
  | attr (name : String) (value : AttrValue)
  | spread
deriving DecidableEq, Repr

/-- A JSX tree node: an element (tag, attributes, children), a `JSXText`
run, a `JSXExpressionContainer` child, or a `JSXFragment` (opaque). -/
inductive JSXNode where
  | elem (tag : String) (attrs : List JSXAttr) (children : List JSXNode)
  | text (s : String)
  | exprChild (e : Expr)
  | fragment
deriving Repr

mutual

/-- Structural equality on JSX nodes (the JS engine compares nodes by object
identity; structurally identical siblings always share a signature group, so
structural equality is an adequate model of `Array.prototype.includes` over a
signature group's nodes). -/
def beqNode : JSXNode → JSXNode → Bool
  | .elem t1 a1 c1, .elem t2 a2 c2 =>
    t1 == t2 && a1 == a2 && beqNodeList c1 c2
  | .text s1, .text s2 => s1 == s2
  | .exprChild e1, .exprChild e2 => e1 == e2
  | .fragment, .fragment => true
  | _, _ => false

/-- Pointwise `beqNode` on child lists. -/
def beqNodeList : List JSXNode → List JSXNode → Bool
  | [], [] => true
  | x :: xs, y :: ys => beqNode x y && beqNodeList xs ys
  | _, _ => false

end

/-- ASCII whitespace for the JS `trim` model. -/
def isJsWhitespace (c : Char) : Bool :=
  c == ' ' || c == '\t' || c == '\n' || c == '\r'

/-- Structural model of JS `String.prototype.trim` (ASCII whitespace). -/
def jsTrim (s : String) : String :=
  String.mk
    (((s.data.dropWhile isJsWhitespace).reverse.dropWhile
      isJsWhitespace).reverse)

/-- Embedding of `isLiteralLike`: string, numeric, boolean or null
literal. -/
def isLiteralLike : Expr → Bool
  | .strLit _ => true
  | .numLit _ => true
  | .boolLit _ => true
  | .nullLit => true
  | _ => false

/-- The Babel `type` string of an expression, as used in signature
strings. -/
def exprType : Expr → String
  | .strLit _ => "StringLiteral"
  | .numLit _ => "NumericLiteral"
  | .boolLit _ => "BooleanLiteral"
  | .nullLit => "NullLiteral"
  | .ident _ => "Identifier"
  | .otherExpr ty _ => ty

/-- Embedding of the `attrSig` helper inside `createSignature`. -/
def attrSig : JSXAttr → String
  | .spread => "\x7b...\x7d"
  | .attr key .absent => key ++ "=true"
  | .attr key (.str _) => key ++ "=str"
  | .attr key (.expr e) =>
    if isLiteralLike e then key ++ "=lit" else key ++ "=" ++ exprType e
  | .attr key .elemVal => key ++ "=elem"

mutual

/-- Embedding of the `childSig` helper inside `createSignature` (the element
case inlines `createSignature` itself). -/
def childSig : JSXNode → String
  | .text s => if jsTrim s ≠ "" then "txt" else "ws"
  | .exprChild e => if isLiteralLike e then "lit" else exprType e
  | .elem tag attrs cs =>
    tag ++ "[" ++ String.intercalate "|" (attrs.map attrSig) ++ "](" ++
      String.intercalate "," (childSigList cs) ++ ")"
  | .fragment => "<>"

/-- Signatures of a child list, in order. -/
def childSigList : List JSXNode → List String
  | [] => []
  | c :: cs => childSig c :: childSigList cs

end

/-- Embedding of `createSignature`: the structural signature string of an
element (tag, attribute kinds, child kinds). -/
def createSignature (n : JSXNode) : String :=
  match n with
  | .elem .. => childSig n
  | _ => ""

/-- A signature group accumulated by `transformJsx`: the member nodes and
their indices in the container's child list, in document order. -/
structure SigGroup where
  nodes : List JSXNode
  indices : List Nat
deriving Repr

/-- Insert one element child into the signature map, modelling
`groups.get(sig)` followed by `groups.set(sig, group)` on a JS `Map`
(insertion order preserved, existing keys updated in place). -/
def addToGroup (gs : List (String × SigGroup)) (sig : String) (n : JSXNode)
    (idx : Nat) : List (String × SigGroup) :=
  if gs.any (fun p => p.1 == sig) then
    gs.map (fun p =>
      if p.1 == sig then
        (p.1, ⟨p.2.nodes ++ [n], p.2.indices ++ [idx]⟩)
      else p)
  else gs ++ [(sig, ⟨[n], [idx]⟩)]

/-- One step of the grouping loop: element children are added to their
signature's group, other children are skipped. -/
def groupStep (gs : List (String × SigGroup)) (p : Nat × JSXNode) :
    List (String × SigGroup) :=
  match p.2 with
  | .elem t a c => addToGroup gs (createSignature (.elem t a c)) (.elem t a c) p.1
  | _ => gs

/-- Embedding of the grouping loop of `transformJsx`
(`container.children.forEach(...)`): group the element children by
signature, recording nodes and indices. -/
def groupBySig (cs : List JSXNode) : List (String × SigGroup) :=
  cs.enum.foldl groupStep []

/-- Stable insertion into a list sorted by descending group size: an element
is placed after every strictly larger element and before every
equal-or-smaller one, which is exactly the relative order a stable
descending sort gives an element against later list elements. -/
def insDesc (x : SigGroup) : List SigGroup → List SigGroup
  | [] => [x]
  | h :: t =>
    if x.nodes.length < h.nodes.length then h :: insDesc x t else x :: h :: t

/-- Stable sort by descending group size, the model of the ES2019+
(specified-stable) `Array.prototype.sort` call
`.sort((a, b) => b.nodes.length - a.nodes.length)`. -/
def sortGroupsDesc : List SigGroup → List SigGroup
  | [] => []
  | x :: xs => insDesc x (sortGroupsDesc xs)

/-- Embedding of the `bestGroup` selection in `transformJsx`: keep the groups
meeting the repeat threshold, stable-sort descending by size, take the
first. -/
def bestGroup (gs : List (String × SigGroup)) (minRepeats : Nat) :
    Option SigGroup :=
  (sortGroupsDesc ((gs.map (fun p => p.2)).filter
    (fun g => minRepeats ≤ g.nodes.length))).head?

/-- Claim C3: whenever the underlying Tailwind conversion fails,
`convertCSSToTailwind` does not propagate the error: it returns an empty
`tailwindClasses` map, an empty `unsupportedDeclarations` map, and
`fallbackCSS` equal to the original input CSS verbatim. -/
theorem C3_convertCSSToTailwind_error_fallback
    (convert : String → Except String ConvertedCSS) (css e : String)
    (h : convert css = .error e) :
    convertCSSToTailwind convert css =
      { tailwindClasses := []
        fallbackCSS := css
        unsupportedDeclarations := [] } := by
  unfold convertCSSToTailwind
  rw [h]

/-- Witness for claim C3: a converter that always throws, applied to a
concrete malformed CSS input. -/
theorem C3_convertCSSToTailwind_error_fallback_witness :
    convertCSSToTailwind (fun _ => .error "ParseError") "body \x7b color \x7d" =
      { tailwindClasses := []
        fallbackCSS := "body \x7b color \x7d"
        unsupportedDeclarations := [] } :=
  C3_convertCSSToTailwind_error_fallback _ _ "ParseError" rfl

/-- The kind of a Variable Site: differing text child or differing attribute
value. -/
inductive SiteKind where
  | textK
  | attrK
deriving DecidableEq, Repr

/-- Embedding of the `VarSite` record of the extractor. -/
structure VarSite where
  kind : SiteKind
  propKey : String
  path : List Nat
  attrName : Option String
deriving DecidableEq, Repr

/-- Character-level model of `toCamelCase`: each dash followed by a
lowercase letter is replaced by that letter uppercased, scanning left to
right as the JS global regex replace does. -/
def camelChars : List Char → List Char
  | [] => []
  | '-' :: c :: rest =>
    if 'a' ≤ c && c ≤ 'z' then upperAscii c :: camelChars rest
    else '-' :: camelChars (c :: rest)
  | c :: rest => c :: camelChars rest

/-- Embedding of `toCamelCase`. -/
def toCamelCase (s : String) : String := String.mk (camelChars s.data)

/-- Embedding of `getAttrLiteral` (on the attribute's value): a missing value
is the boolean literal `true`, a string value is itself, a literal-like
expression container yields its expression, anything else is `null`. -/
def getAttrLiteral : AttrValue → Option Expr
  | .absent => some (.boolLit true)
  | .str s => some (.strLit s)
  | .expr e => if isLiteralLike e then some e else none
  | .elemVal => none

/-- Embedding of `getChildLiteral`: trimmed non-empty text becomes a string
literal, a literal-like expression container yields its expression. -/
def getChildLiteral : JSXNode → Option Expr
  | .text s => if jsTrim s ≠ "" then some (.strLit (jsTrim s)) else none
  | .exprChild e => if isLiteralLike e then some e else none
  | _ => none

/-- Test for Babel's `JSXEmptyExpression` in the opaque-expression
encoding. -/
def isEmptyExpr : Expr → Bool
  | .otherExpr "JSXEmptyExpression" _ => true
  | _ => false

/-- Embedding of `hasMeaningfulContent`: more than one meaningful child, or a
meaningful text child, or more than three attributes. -/
def hasMeaningfulContent : JSXNode → Bool
  | .elem _ attrs cs =>
    let meaningful := cs.filter (fun ch =>
      match ch with
      | .text s => 0 < (jsTrim s).length
      | .elem .. => true
      | .exprChild e => !isEmptyExpr e
      | .fragment => false)
    1 < meaningful.length ||
      meaningful.any (fun ch => match ch with | .text _ => true | _ => false) ||
      3 < attrs.length
  | _ => false

/-- Model of `@babel/generator`'s `generate(e).code` on the literal-like
expressions the extractor compares (string escaping elided; distinct literal
values print distinctly). -/
def exprCode : Expr → String
  | .strLit s => "\"" ++ s ++ "\""
  | .numLit n => if n < 0 then "-" ++ natRepr (-n).toNat else natRepr n.toNat
  | .boolLit true => "true"
  | .boolLit false => "false"
  | .nullLit => "null"
  | .ident n => n
  | .otherExpr ty _ => "<" ++ ty ++ ">"

/-- The named (`JSXAttribute`) entries of an attribute list, the result of
`attributes.filter(t.isJSXAttribute)`. -/
def namedAttrs (attrs : List JSXAttr) : List JSXAttr :=
  attrs.filter (fun a => match a with | .attr .. => true | .spread => false)

/-- Lookup in the `propKeyCount` map of `findVariableSites` (default 0). -/
def lookupCount (st : List (String × Nat)) (k : String) : Nat :=
  match st.find? (fun p => p.1 == k) with
  | some p => p.2
  | none => 0

/-- Embedding of `getUniquePropKey` inside `findVariableSites`: first use of
a base key returns it bare, later uses append `count + 1`. -/
def getUniquePropKey (st : List (String × Nat)) (base : String) :
    String × List (String × Nat) :=
  let count := lookupCount st base
  (if count = 0 then base else base ++ natRepr (count + 1),
    setAssoc st base (count + 1))

/-- The attribute half of `findVariableSites.walk`: zip the named attributes
of the two representatives positionwise; where names match and both literal
values exist but print differently, record an attribute site keyed by the
camel-cased attribute name. -/
def attrSitesGo (st : List (String × Nat)) (path : List Nat) :
    List (JSXAttr × JSXAttr) → List VarSite × List (String × Nat)
  | [] => ([], st)
  | (aa, bb) :: rest =>
    match aa, bb with
    | .attr n1 v1, .attr n2 v2 =>
      if n1 = n2 then
        match getAttrLiteral v1, getAttrLiteral v2 with
        | some av, some bv =>
          if exprCode av ≠ exprCode bv then
            let (key, st1) := getUniquePropKey st (toCamelCase n1)
            let (others, st2) := attrSitesGo st1 path rest
            (⟨.attrK, key, path, some n1⟩ :: others, st2)
          else attrSitesGo st path rest
        | _, _ => attrSitesGo st path rest
      else attrSitesGo st path rest
    | _, _ => attrSitesGo st path rest

/-- The base key of a text site: `` `text${nextPath.join("")}` ``. -/
def textKeyBase (nextPath : List Nat) : String :=
  "text" ++ String.join (nextPath.map natRepr)

mutual

/-- Embedding of `findVariableSites.walk`: attribute sites of the current
element pair, then the child loop. -/
def walkSites (st : List (String × Nat)) (path : List Nat) :
    JSXNode → JSXNode → List VarSite × List (String × Nat)
  | .elem _ aAttrs aCs, .elem _ bAttrs bCs =>
    let p1 := attrSitesGo st path ((namedAttrs aAttrs).zip (namedAttrs bAttrs))
    let p2 := walkChildSites p1.2 path 0 aCs bCs
    (p1.1 ++ p2.1, p2.2)
  | _, _ => ([], st)

/-- The child loop of `findVariableSites.walk`: positionwise over the two
child lists (up to the shorter), record text sites for differing non-empty
text pairs and differing literal expression pairs, and recurse into matching
element pairs. -/
def walkChildSites (st : List (String × Nat)) (path : List Nat) (i : Nat) :
    List JSXNode → List JSXNode → List VarSite × List (String × Nat)
  | ca :: as2, cb :: bs2 =>
    let nextPath := path ++ [i]
    let p1 : List VarSite × List (String × Nat) :=
      match ca, cb with
      | .text sa, .text sb =>
        if jsTrim sa ≠ "" ∧ jsTrim sb ≠ "" ∧ jsTrim sa ≠ jsTrim sb then
          let (key, st1) := getUniquePropKey st (textKeyBase nextPath)
          ([⟨.textK, key, nextPath, none⟩], st1)
        else ([], st)
      | .exprChild ea, .exprChild eb =>
        match getChildLiteral (.exprChild ea), getChildLiteral (.exprChild eb) with
        | some la, some lb =>
          if exprCode la ≠ exprCode lb then
            let (key, st1) := getUniquePropKey st (textKeyBase nextPath)
            ([⟨.textK, key, nextPath, none⟩], st1)
          else ([], st)
        | _, _ => ([], st)
      | .elem t1 a1 c1, .elem t2 a2 c2 =>
        walkSites st nextPath (.elem t1 a1 c1) (.elem t2 a2 c2)
      | _, _ => ([], st)
    let p2 := walkChildSites p1.2 path (i + 1) as2 bs2
    (p1.1 ++ p2.1, p2.2)
  | _, _ => ([], st)

end

/-- Embedding of `findVariableSites`. -/
def findVariableSites (a b : JSXNode) : List VarSite :=
  (walkSites [] [] a b).1

/-- The children of an element node (`[]` for non-elements). -/
def childrenOf : JSXNode → List JSXNode
  | .elem _ _ cs => cs
  | _ => []

/-- The navigation loop of `navigateToPath`: step through all but the last
path component, requiring an element at every step. -/
def navigatePrefix : JSXNode → List Nat → Option JSXNode
  | cur, [] => some cur
  | cur, i :: rest =>
    match cur with
    | .elem _ _ cs =>
      match cs.get? i with
      | some (.elem t a c) => navigatePrefix (.elem t a c) rest
      | _ => none
    | _ => none

/-- Embedding of `navigateToPath`: the parent element reached by the path
prefix and the final index (`none` models the `-1` produced by
`path[path.length - 1] ?? -1`). -/
def navigateToPath (root : JSXNode) (path : List Nat) :
    Option (JSXNode × Option Nat) :=
  match navigatePrefix root path.dropLast with
  | some parent => some (parent, path.getLast?)
  | none => none

/-- Embedding of `extractValue`: total — it yields the literal at the site's
position in the given occurrence, or the empty string literal when
navigation fails or no literal is there. -/
def extractValue (node : JSXNode) (site : VarSite) : Expr :=
  match navigateToPath node site.path with
  | none => .strLit ""
  | some (parent, idxOpt) =>
    match site.kind with
    | .textK =>
      match idxOpt with
      | some i =>
        match (childrenOf parent).get? i with
        | some ch => (getChildLiteral ch).getD (.strLit "")
        | none => .strLit ""
      | none => .strLit ""
    | .attrK =>
      match (match idxOpt with
        | none => some parent
        | some i => (childrenOf parent).get? i) with
      | some (.elem _ attrs _) =>
        match (namedAttrs attrs).find? (fun a =>
            match a with
            | .attr n _ => n == site.attrName.getD ""
            | .spread => false) with
        | some (.attr _ v) => (getAttrLiteral v).getD (.strLit "")
        | _ => .strLit ""
      | _ => .strLit ""

/-- Functional update at a path prefix: apply `f` to the node reached by the
prefix; where navigation fails the tree is returned unchanged (the JS
functions return early). -/
def updateAtPrefix (n : JSXNode) (pre : List Nat) (f : JSXNode → JSXNode) :
    JSXNode :=
  match pre with
  | [] => f n
  | i :: rest =>
    match n with
    | .elem t a cs =>
      match cs.get? i with
      | some (.elem t2 a2 c2) =>
        .elem t a (cs.set i (updateAtPrefix (.elem t2 a2 c2) rest f))
      | _ => n
    | _ => n

/-- Replace the value of the first named attribute called `target` (the JS
`find` over `attributes.filter(t.isJSXAttribute)` followed by in-place
mutation). -/
def setFirstAttr : List JSXAttr → String → AttrValue → List JSXAttr
  | [], _, _ => []
  | .attr n v :: rest, target, nv =>
    if n = target then .attr n nv :: rest
    else .attr n v :: setFirstAttr rest target nv
  | .spread :: rest, target, nv => .spread :: setFirstAttr rest target nv

/-- Embedding of `replaceWithProp` (functional): put `{propKey}` at the
site's position in the template. -/
def replaceWithProp (t : JSXNode) (site : VarSite) : JSXNode :=
  match site.kind with
  | .textK =>
    updateAtPrefix t site.path.dropLast (fun parent =>
      match parent, site.path.getLast? with
      | .elem tg a cs, some i =>
        .elem tg a (cs.set i (.exprChild (.ident site.propKey)))
      | _, _ => parent)
  | .attrK =>
    updateAtPrefix t site.path.dropLast (fun parent =>
      match site.path.getLast? with
      | none =>
        match parent with
        | .elem tg a cs =>
          .elem tg (setFirstAttr a (site.attrName.getD "")
            (.expr (.ident site.propKey))) cs
        | _ => parent
      | some i =>
        match parent with
        | .elem tg a cs =>
          match cs.get? i with
          | some (.elem t2 a2 c2) =>
            .elem tg a (cs.set i (.elem t2 (setFirstAttr a2
              (site.attrName.getD "") (.expr (.ident site.propKey))) c2))
          | _ => parent
        | _ => parent)

/-- Sequential application of `replaceWithProp` over all sites
(`sites.forEach(site => replaceWithProp(template, site))`). -/
def applySites (sites : List VarSite) (t : JSXNode) : JSXNode :=
  sites.foldl replaceWithProp t

/-- Identifier names inside one expression, as `collectExpressionRefs`'s
walk finds them. -/
def collectRefsExpr : Expr → List String
  | .ident n => [n]
  | .otherExpr _ refs => refs
  | _ => []

/-- Identifier names inside one attribute. -/
def collectRefsAttr : JSXAttr → List String
  | .attr _ (.expr e) => collectRefsExpr e
  | _ => []

mutual

/-- Identifier references occurring in a JSX tree, in visit order (the walk
of `collectExpressionRefs` before `Set` deduplication). -/
def collectRefsNode : JSXNode → List String
  | .elem _ attrs cs =>
    (attrs.map collectRefsAttr).flatten ++ collectRefsList cs
  | .text _ => []
  | .exprChild e => collectRefsExpr e
  | .fragment => []

/-- Identifier references of a child list. -/
def collectRefsList : List JSXNode → List String
  | [] => []
  | c :: cs => collectRefsNode c ++ collectRefsList cs

end

/-- First-occurrence deduplication, the JS `Set` insertion order. -/
def dedupFirst : List String → List String
  | [] => []
  | x :: xs => x :: dedupFirst (xs.filter (fun y => y ≠ x))
termination_by l => l.length
decreasing_by
  simp only [List.length_cons]
  exact Nat.lt_succ_of_le (List.length_filter_le _ _)

/-- Embedding of `collectExpressionRefs`. -/
def collectExpressionRefs (n : JSXNode) : List String :=
  dedupFirst (collectRefsNode n)

/-- A generated component declaration
(`function Name({ ...params }: any) { return template }`). -/
structure ComponentDecl where
  name : String
  params : List String
  body : JSXNode
deriving Repr

/-- Embedding of `createComponent`: clone the example, replace every site
with its prop reference, and add any remaining expression references as
pass-through parameters. -/
def createComponent (name : String) (rep : JSXNode)
    (sites : List VarSite) : ComponentDecl :=
  let template := applySites sites rep
  let usedRefs := collectExpressionRefs template
  let additionalProps := usedRefs.filter
    (fun r => !sites.any (fun s => s.propKey == r))
  { name := name
    params := sites.map (fun s => s.propKey) ++ additionalProps
    body := template }

/-- Embedding of `createInstance`: a self-closing instantiation passing each
site's extracted value and each additional reference as a pass-through
prop. -/
def createInstance (original : JSXNode) (compName : String)
    (sites : List VarSite) (additionalRefs : List String) : JSXNode :=
  .elem compName
    (sites.map (fun s => .attr s.propKey (.expr (extractValue original s))) ++
      additionalRefs.map (fun r => .attr r (.expr (.ident r))))
    []

/-- Ascending insertion (stable) for `areConsecutive`'s numeric sort. -/
def insAsc (x : Nat) : List Nat → List Nat
  | [] => [x]
  | h :: t => if x ≤ h then x :: h :: t else h :: insAsc x t

/-- Ascending sort, the model of `[...indices].sort((a, b) => a - b)`. -/
def sortNatAsc : List Nat → List Nat
  | [] => []
  | x :: xs => insAsc x (sortNatAsc xs)

/-- Successive-integers check
(`sorted.every((val, i) => i === 0 || val === sorted[i-1] + 1)`). -/
def chainSucc : List Nat → Bool
  | [] => true
  | [_] => true
  | a :: b :: t => (b == a + 1) && chainSucc (b :: t)

/-- Embedding of `areConsecutive`: false on the empty list, else the sorted
indices must be successive integers. -/
def areConsecutive (l : List Nat) : Bool :=
  !l.isEmpty && chainSucc (sortNatAsc l)

/-- The candidate sequence tried by `getUniqueName`'s while loop: the base
name, then `base2`, `base3`, ... -/
def uniqueCand (base : String) : Nat → String
  | 0 => base
  | k + 1 => base ++ natRepr (k + 2)

/-- The loop condition of `getUniqueName`: the candidate is already a used
generated name, a binding of the program scope, or a reference in it. -/
def takenName (used bnd refs : List String) (c : String) : Bool :=
  used.contains c || bnd.contains c || refs.contains c

theorem natRepr_ne_empty (n : Nat) : (natRepr n).data ≠ [] := by
  rw [natRepr_eq_digits]
  by_cases hn : n = 0
  · rw [if_pos hn]
    decide
  · rw [if_neg hn]
    intro h
    have hd : (Nat.digits 10 n).reverse.map Nat.digitChar = [] := h
    have : Nat.digits 10 n = [] := by
      have := List.map_eq_nil_iff.mp hd
      simpa using this
    rw [Nat.digits_eq_nil_iff_eq_zero] at this
    exact hn this

theorem uniqueCand_inj (base : String) : Function.Injective (uniqueCand base) := by
  have hlen : ∀ k, (uniqueCand base (k + 1)).data
      = base.data ++ (natRepr (k + 2)).data := by
    intro k
    simp [uniqueCand, String.data_append]
  intro a b h
  match a, b with
  | 0, 0 => rfl
  | 0, k + 1 =>
    exfalso
    have hd := congrArg String.data h
    rw [hlen k] at hd
    simp only [uniqueCand] at hd
    have hlen2 := congrArg List.length hd
    simp only [List.length_append] at hlen2
    cases hne : (natRepr (k + 2)).data with
    | nil => exact natRepr_ne_empty _ hne
    | cons c cs =>
      rw [hne] at hlen2
      simp only [List.length_cons] at hlen2
      omega
  | k + 1, 0 =>
    exfalso
    have hd := congrArg String.data h
    rw [hlen k] at hd
    simp only [uniqueCand] at hd
    have hlen2 := congrArg List.length hd
    simp only [List.length_append] at hlen2
    cases hne : (natRepr (k + 2)).data with
    | nil => exact natRepr_ne_empty _ hne
    | cons c cs =>
      rw [hne] at hlen2
      simp only [List.length_cons] at hlen2
      omega
  | k + 1, m + 1 =>
    have hd := congrArg String.data h
    rw [hlen k, hlen m] at hd
    have hrepr : (natRepr (k + 2)).data = (natRepr (m + 2)).data :=
      List.append_cancel_left hd
    have : natRepr (k + 2) = natRepr (m + 2) := by
      cases hk : natRepr (k + 2) with
      | mk dk =>
        cases hm2 : natRepr (m + 2) with
        | mk dm =>
          have : dk = dm := by
            have e1 : (natRepr (k + 2)).data = dk := by rw [hk]
            have e2 : (natRepr (m + 2)).data = dm := by rw [hm2]
            rw [e1, e2] at hrepr
            exact hrepr
          rw [this]
    have := natRepr_inj this
    omega

theorem exists_free_candidate (base : String) (used bnd refs : List String) :
    ∃ k, takenName used bnd refs (uniqueCand base k) = false := by
  by_contra hcon
  push_neg at hcon
  have htaken : ∀ k, takenName used bnd refs (uniqueCand base k) = true := by
    intro k
    have := hcon k
    cases h : takenName used bnd refs (uniqueCand base k)
    · exact absurd h this
    · rfl
  set L := used ++ bnd ++ refs with hL
  have hmem : ∀ k, uniqueCand base k ∈ L := by
    intro k
    have := htaken k
    simp only [takenName, Bool.or_eq_true] at this
    rcases this with (hb | hb) | hb <;>
      have hmem2 := List.elem_iff.mp hb <;> simp [hL, hmem2]
  have himg : (Finset.range (L.length + 1)).image (uniqueCand base) ⊆
      L.toFinset := by
    intro x hx
    simp only [Finset.mem_image] at hx
    rcases hx with ⟨k, _, hk⟩
    rw [← hk]
    exact List.mem_toFinset.mpr (hmem k)
  have hcard1 : ((Finset.range (L.length + 1)).image (uniqueCand base)).card
      = L.length + 1 := by
    rw [Finset.card_image_of_injective _ (uniqueCand_inj base)]
    simp
  have hcard2 : L.toFinset.card ≤ L.length := List.toFinset_card_le L
  have := Finset.card_le_card himg
  omega

/-- Embedding of `getUniqueName`: the first candidate in `base`, `base2`,
`base3`, ... that is neither a previously used generated name nor a binding
or reference of the program scope; the winner is added to the used set. -/
def getUniqueName (base : String) (used bnd refs : List String) :
    String × List String :=
  let k := Nat.find (exists_free_candidate base used bnd refs)
  (uniqueCand base k, uniqueCand base k :: used)

theorem getUniqueName_free (base : String) (used bnd refs : List String) :
    takenName used bnd refs (getUniqueName base used bnd refs).1 = false :=
  Nat.find_spec (exists_free_candidate base used bnd refs)

theorem contains_false_iff (l : List String) (c : String) :
    l.contains c = false ↔ c ∉ l := by
  constructor
  · intro h hc
    have := List.elem_iff.mpr hc
    rw [show l.elem c = l.contains c from rfl, h] at this
    cases this
  · intro h
    cases hc : l.contains c
    · rfl
    · exact absurd (List.elem_iff.mp hc) h

theorem takenName_false_iff (used bnd refs : List String) (c : String) :
    takenName used bnd refs c = false ↔ c ∉ used ∧ c ∉ bnd ∧ c ∉ refs := by
  unfold takenName
  rw [Bool.or_eq_false_iff, Bool.or_eq_false_iff]
  rw [contains_false_iff, contains_false_iff, contains_false_iff]
  tauto

/-- Claim C6: generated template and data-table names never shadow an
identifier bound (or referenced) in the program scope, and two successive
`getUniqueName` calls threading the used-name set — exactly how
`transformJsx` allocates `compName` and `arrName` and how successive
extractions allocate further names — never return the same name. -/
theorem C6_getUniqueName_collision_safety (base base2 : String)
    (used bnd refs : List String) :
    (getUniqueName base used bnd refs).1 ∉ used ∧
    (getUniqueName base used bnd refs).1 ∉ bnd ∧
    (getUniqueName base used bnd refs).1 ∉ refs ∧
    (getUniqueName base2 (getUniqueName base used bnd refs).2 bnd refs).1 ∉ bnd ∧
    (getUniqueName base2 (getUniqueName base used bnd refs).2 bnd refs).1 ∉ refs ∧
    (getUniqueName base2 (getUniqueName base used bnd refs).2 bnd refs).1 ≠
      (getUniqueName base used bnd refs).1 := by
  have h1 := (takenName_false_iff used bnd refs _).mp
    (getUniqueName_free base used bnd refs)
  have h2 := (takenName_false_iff (getUniqueName base used bnd refs).2 bnd refs _).mp
    (getUniqueName_free base2 (getUniqueName base used bnd refs).2 bnd refs)
  refine ⟨h1.1, h1.2.1, h1.2.2, h2.2.1, h2.2.2, ?_⟩
  intro heq
  apply h2.1
  rw [heq]
  show (getUniqueName base used bnd refs).1 ∈
    (getUniqueName base used bnd refs).1 :: used
  exact List.mem_cons_self _ _

theorem getChildLiteral_literalLike {ch : JSXNode} {e : Expr}
    (h : getChildLiteral ch = some e) : isLiteralLike e = true := by
  cases ch with
  | text s =>
    simp only [getChildLiteral] at h
    by_cases ht : jsTrim s ≠ ""
    · rw [if_pos ht] at h
      cases h
      rfl
    · rw [if_neg ht] at h
      cases h
  | exprChild e0 =>
    simp only [getChildLiteral] at h
    by_cases hl : isLiteralLike e0 = true
    · rw [if_pos hl] at h
      cases h
      exact hl
    · rw [if_neg hl] at h
      cases h
  | elem t a c => cases h
  | fragment => cases h

theorem getAttrLiteral_literalLike {v : AttrValue} {e : Expr}
    (h : getAttrLiteral v = some e) : isLiteralLike e = true := by
  cases v with
  | absent =>
    cases h
    rfl
  | str s =>
    cases h
    rfl
  | expr e0 =>
    simp only [getAttrLiteral] at h
    by_cases hl : isLiteralLike e0 = true
    · rw [if_pos hl] at h
      cases h
      exact hl
    · rw [if_neg hl] at h
      cases h
  | elemVal => cases h

/-- The literal value actually held at a site's target position (the
spec-side description of C9: "the target position holds no literal value"
is `siteLiteral = none`) — the lookup of `extractValue` without its
empty-string defaults: `none` when the path fails to navigate, when the
final index is missing or out of range, when the located child or
attribute value is not literal-like, when the attribute target is not an
element, or when the named attribute is absent. -/
def siteLiteral (node : JSXNode) (site : VarSite) : Option Expr :=
  match navigateToPath node site.path with
  | none => none
  | some (parent, idxOpt) =>
    match site.kind with
    | .textK =>
      match idxOpt with
      | some i =>
        match (childrenOf parent).get? i with
        | some ch => getChildLiteral ch
        | none => none
      | none => none
    | .attrK =>
      match (match idxOpt with
        | none => some parent
        | some i => (childrenOf parent).get? i) with
      | some (.elem _ attrs _) =>
        match (namedAttrs attrs).find? (fun a =>
            match a with
            | .attr n _ => n == site.attrName.getD ""
            | .spread => false) with
        | some (.attr _ v) => getAttrLiteral v
        | _ => none
      | _ => none

/-- Claim C9: `extractValue` is total at the extraction interface — it is
exactly the literal held at the site's target position with the empty
string literal as default, so it always returns a literal-like expression,
and it returns the empty string literal both when the site's path fails to
navigate AND when navigation succeeds but the target position holds no
literal value (missing index, non-literal child or attribute value,
non-element attribute target, absent attribute). -/
theorem C9_extractValue_total (node : JSXNode) (site : VarSite) :
    extractValue node site = (siteLiteral node site).getD (.strLit "") ∧
    isLiteralLike (extractValue node site) = true ∧
    (navigateToPath node site.path = none →
      extractValue node site = .strLit "") ∧
    (siteLiteral node site = none →
      extractValue node site = .strLit "") := by
  have hgetdChild : ∀ ch : JSXNode,
      isLiteralLike ((getChildLiteral ch).getD (.strLit "")) = true := by
    intro ch
    cases hl : getChildLiteral ch with
    | none => rfl
    | some e =>
      simp only [Option.getD_some]
      exact getChildLiteral_literalLike hl
  have hgetdAttr : ∀ v : AttrValue,
      isLiteralLike ((getAttrLiteral v).getD (.strLit "")) = true := by
    intro v
    cases hl : getAttrLiteral v with
    | none => rfl
    | some e =>
      simp only [Option.getD_some]
      exact getAttrLiteral_literalLike hl
  have h0 : extractValue node site
      = (siteLiteral node site).getD (.strLit "") := by
    unfold extractValue siteLiteral
    repeat' split
    all_goals rfl
  refine ⟨h0, ?_, ?_, ?_⟩
  · unfold extractValue
    repeat' split
    all_goals first
      | rfl
      | apply hgetdChild
      | apply hgetdAttr
  · intro hnav
    unfold extractValue
    rw [hnav]
  · intro hnone
    rw [h0, hnone]
    rfl

/-- Witness for claim C9 at two concrete sites: one whose path does not
navigate (`[0, 0]` into a childless element), and one whose path navigates
fine (`[0]` selecting an element child) but whose target position holds no
literal — both default to the empty string literal. -/
theorem C9_extractValue_total_witness :
    (navigateToPath (.elem "div" [] []) [0, 0] = none
      ∧ extractValue (.elem "div" [] []) ⟨.textK, "k", [0, 0], none⟩
        = .strLit "")
    ∧ (navigateToPath (.elem "div" [] [.elem "span" [] []]) [0]
        = some (.elem "div" [] [.elem "span" [] []], some 0)
      ∧ siteLiteral (.elem "div" [] [.elem "span" [] []])
          ⟨.textK, "k", [0], none⟩ = none
      ∧ extractValue (.elem "div" [] [.elem "span" [] []])
          ⟨.textK, "k", [0], none⟩ = .strLit ""
      ∧ isLiteralLike (extractValue (.elem "div" [] [.elem "span" [] []])
          ⟨.textK, "k", [0], none⟩) = true) :=
  ⟨⟨rfl,
    (C9_extractValue_total (.elem "div" [] [])
      ⟨.textK, "k", [0, 0], none⟩).2.2.1 rfl⟩,
    ⟨rfl, rfl,
      (C9_extractValue_total (.elem "div" [] [.elem "span" [] []])
        ⟨.textK, "k", [0], none⟩).2.2.2 rfl,
      (C9_extractValue_total (.elem "div" [] [.elem "span" [] []])
        ⟨.textK, "k", [0], none⟩).2.1⟩⟩

theorem insDesc_ne_nil (x : SigGroup) (l : List SigGroup) : insDesc x l ≠ [] := by
  cases l with
  | nil => simp [insDesc]
  | cons h t =>
    unfold insDesc
    by_cases hc : x.nodes.length < h.nodes.length
    · rw [if_pos hc]
      simp
    · rw [if_neg hc]
      simp

theorem sortGroupsDesc_nil_iff (l : List SigGroup) :
    sortGroupsDesc l = [] ↔ l = [] := by
  cases l with
  | nil => simp [sortGroupsDesc]
  | cons a as =>
    simp only [sortGroupsDesc]
    constructor
    · intro h
      exact absurd h (insDesc_ne_nil a (sortGroupsDesc as))
    · intro h
      cases h

theorem insDesc_head (x h : SigGroup) (t : List SigGroup) :
    (insDesc x (h :: t)).head? =
      some (if x.nodes.length < h.nodes.length then h else x) := by
  unfold insDesc
  by_cases hc : x.nodes.length < h.nodes.length
  · rw [if_pos hc, if_pos hc]
    rfl
  · rw [if_neg hc, if_neg hc]
    rfl

theorem sortGroupsDesc_head_spec : ∀ (l : List SigGroup) (g : SigGroup),
    (sortGroupsDesc l).head? = some g →
    ∃ i, l.get? i = some g ∧
      (∀ j x, l.get? j = some x → x.nodes.length ≤ g.nodes.length) ∧
      (∀ j x, j < i → l.get? j = some x → x.nodes.length < g.nodes.length) := by
  intro l
  induction l with
  | nil =>
    intro g h
    simp [sortGroupsDesc] at h
  | cons a as ih =>
    intro g h
    rw [show sortGroupsDesc (a :: as) = insDesc a (sortGroupsDesc as) from rfl] at h
    cases hs : sortGroupsDesc as with
    | nil =>
      rw [hs] at h
      simp only [insDesc, List.head?_cons, Option.some.injEq] at h
      have has : as = [] := (sortGroupsDesc_nil_iff as).mp hs
      subst has
      subst h
      refine ⟨0, rfl, ?_, ?_⟩
      · intro j x hj
        cases j with
        | zero =>
          cases hj
          exact le_refl _
        | succ j => cases hj
      · intro j x hjlt hj
        omega
    | cons b bs =>
      rw [hs, insDesc_head] at h
      have hb : (sortGroupsDesc as).head? = some b := by
        rw [hs]
        rfl
      obtain ⟨i, hgeti, hmax, hfirst⟩ := ih b hb
      by_cases hlt : a.nodes.length < b.nodes.length
      · rw [if_pos hlt] at h
        have hg : b = g := by
          cases h
          rfl
        subst hg
        refine ⟨i + 1, by simpa using hgeti, ?_, ?_⟩
        · intro j x hj
          cases j with
          | zero =>
            cases hj
            exact le_of_lt hlt
          | succ j => exact hmax j x (by simpa using hj)
        · intro j x hjlt hj
          cases j with
          | zero =>
            cases hj
            exact hlt
          | succ j => exact hfirst j x (by omega) (by simpa using hj)
      · rw [if_neg hlt] at h
        have hg : a = g := by
          cases h
          rfl
        subst hg
        refine ⟨0, rfl, ?_, ?_⟩
        · intro j x hj
          cases j with
          | zero =>
            cases hj
            exact le_refl _
          | succ j =>
            have := hmax j x (by simpa using hj)
            have hb_le : b.nodes.length ≤ a.nodes.length := by omega
            omega
        · intro j x hjlt hj
          omega

/-- The element children of `seen` whose signature is `sig`, with their
indices: the reference value for a signature group's content. -/
def sigFilter (seen : List (Nat × JSXNode)) (sig : String) :
    List (Nat × JSXNode) :=
  seen.filter (fun p =>
    (match p.2 with | .elem .. => true | _ => false) &&
      (createSignature p.2 == sig))

theorem sigFilter_append_one (seen : List (Nat × JSXNode))
    (p : Nat × JSXNode) (sig : String) :
    sigFilter (seen ++ [p]) sig =
      sigFilter seen sig ++
        (if ((match p.2 with | .elem .. => true | _ => false) &&
            (createSignature p.2 == sig)) = true then [p] else []) := by
  unfold sigFilter
  rw [List.filter_append]
  congr 1
  by_cases hc : ((match p.2 with | .elem .. => true | _ => false) &&
      (createSignature p.2 == sig)) = true
  · rw [if_pos hc]
    simp [List.filter_cons, hc]
  · rw [if_neg hc]
    have hcf : ((match p.2 with | .elem .. => true | _ => false) &&
        (createSignature p.2 == sig)) = false := by
      cases h : ((match p.2 with | .elem .. => true | _ => false) &&
          (createSignature p.2 == sig))
      · rfl
      · exact absurd h hc
    simp [List.filter_cons, hcf]

theorem sigFilter_append_skip (seen : List (Nat × JSXNode))
    (p : Nat × JSXNode) (sig : String)
    (hcf : ¬((match p.2 with | .elem .. => true | _ => false) &&
        (createSignature p.2 == sig)) = true) :
    sigFilter (seen ++ [p]) sig = sigFilter seen sig := by
  rw [sigFilter_append_one, if_neg hcf]
  simp

theorem groupStep_inv : ∀ (pairs : List (Nat × JSXNode))
    (gs : List (String × SigGroup)) (seen : List (Nat × JSXNode)),
    (∀ sig grp, (sig, grp) ∈ gs →
        grp.nodes = (sigFilter seen sig).map Prod.snd ∧
        grp.indices = (sigFilter seen sig).map Prod.fst) →
    (∀ sig, (gs.any (fun q => q.1 == sig)) = true ↔ sigFilter seen sig ≠ []) →
    ∀ sig grp, (sig, grp) ∈ pairs.foldl groupStep gs →
        grp.nodes = (sigFilter (seen ++ pairs) sig).map Prod.snd ∧
        grp.indices = (sigFilter (seen ++ pairs) sig).map Prod.fst := by
  intro pairs
  induction pairs with
  | nil =>
    intro gs seen h1 h2 sig grp hmem
    simpa using h1 sig grp hmem
  | cons p ps ih =>
    intro gs seen h1 h2 sig grp hmem
    have hseen : seen ++ p :: ps = (seen ++ [p]) ++ ps := by simp
    rw [hseen]
    have hfold : (p :: ps).foldl groupStep gs
        = ps.foldl groupStep (groupStep gs p) := rfl
    rw [hfold] at hmem
    -- the two invariants survive one step; dispatch by the child's shape
    by_cases helem : ∃ t a c, p.2 = JSXNode.elem t a c
    case neg =>
      have hstep : groupStep gs p = gs := by
        unfold groupStep
        cases hp : p.2 with
        | elem t a c => exact absurd ⟨t, a, c, hp⟩ helem
        | text s => rfl
        | exprChild e => rfl
        | fragment => rfl
      have hskip : ∀ sig', sigFilter (seen ++ [p]) sig' = sigFilter seen sig' := by
        intro sig'
        apply sigFilter_append_skip
        cases hp : p.2 with
        | elem t a c => exact absurd ⟨t, a, c, hp⟩ helem
        | text s => simp
        | exprChild e => simp
        | fragment => simp
      refine ih (groupStep gs p) (seen ++ [p]) ?_ ?_ sig grp hmem
      · intro sig' grp' hmem'
        rw [hstep] at hmem'
        rw [hskip]
        exact h1 sig' grp' hmem'
      · intro sig'
        rw [hstep, hskip]
        exact h2 sig'
    case pos =>
      obtain ⟨t, a, c, hp⟩ := helem
      have hstep : groupStep gs p =
          addToGroup gs (createSignature (.elem t a c)) (.elem t a c) p.1 := by
        unfold groupStep
        rw [hp]
      have hfilter_eq : ∀ sig', sig' = createSignature (.elem t a c) →
          sigFilter (seen ++ [p]) sig' = sigFilter seen sig' ++ [p] := by
        intro sig' hsig'
        rw [sigFilter_append_one]
        rw [if_pos (by rw [hp, hsig']; simp)]
      have hfilter_ne : ∀ sig', sig' ≠ createSignature (.elem t a c) →
          sigFilter (seen ++ [p]) sig' = sigFilter seen sig' := by
        intro sig' hsig'
        apply sigFilter_append_skip
        rw [hp]
        simp only [Bool.true_and, beq_iff_eq]
        intro hcontra
        exact hsig' hcontra.symm
      refine ih (groupStep gs p) (seen ++ [p]) ?_ ?_ sig grp hmem
      · -- content invariant
        intro sig' grp' hmem'
        rw [hstep] at hmem'
        unfold addToGroup at hmem'
        by_cases hpresent :
            (gs.any (fun q => q.1 == createSignature (.elem t a c))) = true
        · rw [if_pos hpresent] at hmem'
          obtain ⟨q, hq, hqe⟩ := List.mem_map.mp hmem'
          by_cases hkey : (q.1 == createSignature (.elem t a c)) = true
          · rw [if_pos hkey] at hqe
            have hq1 : q.1 = createSignature (.elem t a c) := (beq_iff_eq ..).mp hkey
            have hsig : q.1 = sig' := congrArg Prod.fst hqe
            have hgrp : grp' = ⟨q.2.nodes ++ [JSXNode.elem t a c],
                q.2.indices ++ [p.1]⟩ := (congrArg Prod.snd hqe).symm
            have hold := h1 q.1 q.2 (by
              have hqpair : (q.1, q.2) = q := rfl
              rw [hqpair]
              exact hq)
            rw [hfilter_eq sig' (by rw [← hsig]; exact hq1)]
            rw [hgrp]
            rw [← hsig]
            constructor
            · simp only [List.map_append, List.map_cons, List.map_nil]
              rw [hold.1, hp]
            · simp only [List.map_append, List.map_cons, List.map_nil]
              rw [hold.2]
          · rw [if_neg hkey] at hqe
            have hmemgs : (sig', grp') ∈ gs := hqe ▸ hq
            have hold := h1 sig' grp' hmemgs
            have hne : sig' ≠ createSignature (.elem t a c) := by
              intro hcontra
              apply hkey
              have hsig : q.1 = sig' := congrArg Prod.fst hqe
              rw [hsig, hcontra]
              simp
            rw [hfilter_ne sig' hne]
            exact hold
        · rw [if_neg hpresent] at hmem'
          rcases List.mem_append.mp hmem' with hold | hnew
          · have holdc := h1 sig' grp' hold
            have hne : sig' ≠ createSignature (.elem t a c) := by
              intro hcontra
              apply hpresent
              apply List.any_eq_true.mpr
              exact ⟨(sig', grp'), hold, by simp [hcontra]⟩
            rw [hfilter_ne sig' hne]
            exact holdc
          · simp only [List.mem_singleton] at hnew
            have hsig : sig' = createSignature (.elem t a c) :=
              congrArg Prod.fst hnew
            have hgrp : grp' = ⟨[JSXNode.elem t a c], [p.1]⟩ :=
              congrArg Prod.snd hnew
            have hempty : sigFilter seen sig' = [] := by
              by_contra hnil
              apply hpresent
              rw [hsig] at hnil
              exact (h2 _).mpr hnil
            rw [hfilter_eq sig' hsig, hempty, hgrp]
            constructor
            · simp [hp]
            · simp
      · -- key-presence invariant
        intro sig'
        rw [hstep]
        unfold addToGroup
        by_cases hpresent :
            (gs.any (fun q => q.1 == createSignature (.elem t a c))) = true
        · rw [if_pos hpresent]
          have hkeys : ((gs.map (fun q =>
              if q.1 == createSignature (.elem t a c) then
                (q.1, (⟨q.2.nodes ++ [JSXNode.elem t a c],
                  q.2.indices ++ [p.1]⟩ : SigGroup))
              else q)).any (fun q => q.1 == sig')) =
              (gs.any (fun q => q.1 == sig')) := by
            rw [List.any_map]
            congr 1
            funext q
            by_cases hq : (q.1 == createSignature (.elem t a c)) = true
            · simp [Function.comp, hq]
            · simp [Function.comp, hq]
          rw [hkeys]
          by_cases hsig : sig' = createSignature (.elem t a c)
          · constructor
            · intro _
              rw [hfilter_eq sig' hsig]
              simp
            · intro _
              rw [hsig]
              exact hpresent
          · rw [hfilter_ne sig' hsig]
            exact h2 sig'
        · rw [if_neg hpresent]
          rw [List.any_append]
          by_cases hsig : sig' = createSignature (.elem t a c)
          · constructor
            · intro _
              rw [hfilter_eq sig' hsig]
              simp
            · intro _
              simp [hsig]
          · rw [hfilter_ne sig' hsig]
            have hnew : (([((createSignature (.elem t a c) : String),
                (⟨[JSXNode.elem t a c], [p.1]⟩ : SigGroup))]).any
                  (fun q => q.1 == sig')) = false := by
              simp only [List.any_cons, List.any_nil, Bool.or_false]
              exact beq_eq_false_iff_ne.mpr (fun hcontra => hsig hcontra.symm)
            rw [hnew]
            simp only [Bool.or_false]
            exact h2 sig'

/-- Content of every group produced by `groupBySig`: exactly the element
children with that signature, with their indices, in document order. -/
theorem groupBySig_entry_spec (cs : List JSXNode) (sig : String)
    (grp : SigGroup) (hmem : (sig, grp) ∈ groupBySig cs) :
    grp.nodes = (sigFilter cs.enum sig).map Prod.snd ∧
    grp.indices = (sigFilter cs.enum sig).map Prod.fst := by
  have := groupStep_inv cs.enum [] []
    (by intro sig' grp' hmem'; cases hmem')
    (by
      intro sig'
      simp [sigFilter])
    sig grp (by simpa [groupBySig] using hmem)
  simpa using this

/-- The document-ordered list of signature groups meeting the repeat
threshold, the list the `bestGroup` selection sorts. -/
def qualifyingGroups (cs : List JSXNode) (minRepeats : Nat) : List SigGroup :=
  ((groupBySig cs).map (fun p => p.2)).filter
    (fun g => minRepeats ≤ g.nodes.length)

/-- Claim C7: the children are grouped by structural signature (the selected
group's members are exactly the element children bearing its signature, in
document order, with their indices); the selected group meets the
minimum-repeat threshold; no group meeting the threshold is larger; and on
ties the group first encountered in document order wins (every strictly
earlier qualifying group is strictly smaller). -/
theorem C7_best_group_selection (cs : List JSXNode) (minRepeats : Nat)
    (g : SigGroup) (h : bestGroup (groupBySig cs) minRepeats = some g) :
    minRepeats ≤ g.nodes.length ∧
    (∃ sig, (sig, g) ∈ groupBySig cs ∧
      g.nodes = (sigFilter cs.enum sig).map Prod.snd ∧
      g.indices = (sigFilter cs.enum sig).map Prod.fst) ∧
    (∀ sig' g', (sig', g') ∈ groupBySig cs →
      minRepeats ≤ g'.nodes.length → g'.nodes.length ≤ g.nodes.length) ∧
    (∃ i, (qualifyingGroups cs minRepeats).get? i = some g ∧
      ∀ j x, j < i → (qualifyingGroups cs minRepeats).get? j = some x →
        x.nodes.length < g.nodes.length) := by
  have h' : (sortGroupsDesc (qualifyingGroups cs minRepeats)).head? = some g := h
  obtain ⟨i, hgeti, hmax, hfirst⟩ :=
    sortGroupsDesc_head_spec (qualifyingGroups cs minRepeats) g h'
  have hgmem : g ∈ qualifyingGroups cs minRepeats := List.get?_mem hgeti
  have hgq : minRepeats ≤ g.nodes.length := by
    have := List.of_mem_filter hgmem
    simpa using this
  refine ⟨hgq, ?_, ?_, ⟨i, hgeti, hfirst⟩⟩
  · have hgmap : g ∈ (groupBySig cs).map (fun p => p.2) :=
      List.mem_of_mem_filter hgmem
    obtain ⟨p, hp, hpe⟩ := List.mem_map.mp hgmap
    refine ⟨p.1, ?_, ?_, ?_⟩
    · rw [show ((p.1, g) : String × SigGroup) = p from by
        rw [← hpe]]
      exact hp
    · exact hpe ▸ (groupBySig_entry_spec cs p.1 p.2 (by simpa using hp)).1
    · exact hpe ▸ (groupBySig_entry_spec cs p.1 p.2 (by simpa using hp)).2
  · intro sig' g' hmem' hqual
    have hmap : g' ∈ (groupBySig cs).map (fun p => p.2) :=
      List.mem_map.mpr ⟨(sig', g'), hmem', rfl⟩
    have hfil : g' ∈ qualifyingGroups cs minRepeats := by
      apply List.mem_filter.mpr
      exact ⟨hmap, by simpa using hqual⟩
    obtain ⟨j, hj⟩ := List.get?_of_mem hfil
    exact hmax j g' hj

/-- Witness for claim C7: a container with three structurally identical
`div` children (differing literal children) and one `span`; the `div` group
of size three is selected. -/
theorem C7_best_group_selection_witness :
    2 ≤ (SigGroup.mk
      [JSXNode.elem "div" [] [.exprChild (.numLit 1)],
        JSXNode.elem "div" [] [.exprChild (.numLit 2)],
        JSXNode.elem "div" [] [.exprChild (.numLit 3)]]
      [0, 2, 3]).nodes.length :=
  (C7_best_group_selection
    [JSXNode.elem "div" [] [.exprChild (.numLit 1)],
      JSXNode.elem "span" [] [],
      JSXNode.elem "div" [] [.exprChild (.numLit 2)],
      JSXNode.elem "div" [] [.exprChild (.numLit 3)]]
    2
    (SigGroup.mk
      [JSXNode.elem "div" [] [.exprChild (.numLit 1)],
        JSXNode.elem "div" [] [.exprChild (.numLit 2)],
        JSXNode.elem "div" [] [.exprChild (.numLit 3)]]
      [0, 2, 3])
    rfl).1

/-- The key produced for base `b` at occurrence count `c` by
`getUniquePropKey`: bare for the first use, numerically suffixed after. -/
def keyFor (b : String) (c : Nat) : String :=
  if c = 0 then b else b ++ natRepr (c + 1)

theorem getUniquePropKey_eq (st : List (String × Nat)) (b : String) :
    getUniquePropKey st b =
      (keyFor b (lookupCount st b), setAssoc st b (lookupCount st b + 1)) := rfl

theorem lookupCount_setAssoc_self (st : List (String × Nat)) (b : String)
    (v : Nat) : lookupCount (setAssoc st b v) b = v := by
  induction st with
  | nil => simp [setAssoc, lookupCount, List.find?]
  | cons p ps ih =>
    by_cases hp : (p.1 == b) = true
    · have hval : p.1 = b := (beq_iff_eq ..).mp hp
      unfold setAssoc
      rw [if_pos (by simp [hp])]
      unfold lookupCount
      simp only [List.map_cons, hp, if_pos]
      rw [List.find?_cons_of_pos _ (by simp)]
    · unfold setAssoc
      by_cases hany : ((p :: ps).any (fun q => q.1 == b)) = true
      · rw [if_pos hany]
        unfold lookupCount
        simp only [List.map_cons, hp, if_neg, Bool.not_eq_true]
        rw [List.find?_cons_of_neg _ (by simpa using hp)]
        have hany2 : (ps.any (fun q => q.1 == b)) = true := by
          have := List.any_cons .. ▸ hany
          rcases Bool.or_eq_true .. ▸ this with h | h
          · exact absurd h hp
          · exact h
        have := ih
        unfold setAssoc at this
        rw [if_pos hany2] at this
        unfold lookupCount at this
        exact this
      · rw [if_neg hany]
        unfold lookupCount
        rw [List.find?_append]
        have hfind : ((p :: ps).find? (fun q => q.1 == b)) = none := by
          rw [List.find?_eq_none]
          intro x hx hbx
          apply hany
          exact List.any_eq_true.mpr ⟨x, hx, hbx⟩
        rw [hfind]
        simp [List.find?]

theorem find_map_setAssoc (b b' : String) (v : Nat) (hne : b' ≠ b) :
    ∀ ps : List (String × Nat),
    List.find? (fun p => p.1 == b')
        (ps.map (fun p => if (p.1 == b) = true then (b, v) else p)) =
      List.find? (fun p => p.1 == b') ps := by
  intro ps
  induction ps with
  | nil => rfl
  | cons p ps ih =>
    simp only [List.map_cons]
    by_cases hp : (p.1 == b) = true
    · rw [if_pos hp]
      have hp1 : p.1 = b := (beq_iff_eq ..).mp hp
      have hbp' : (b == b') = false :=
        beq_eq_false_iff_ne.mpr (fun hcontra => hne hcontra.symm)
      have hpp' : (p.1 == b') = false := by
        rw [hp1]
        exact hbp'
      rw [List.find?_cons_of_neg _ (by simp [hbp']),
        List.find?_cons_of_neg _ (by simp [hpp'])]
      exact ih
    · rw [if_neg hp]
      by_cases hpb' : (p.1 == b') = true
      · rw [List.find?_cons_of_pos _ (by simpa using hpb'),
          List.find?_cons_of_pos _ (by simpa using hpb')]
      · rw [List.find?_cons_of_neg _ (by simpa using hpb'),
          List.find?_cons_of_neg _ (by simpa using hpb')]
        exact ih

theorem lookupCount_setAssoc_other (st : List (String × Nat)) (b b' : String)
    (v : Nat) (hne : b' ≠ b) :
    lookupCount (setAssoc st b v) b' = lookupCount st b' := by
  unfold setAssoc
  by_cases hany : (st.any (fun q => q.1 == b)) = true
  · rw [if_pos hany]
    unfold lookupCount
    rw [find_map_setAssoc b b' v hne st]
  · rw [if_neg hany]
    unfold lookupCount
    rw [List.find?_append]
    have hnone : (([(b, v)]).find? (fun q => q.1 == b')) = none := by
      rw [List.find?_eq_none]
      intro x hx hbx
      simp only [List.mem_singleton] at hx
      subst hx
      exact hne ((beq_iff_eq ..).mp hbx).symm
    rw [hnone, Option.or_none]

theorem lookupCount_setAssoc_mono (st : List (String × Nat)) (b b' : String) :
    lookupCount st b' ≤
      lookupCount (setAssoc st b (lookupCount st b + 1)) b' := by
  by_cases hne : b' = b
  · subst hne
    rw [lookupCount_setAssoc_self]
    omega
  · rw [lookupCount_setAssoc_other st b b' _ hne]

/-- Keys generated by a sequence of `getUniquePropKey` calls threading the
count state. -/
def keysOf (st : List (String × Nat)) : List String → List String
  | [] => []
  | b :: bs =>
    (getUniquePropKey st b).1 :: keysOf (getUniquePropKey st b).2 bs

/-- The count state after a sequence of `getUniquePropKey` calls. -/
def stateAfter (st : List (String × Nat)) (bases : List String) :
    List (String × Nat) :=
  bases.foldl (fun s b => (getUniquePropKey s b).2) st

theorem keysOf_append (st : List (String × Nat)) (l1 l2 : List String) :
    keysOf st (l1 ++ l2) = keysOf st l1 ++ keysOf (stateAfter st l1) l2 := by
  induction l1 generalizing st with
  | nil => simp [keysOf, stateAfter]
  | cons b bs ih =>
    simp only [List.cons_append, keysOf, List.cons.injEq, true_and,
      List.append_eq]
    rw [ih]
    rfl

theorem stateAfter_append (st : List (String × Nat)) (l1 l2 : List String) :
    stateAfter st (l1 ++ l2) = stateAfter (stateAfter st l1) l2 := by
  unfold stateAfter
  rw [List.foldl_append]

theorem keyFor_data (b : String) (c : Nat) :
    (keyFor b c).data =
      b.data ++ (if c = 0 then [] else (natRepr (c + 1)).data) := by
  unfold keyFor
  by_cases hc : c = 0
  · rw [if_pos hc, if_pos hc]
    simp
  · rw [if_neg hc, if_neg hc]
    rfl

theorem keyFor_same_inj (b : String) (c1 c2 : Nat)
    (h : keyFor b c1 = keyFor b c2) : c1 = c2 := by
  have hd := congrArg String.data h
  rw [keyFor_data, keyFor_data] at hd
  have hsfx := List.append_cancel_left hd
  by_cases h1 : c1 = 0 <;> by_cases h2 : c2 = 0
  · omega
  · rw [if_pos h1, if_neg h2] at hsfx
    exact absurd hsfx.symm (natRepr_ne_empty _)
  · rw [if_neg h1, if_pos h2] at hsfx
    exact absurd hsfx (natRepr_ne_empty _)
  · rw [if_neg h1, if_neg h2] at hsfx
    have : natRepr (c1 + 1) = natRepr (c2 + 1) := by
      cases hn1 : natRepr (c1 + 1) with
      | mk d1 =>
        cases hn2 : natRepr (c2 + 1) with
        | mk d2 =>
          have e1 : (natRepr (c1 + 1)).data = d1 := by rw [hn1]
          have e2 : (natRepr (c2 + 1)).data = d2 := by rw [hn2]
          rw [e1, e2] at hsfx
          rw [hsfx]
    have := natRepr_inj this
    omega

theorem keyFor_cross (b1 b2 : String) (c1 c2 : Nat)
    (h : keyFor b1 c1 = keyFor b2 c2) :
    b1.data <+: b2.data ∨ b2.data <+: b1.data := by
  have hd := congrArg String.data h
  rw [keyFor_data, keyFor_data] at hd
  rcases List.append_eq_append_iff.mp hd with ⟨a', ha1, _⟩ | ⟨c', hc1, _⟩
  · exact Or.inl ⟨a', ha1.symm⟩
  · exact Or.inr ⟨c', hc1.symm⟩

theorem keysOf_mem_shape : ∀ (bases : List String) (st : List (String × Nat))
    (k : String), k ∈ keysOf st bases →
    ∃ b ∈ bases, ∃ c, lookupCount st b ≤ c ∧ k = keyFor b c := by
  intro bases
  induction bases with
  | nil =>
    intro st k hk
    cases hk
  | cons b bs ih =>
    intro st k hk
    rw [keysOf] at hk
    rcases List.mem_cons.mp hk with hk | hk
    · refine ⟨b, by simp, lookupCount st b, le_refl _, ?_⟩
      rw [hk, getUniquePropKey_eq]
    · obtain ⟨b', hb', c, hc, hk'⟩ := ih _ k hk
      refine ⟨b', by simp [hb'], c, ?_, hk'⟩
      rw [getUniquePropKey_eq] at hc
      calc lookupCount st b'
          ≤ lookupCount (setAssoc st b (lookupCount st b + 1)) b' :=
            lookupCount_setAssoc_mono st b b'
        _ ≤ c := hc

theorem keysOf_nodup : ∀ (bases : List String) (st : List (String × Nat)),
    (∀ b1 ∈ bases, ∀ b2 ∈ bases, b1 ≠ b2 → ¬ b1.data <+: b2.data) →
    (keysOf st bases).Nodup := by
  intro bases
  induction bases with
  | nil =>
    intro st _
    exact List.nodup_nil
  | cons b bs ih =>
    intro st hpf
    rw [keysOf]
    apply List.nodup_cons.mpr
    constructor
    · intro hin
      obtain ⟨b', hb', c, hc, hk'⟩ := keysOf_mem_shape bs _ _ hin
      rw [getUniquePropKey_eq] at hk' hc
      by_cases hbb : b' = b
      · subst hbb
        rw [lookupCount_setAssoc_self] at hc
        have := keyFor_same_inj b' _ _ hk'
        omega
      · rcases keyFor_cross b b' _ _ hk' with hpre | hpre
        · exact hpf b (by simp) b' (by simp [hb'])
            (fun hcontra => hbb hcontra.symm) hpre
        · exact hpf b' (by simp [hb']) b (by simp) hbb hpre
    · exact ih _ (fun b1 h1 b2 h2 hne =>
        hpf b1 (by simp [h1]) b2 (by simp [h2]) hne)

/-- Base-key mirror of `attrSitesGo`: the base keys recorded by the
attribute loop, in order. -/
def attrBases : List (JSXAttr × JSXAttr) → List String
  | [] => []
  | (aa, bb) :: rest =>
    match aa, bb with
    | .attr n1 v1, .attr n2 v2 =>
      if n1 = n2 then
        match getAttrLiteral v1, getAttrLiteral v2 with
        | some av, some bv =>
          if exprCode av ≠ exprCode bv then
            toCamelCase n1 :: attrBases rest
          else attrBases rest
        | _, _ => attrBases rest
      else attrBases rest
    | _, _ => attrBases rest

mutual

/-- Base-key mirror of `walkSites`: the base keys of all recorded sites in
recording order. -/
def walkBasesNode (path : List Nat) : JSXNode → JSXNode → List String
  | .elem _ aAttrs aCs, .elem _ bAttrs bCs =>
    attrBases ((namedAttrs aAttrs).zip (namedAttrs bAttrs)) ++
      walkBasesChildren path 0 aCs bCs
  | _, _ => []

/-- Base-key mirror of `walkChildSites`. -/
def walkBasesChildren (path : List Nat) (i : Nat) :
    List JSXNode → List JSXNode → List String
  | ca :: as2, cb :: bs2 =>
    (match ca, cb with
      | .text sa, .text sb =>
        if jsTrim sa ≠ "" ∧ jsTrim sb ≠ "" ∧ jsTrim sa ≠ jsTrim sb then
          [textKeyBase (path ++ [i])]
        else []
      | .exprChild ea, .exprChild eb =>
        match getChildLiteral (.exprChild ea), getChildLiteral (.exprChild eb) with
        | some la, some lb =>
          if exprCode la ≠ exprCode lb then [textKeyBase (path ++ [i])]
          else []
        | _, _ => []
      | .elem t1 a1 c1, .elem t2 a2 c2 =>
        walkBasesNode (path ++ [i]) (.elem t1 a1 c1) (.elem t2 a2 c2)
      | _, _ => []) ++
      walkBasesChildren path (i + 1) as2 bs2
  | _, _ => []

end

theorem attrSitesGo_keys (path : List Nat) :
    ∀ (ps : List (JSXAttr × JSXAttr)) (st : List (String × Nat)),
    (attrSitesGo st path ps).1.map (fun s => s.propKey)
        = keysOf st (attrBases ps) ∧
    (attrSitesGo st path ps).2 = stateAfter st (attrBases ps) := by
  intro ps
  induction ps with
  | nil =>
    intro st
    exact ⟨rfl, rfl⟩
  | cons p rest ih =>
    intro st
    obtain ⟨aa, bb⟩ := p
    cases aa with
    | spread =>
      simpa [attrSitesGo, attrBases] using ih st
    | attr n1 v1 =>
      cases bb with
      | spread =>
        simpa [attrSitesGo, attrBases] using ih st
      | attr n2 v2 =>
        by_cases hn : n1 = n2
        · cases hav : getAttrLiteral v1 with
          | none =>
            simp only [attrSitesGo, attrBases, if_pos hn, hav]
            exact ih st
          | some av =>
            cases hbv : getAttrLiteral v2 with
            | none =>
              simp only [attrSitesGo, attrBases, if_pos hn, hav, hbv]
              exact ih st
            | some bv =>
              by_cases hcode : exprCode av ≠ exprCode bv
              · simp only [attrSitesGo, attrBases, if_pos hn, hav, hbv,
                  if_pos hcode]
                have := ih (getUniquePropKey st (toCamelCase n1)).2
                simp only [keysOf, stateAfter, List.foldl_cons]
                refine ⟨?_, ?_⟩
                · simp only [List.map_cons]
                  rw [this.1]
                · rw [this.2]
                  rfl
              · simp only [attrSitesGo, attrBases, if_pos hn, hav, hbv,
                  if_neg hcode]
                exact ih st
        · simp only [attrSitesGo, attrBases, if_neg hn]
          exact ih st

mutual

/-- The site keys produced by `walkSites` are exactly the keys generated by
threading `getUniquePropKey` over the recorded base keys, and the final
count state is the threaded state. -/
theorem walkSites_keys : ∀ (a b : JSXNode) (st : List (String × Nat))
    (path : List Nat),
    (walkSites st path a b).1.map (fun s => s.propKey)
        = keysOf st (walkBasesNode path a b) ∧
    (walkSites st path a b).2 = stateAfter st (walkBasesNode path a b)
  | .elem t1 aAttrs aCs, .elem t2 bAttrs bCs, st, path => by
    have hattr := attrSitesGo_keys path
      ((namedAttrs aAttrs).zip (namedAttrs bAttrs)) st
    have hchild := walkChildSites_keys aCs bCs
      (attrSitesGo st path ((namedAttrs aAttrs).zip (namedAttrs bAttrs))).2
      path 0
    simp only [walkSites, walkBasesNode]
    rw [keysOf_append, stateAfter_append]
    constructor
    · rw [List.map_append, hattr.1, hchild.1, hattr.2]
    · rw [hchild.2, hattr.2]
  | .elem .., .text _, st, path => ⟨rfl, rfl⟩
  | .elem .., .exprChild _, st, path => ⟨rfl, rfl⟩
  | .elem .., .fragment, st, path => ⟨rfl, rfl⟩
  | .text _, _, st, path => ⟨rfl, rfl⟩
  | .exprChild _, _, st, path => ⟨rfl, rfl⟩
  | .fragment, _, st, path => ⟨rfl, rfl⟩
termination_by a _ _ _ => sizeOf a

/-- Child-loop part of `walkSites_keys`. -/
theorem walkChildSites_keys : ∀ (as2 bs2 : List JSXNode)
    (st : List (String × Nat)) (path : List Nat) (i : Nat),
    (walkChildSites st path i as2 bs2).1.map (fun s => s.propKey)
        = keysOf st (walkBasesChildren path i as2 bs2) ∧
    (walkChildSites st path i as2 bs2).2
        = stateAfter st (walkBasesChildren path i as2 bs2)
  | [], [], st, path, i => ⟨rfl, rfl⟩
  | [], _ :: _, st, path, i => ⟨rfl, rfl⟩
  | _ :: _, [], st, path, i => ⟨rfl, rfl⟩
  | ca :: as2, cb :: bs2, st, path, i => by
    have hrest := walkChildSites_keys as2 bs2
    have hsplit : ∀ (p1 : List VarSite × List (String × Nat))
        (b1 : List String),
        p1.1.map (fun s => s.propKey) = keysOf st b1 →
        p1.2 = stateAfter st b1 →
        ((p1.1 ++ (walkChildSites p1.2 path (i + 1) as2 bs2).1).map
            (fun s => s.propKey)
          = keysOf st (b1 ++ walkBasesChildren path (i + 1) as2 bs2) ∧
        (walkChildSites p1.2 path (i + 1) as2 bs2).2
          = stateAfter st (b1 ++ walkBasesChildren path (i + 1) as2 bs2)) := by
      intro p1 b1 h1 h2
      have hr := hrest p1.2 path (i + 1)
      rw [keysOf_append, stateAfter_append, ← h2]
      constructor
      · rw [List.map_append, h1, hr.1]
      · rw [hr.2]
    have hsite : ∀ st0 : List (String × Nat),
        ((([(⟨.textK, (getUniquePropKey st0 (textKeyBase (path ++ [i]))).1,
            path ++ [i], none⟩ : VarSite)]).map (fun s => s.propKey))
          = keysOf st0 [textKeyBase (path ++ [i])]) := by
      intro st0
      simp [keysOf]
    have hsitest : ∀ st0 : List (String × Nat),
        (getUniquePropKey st0 (textKeyBase (path ++ [i]))).2
          = stateAfter st0 [textKeyBase (path ++ [i])] := by
      intro st0
      simp [stateAfter]
    cases ca with
    | text sa =>
      cases cb with
      | text sb =>
        by_cases hc : jsTrim sa ≠ "" ∧ jsTrim sb ≠ "" ∧ jsTrim sa ≠ jsTrim sb
        · have := hsplit
            ([⟨.textK, (getUniquePropKey st (textKeyBase (path ++ [i]))).1,
                path ++ [i], none⟩],
              (getUniquePropKey st (textKeyBase (path ++ [i]))).2)
            [textKeyBase (path ++ [i])] (hsite st) (hsitest st)
          simp only [walkChildSites, walkBasesChildren]
          rw [if_pos hc, if_pos hc]
          simpa using this
        · have := hsplit ([], st) [] rfl rfl
          simp only [walkChildSites, walkBasesChildren]
          rw [if_neg hc, if_neg hc]
          simpa using this
      | exprChild e =>
        have := hsplit ([], st) [] rfl rfl
        simp only [walkChildSites, walkBasesChildren]
        simpa using this
      | elem t2 a2 c2 =>
        have := hsplit ([], st) [] rfl rfl
        simp only [walkChildSites, walkBasesChildren]
        simpa using this
      | fragment =>
        have := hsplit ([], st) [] rfl rfl
        simp only [walkChildSites, walkBasesChildren]
        simpa using this
    | exprChild ea =>
      cases cb with
      | exprChild eb =>
        cases hla : getChildLiteral (.exprChild ea) with
        | none =>
          have := hsplit ([], st) [] rfl rfl
          simp only [walkChildSites, walkBasesChildren, hla]
          simpa using this
        | some la =>
          cases hlb : getChildLiteral (.exprChild eb) with
          | none =>
            have := hsplit ([], st) [] rfl rfl
            simp only [walkChildSites, walkBasesChildren, hla, hlb]
            simpa using this
          | some lb =>
            by_cases hc : exprCode la ≠ exprCode lb
            · have := hsplit
                ([⟨.textK, (getUniquePropKey st (textKeyBase (path ++ [i]))).1,
                    path ++ [i], none⟩],
                  (getUniquePropKey st (textKeyBase (path ++ [i]))).2)
                [textKeyBase (path ++ [i])] (hsite st) (hsitest st)
              simp only [walkChildSites, walkBasesChildren, hla, hlb]
              rw [if_pos hc, if_pos hc]
              simpa using this
            · have := hsplit ([], st) [] rfl rfl
              simp only [walkChildSites, walkBasesChildren, hla, hlb]
              rw [if_neg hc, if_neg hc]
              simpa using this
      | text sb =>
        have := hsplit ([], st) [] rfl rfl
        simp only [walkChildSites, walkBasesChildren]
        simpa using this
      | elem t2 a2 c2 =>
        have := hsplit ([], st) [] rfl rfl
        simp only [walkChildSites, walkBasesChildren]
        simpa using this
      | fragment =>
        have := hsplit ([], st) [] rfl rfl
        simp only [walkChildSites, walkBasesChildren]
        simpa using this
    | elem t1 a1 c1 =>
      cases cb with
      | elem t2 a2 c2 =>
        have hrec := walkSites_keys (.elem t1 a1 c1) (.elem t2 a2 c2) st
          (path ++ [i])
        have := hsplit (walkSites st (path ++ [i]) (.elem t1 a1 c1)
            (.elem t2 a2 c2))
          (walkBasesNode (path ++ [i]) (.elem t1 a1 c1) (.elem t2 a2 c2))
          hrec.1 hrec.2
        simp only [walkChildSites, walkBasesChildren]
        simpa using this
      | text sb =>
        have := hsplit ([], st) [] rfl rfl
        simp only [walkChildSites, walkBasesChildren]
        simpa using this
      | exprChild e =>
        have := hsplit ([], st) [] rfl rfl
        simp only [walkChildSites, walkBasesChildren]
        simpa using this
      | fragment =>
        have := hsplit ([], st) [] rfl rfl
        simp only [walkChildSites, walkBasesChildren]
        simpa using this
    | fragment =>
      cases cb with
      | text sb =>
        have := hsplit ([], st) [] rfl rfl
        simp only [walkChildSites, walkBasesChildren]
        simpa using this
      | exprChild e =>
        have := hsplit ([], st) [] rfl rfl
        simp only [walkChildSites, walkBasesChildren]
        simpa using this
      | elem t2 a2 c2 =>
        have := hsplit ([], st) [] rfl rfl
        simp only [walkChildSites, walkBasesChildren]
        simpa using this
      | fragment =>
        have := hsplit ([], st) [] rfl rfl
        simp only [walkChildSites, walkBasesChildren]
        simpa using this
termination_by as2 _ _ _ _ => sizeOf as2

end

theorem findVariableSites_keys (a b : JSXNode) :
    (findVariableSites a b).map (fun s => s.propKey)
      = keysOf [] (walkBasesNode [] a b) :=
  (walkSites_keys a b [] []).1

/-- Claim C8 is false as stated: the numeric-suffix deduplication of
`getUniquePropKey` can collide with a distinct base key.  Representatives
carrying attributes `alt2` and `alt` on the root and `alt` again on a child
yield the property keys `alt2`, `alt`, `alt2` — a duplicate within one
template. -/
theorem C8_counterexample :
    ¬ (((findVariableSites
      (.elem "div" [.attr "alt2" (.str "x"), .attr "alt" (.str "y")]
        [.elem "img" [.attr "alt" (.str "z")] []])
      (.elem "div" [.attr "alt2" (.str "X"), .attr "alt" (.str "Y")]
        [.elem "img" [.attr "alt" (.str "Z")] []])).map
          (fun s => s.propKey)).Nodup) := by
  decide

/-- Claim C8 (amended): the Variable Sites produced by `findVariableSites`
have pairwise-distinct `propKey` values — colliding base keys are
deduplicated with numeric suffixes — provided no two distinct recorded base
keys (camel-cased attribute names and path-derived text keys) stand in a
string-prefix relation (the counterexample `alt` / `alt2` violates this
proviso). -/
theorem C8_amended_propKeys_nodup (a b : JSXNode)
    (hpf : ∀ b1 ∈ walkBasesNode [] a b, ∀ b2 ∈ walkBasesNode [] a b,
        b1 ≠ b2 → ¬ b1.data <+: b2.data) :
    ((findVariableSites a b).map (fun s => s.propKey)).Nodup := by
  rw [findVariableSites_keys]
  exact keysOf_nodup _ _ hpf

/-- Witness for the amended claim C8 at two representatives with one text
site and one differing attribute site (base keys `className` and `text0`
are prefix-free). -/
theorem C8_amended_propKeys_nodup_witness :
    ((findVariableSites
      (.elem "div" [.attr "class-name" (.str "x")] [.text " A "])
      (.elem "div" [.attr "class-name" (.str "y")] [.text " B "])).map
        (fun s => s.propKey)).Nodup :=
  C8_amended_propKeys_nodup _ _ (by decide)

/-- Rendered-value normalization of an attribute value: a bare attribute
renders as the boolean `true`, a string attribute renders as that string —
exactly the identifications `getAttrLiteral` makes. -/
def normAttrValue : AttrValue → AttrValue
  | .absent => .expr (.boolLit true)
  | .str s => .expr (.strLit s)
  | v => v

/-- Normalization of one attribute. -/
def normAttr : JSXAttr → JSXAttr
  | .attr n v => .attr n (normAttrValue v)
  | .spread => .spread

mutual

/-- Rendered-value normalization of a JSX tree: a text child renders as its
trimmed content (the extractor's own literalization convention in
`getChildLiteral`), attributes are normalized by `normAttrValue`.  Two trees
with equal normalizations render identically. -/
def normNode : JSXNode → JSXNode
  | .elem t attrs cs => .elem t (attrs.map normAttr) (normList cs)
  | .text s => .exprChild (.strLit (jsTrim s))
  | .exprChild e => .exprChild e
  | .fragment => .fragment

/-- Normalization of a child list. -/
def normList : List JSXNode → List JSXNode
  | [] => []
  | c :: cs => normNode c :: normList cs

end

/-- Lookup of a property binding passed to an instantiation (first match,
as JSX duplicate attributes are excluded by the premises used here). -/
def lookupProp (σ : List (String × Expr)) (k : String) : Option Expr :=
  (σ.find? (fun p => p.1 == k)).map (fun p => p.2)

/-- Substitution of prop references inside one expression: a bare identifier
bound in the props is replaced by its argument value. -/
def substExpr (σ : List (String × Expr)) (e : Expr) : Expr :=
  match e with
  | .ident n => (lookupProp σ n).getD (.ident n)
  | e => e

/-- Substitution inside one attribute. -/
def substAttr (σ : List (String × Expr)) : JSXAttr → JSXAttr
  | .attr n (.expr e) => .attr n (.expr (substExpr σ e))
  | x => x

mutual

/-- Substitution of prop references through a JSX tree: the semantics of
instantiating a template body with the argument values of one call site. -/
def substNode (σ : List (String × Expr)) : JSXNode → JSXNode
  | .elem t attrs cs => .elem t (attrs.map (substAttr σ)) (substList σ cs)
  | .exprChild e => .exprChild (substExpr σ e)
  | x => x

/-- Substitution through a child list. -/
def substList (σ : List (String × Expr)) : List JSXNode → List JSXNode
  | [] => []
  | c :: cs => substNode σ c :: substList σ cs

end

/-- The prop bindings carried by an instantiation element (its expression
attributes). -/
def instanceProps (inst : JSXNode) : List (String × Expr) :=
  match inst with
  | .elem _ attrs _ =>
    attrs.filterMap (fun a =>
      match a with
      | .attr n (.expr e) => some (n, e)
      | _ => none)
  | _ => []

/-- Inlining a template back at a call site: substitute the instantiation's
argument values for the template's parameter references in the component
body. -/
def inlineInstance (decl : ComponentDecl) (inst : JSXNode) : JSXNode :=
  substNode (instanceProps inst) decl.body

/-- The pass-through references `transformJsx` computes before building
instances: expression references of the template that are not site prop
keys. -/
def additionalRefsOf (rep : JSXNode) (sites : List VarSite) : List String :=
  (collectExpressionRefs (applySites sites rep)).filter
    (fun r => !sites.any (fun s => s.propKey == r))

/-- Printing of an expression (the literal cases follow `exprCode`). -/
def printExpr (e : Expr) : String := exprCode e

/-- Printing of one attribute. -/
def printAttr : JSXAttr → String
  | .attr n .absent => " " ++ n
  | .attr n (.str s) => " " ++ n ++ "=\"" ++ s ++ "\""
  | .attr n (.expr e) => " " ++ n ++ "=\x7b" ++ printExpr e ++ "\x7d"
  | .attr n .elemVal => " " ++ n ++ "=<element>"
  | .spread => " \x7b...\x7d"

mutual

/-- A plain rendering of a JSX tree to text, used to distinguish concrete
trees. -/
def printNode : JSXNode → String
  | .elem t attrs cs =>
    "<" ++ t ++ String.join (attrs.map printAttr) ++ ">" ++
      printChildList cs ++ "</" ++ t ++ ">"
  | .text s => s
  | .exprChild e => "\x7b" ++ printExpr e ++ "\x7d"
  | .fragment => "<></>"

/-- Rendering of a child list. -/
def printChildList : List JSXNode → String
  | [] => ""
  | c :: cs => printNode c ++ printChildList cs

end

/-- Names of the named attributes of an attribute list. -/
def namedNames (attrs : List JSXAttr) : List String :=
  attrs.filterMap (fun a =>
    match a with
    | .attr n _ => some n
    | .spread => none)

mutual

/-- Well-formedness used by the amended round-trip claim: every element's
named attributes have pairwise distinct names (standard JSX). -/
def attrsNodupB : JSXNode → Bool
  | .elem _ attrs cs => (namedNames attrs).Nodup && attrsNodupList cs
  | _ => true

/-- `attrsNodupB` over a child list. -/
def attrsNodupList : List JSXNode → Bool
  | [] => true
  | c :: cs => attrsNodupB c && attrsNodupList cs

end

/-- Strip a path prefix from a site, giving the site relative to a
subtree. -/
def stripSite (pre : List Nat) (s : VarSite) : VarSite :=
  { s with path := s.path.drop pre.length }

/-- Claim C1 is false as stated: the Variable Sites are diffed from the
first two representatives only, so a third occurrence that differs at a
position where the representatives agree loses that value.  Occurrences
`<div>{"A"}{"Q"}</div>`, `<div>{"B"}{"Q"}</div>`, `<div>{"C"}{"R"}</div>`
yield the single site `text0`; inlining the template at the third call site
renders `{"C"}{"Q"}`, not the original `{"C"}{"R"}`. -/
theorem C1_counterexample :
    normNode (inlineInstance
      (createComponent "ExtractedItem"
        (.elem "div" [] [.exprChild (.strLit "A"), .exprChild (.strLit "Q")])
        (findVariableSites
          (.elem "div" [] [.exprChild (.strLit "A"), .exprChild (.strLit "Q")])
          (.elem "div" [] [.exprChild (.strLit "B"), .exprChild (.strLit "Q")])))
      (createInstance
        (.elem "div" [] [.exprChild (.strLit "C"), .exprChild (.strLit "R")])
        "ExtractedItem"
        (findVariableSites
          (.elem "div" [] [.exprChild (.strLit "A"), .exprChild (.strLit "Q")])
          (.elem "div" [] [.exprChild (.strLit "B"), .exprChild (.strLit "Q")]))
        (additionalRefsOf
          (.elem "div" [] [.exprChild (.strLit "A"), .exprChild (.strLit "Q")])
          (findVariableSites
            (.elem "div" [] [.exprChild (.strLit "A"), .exprChild (.strLit "Q")])
            (.elem "div" [] [.exprChild (.strLit "B"),
              .exprChild (.strLit "Q")])))))
      ≠ normNode
        (.elem "div" [] [.exprChild (.strLit "C"), .exprChild (.strLit "R")]) :=
  fun h => by
    have hp := congrArg printNode h
    revert hp
    decide

theorem getAttrLiteral_norm {v : AttrValue} {av : Expr}
    (h : getAttrLiteral v = some av) : normAttrValue v = .expr av := by
  cases v with
  | absent =>
    cases h
    rfl
  | str s =>
    cases h
    rfl
  | expr e =>
    simp only [getAttrLiteral] at h
    by_cases hl : isLiteralLike e = true
    · rw [if_pos hl] at h
      cases h
      rfl
    · rw [if_neg hl] at h
      cases h
  | elemVal => cases h

theorem getChildLiteral_norm {ch : JSXNode} {l : Expr}
    (h : getChildLiteral ch = some l) : normNode ch = .exprChild l := by
  cases ch with
  | text s =>
    simp only [getChildLiteral] at h
    by_cases ht : jsTrim s ≠ ""
    · rw [if_pos ht] at h
      cases h
      rfl
    · rw [if_neg ht] at h
      cases h
  | exprChild e =>
    simp only [getChildLiteral] at h
    by_cases hl : isLiteralLike e = true
    · rw [if_pos hl] at h
      cases h
      rfl
    · rw [if_neg hl] at h
      cases h
  | elem t a c => cases h
  | fragment => cases h

theorem substExpr_id (σ : List (String × Expr)) (e : Expr)
    (h : ∀ n ∈ collectRefsExpr e, lookupProp σ n = some (.ident n) ∨
      lookupProp σ n = none) : substExpr σ e = e := by
  cases e with
  | ident n =>
    have := h n (by simp [collectRefsExpr])
    rcases this with hl | hl
    · simp [substExpr, hl]
    · simp [substExpr, hl]
  | strLit s => rfl
  | numLit m => rfl
  | boolLit b => rfl
  | nullLit => rfl
  | otherExpr ty refs => rfl

theorem substAttr_id (σ : List (String × Expr)) (a : JSXAttr)
    (h : ∀ n ∈ collectRefsAttr a, lookupProp σ n = some (.ident n) ∨
      lookupProp σ n = none) : substAttr σ a = a := by
  cases a with
  | spread => rfl
  | attr nm v =>
    cases v with
    | absent => rfl
    | str s => rfl
    | elemVal => rfl
    | expr e =>
      have he := substExpr_id σ e (fun n hn => h n (by
        simpa [collectRefsAttr] using hn))
      simp [substAttr, he]

theorem mapSubstAttr_id (σ : List (String × Expr)) :
    ∀ (attrs : List JSXAttr),
    (∀ n ∈ (attrs.map collectRefsAttr).flatten,
      lookupProp σ n = some (.ident n) ∨ lookupProp σ n = none) →
    attrs.map (substAttr σ) = attrs := by
  intro attrs
  induction attrs with
  | nil => intro _; rfl
  | cons a as ih =>
    intro h
    simp only [List.map_cons, List.cons.injEq]
    constructor
    · exact substAttr_id σ a (fun n hn => h n (by
        simp only [List.map_cons, List.flatten_cons, List.mem_append]
        exact Or.inl hn))
    · exact ih (fun n hn => h n (by
        simp only [List.map_cons, List.flatten_cons, List.mem_append]
        exact Or.inr hn))

mutual

theorem substNode_id : ∀ (x : JSXNode) (σ : List (String × Expr)),
    (∀ n ∈ collectRefsNode x, lookupProp σ n = some (.ident n) ∨
      lookupProp σ n = none) → substNode σ x = x
  | .elem t attrs cs, σ, h => by
    have hattrs := mapSubstAttr_id σ attrs (fun n hn => h n (by
      simp only [collectRefsNode, List.mem_append]
      exact Or.inl hn))
    have hcs := substList_id cs σ (fun n hn => h n (by
      simp only [collectRefsNode, List.mem_append]
      exact Or.inr hn))
    simp [substNode, hattrs, hcs]
  | .text s, σ, h => rfl
  | .exprChild e, σ, h => by
    have := substExpr_id σ e (fun n hn => h n (by
      simpa [collectRefsNode] using hn))
    simp [substNode, this]
  | .fragment, σ, h => rfl

theorem substList_id : ∀ (xs : List JSXNode) (σ : List (String × Expr)),
    (∀ n ∈ collectRefsList xs, lookupProp σ n = some (.ident n) ∨
      lookupProp σ n = none) → substList σ xs = xs
  | [], σ, h => rfl
  | c :: cs, σ, h => by
    have h1 := substNode_id c σ (fun n hn => h n (by
      simp only [collectRefsList, List.mem_append]
      exact Or.inl hn))
    have h2 := substList_id cs σ (fun n hn => h n (by
      simp only [collectRefsList, List.mem_append]
      exact Or.inr hn))
    simp [substList, h1, h2]

end

theorem attrSitesGo_mem : ∀ (ps : List (JSXAttr × JSXAttr))
    (st : List (String × Nat)) (pre : List Nat) (site : VarSite),
    site ∈ (attrSitesGo st pre ps).1 →
    site.kind = .attrK ∧ site.path = pre ∧
    ∃ n v1 v2 av bv, (JSXAttr.attr n v1, JSXAttr.attr n v2) ∈ ps ∧
      site.attrName = some n ∧ getAttrLiteral v1 = some av ∧
      getAttrLiteral v2 = some bv ∧ exprCode av ≠ exprCode bv := by
  intro ps
  induction ps with
  | nil =>
    intro st pre site h
    cases h
  | cons p rest ih =>
    intro st pre site h
    obtain ⟨aa, bb⟩ := p
    cases aa with
    | spread =>
      obtain ⟨h1, h2, n, v1, v2, av, bv, hmem, hrest⟩ :=
        ih st pre site (by simpa [attrSitesGo] using h)
      exact ⟨h1, h2, n, v1, v2, av, bv, by simp [hmem], hrest⟩
    | attr n1 v1 =>
      cases bb with
      | spread =>
        obtain ⟨h1, h2, n, w1, w2, av, bv, hmem, hrest⟩ :=
          ih st pre site (by simpa [attrSitesGo] using h)
        exact ⟨h1, h2, n, w1, w2, av, bv, by simp [hmem], hrest⟩
      | attr n2 v2 =>
        by_cases hn : n1 = n2
        · cases hav : getAttrLiteral v1 with
          | none =>
            obtain ⟨h1, h2, n, w1, w2, av, bv, hmem, hrest⟩ :=
              ih st pre site (by
                simpa [attrSitesGo, if_pos hn, hav] using h)
            exact ⟨h1, h2, n, w1, w2, av, bv, by simp [hmem], hrest⟩
          | some av =>
            cases hbv : getAttrLiteral v2 with
            | none =>
              obtain ⟨h1, h2, n, w1, w2, av', bv, hmem, hrest⟩ :=
                ih st pre site (by
                  simpa [attrSitesGo, if_pos hn, hav, hbv] using h)
              exact ⟨h1, h2, n, w1, w2, av', bv, by simp [hmem], hrest⟩
            | some bv =>
              by_cases hcode : exprCode av ≠ exprCode bv
              · rw [show attrSitesGo st pre
                    ((JSXAttr.attr n1 v1, JSXAttr.attr n2 v2) :: rest)
                    = (⟨.attrK, (getUniquePropKey st (toCamelCase n1)).1, pre,
                        some n1⟩ ::
                        (attrSitesGo (getUniquePropKey st (toCamelCase n1)).2
                          pre rest).1,
                      (attrSitesGo (getUniquePropKey st (toCamelCase n1)).2
                        pre rest).2) from by
                    simp [attrSitesGo, if_pos hn, hav, hbv, if_pos hcode]] at h
                rcases List.mem_cons.mp h with hh | hh
                · subst hh
                  refine ⟨rfl, rfl, n1, v1, v2, av, bv, ?_, rfl, hav, ?_, hcode⟩
                  · subst hn
                    simp
                  · subst hn
                    exact hbv
                · obtain ⟨h1, h2, n, w1, w2, av', bv', hmem, hrest⟩ :=
                    ih _ pre site hh
                  exact ⟨h1, h2, n, w1, w2, av', bv', by simp [hmem], hrest⟩
              · obtain ⟨h1, h2, n, w1, w2, av', bv', hmem, hrest⟩ :=
                  ih st pre site (by
                    simpa [attrSitesGo, if_pos hn, hav, hbv, if_neg hcode]
                      using h)
                exact ⟨h1, h2, n, w1, w2, av', bv', by simp [hmem], hrest⟩
        · obtain ⟨h1, h2, n, w1, w2, av, bv, hmem, hrest⟩ :=
            ih st pre site (by simpa [attrSitesGo, if_neg hn] using h)
          exact ⟨h1, h2, n, w1, w2, av, bv, by simp [hmem], hrest⟩

mutual

/-- Every site recorded by `walkSites` extends the path prefix, and text
sites extend it strictly. -/
theorem walkSites_prefix : ∀ (a b : JSXNode) (st : List (String × Nat))
    (pre : List Nat) (site : VarSite),
    site ∈ (walkSites st pre a b).1 →
    ∃ rest, site.path = pre ++ rest ∧ (site.kind = .textK → rest ≠ [])
  | .elem t1 aAttrs aCs, .elem t2 bAttrs bCs, st, pre, site, h => by
    rw [show walkSites st pre (.elem t1 aAttrs aCs) (.elem t2 bAttrs bCs)
        = ((attrSitesGo st pre
            ((namedAttrs aAttrs).zip (namedAttrs bAttrs))).1 ++
            (walkChildSites
              (attrSitesGo st pre
                ((namedAttrs aAttrs).zip (namedAttrs bAttrs))).2 pre 0
              aCs bCs).1,
          (walkChildSites
            (attrSitesGo st pre
              ((namedAttrs aAttrs).zip (namedAttrs bAttrs))).2 pre 0
            aCs bCs).2) from rfl] at h
    rcases List.mem_append.mp h with hh | hh
    · obtain ⟨hk, hp, _⟩ := attrSitesGo_mem _ _ _ _ hh
      exact ⟨[], by simp [hp], by rw [hk]; intro hcontra; cases hcontra⟩
    · obtain ⟨j, rest, hp⟩ := walkChildSites_prefix aCs bCs _ pre 0 site hh
      exact ⟨j :: rest, hp, fun _ => by simp⟩
  | .elem .., .text _, st, pre, site, h => by cases h
  | .elem .., .exprChild _, st, pre, site, h => by cases h
  | .elem .., .fragment, st, pre, site, h => by cases h
  | .text _, _, st, pre, site, h => by cases h
  | .exprChild _, _, st, pre, site, h => by cases h
  | .fragment, _, st, pre, site, h => by cases h
termination_by a _ _ _ _ _ => sizeOf a

/-- Every site recorded by the child loop extends the prefix by at least one
index. -/
theorem walkChildSites_prefix : ∀ (as2 bs2 : List JSXNode)
    (st : List (String × Nat)) (pre : List Nat) (i : Nat) (site : VarSite),
    site ∈ (walkChildSites st pre i as2 bs2).1 →
    ∃ j rest, site.path = pre ++ j :: rest
  | [], [], st, pre, i, site, h => by cases h
  | [], _ :: _, st, pre, i, site, h => by cases h
  | _ :: _, [], st, pre, i, site, h => by cases h
  | ca :: as2, cb :: bs2, st, pre, i, site, h => by
    have hnext : ∀ (p1 : List VarSite × List (String × Nat)),
        site ∈ (walkChildSites p1.2 pre (i + 1) as2 bs2).1 →
        ∃ j rest, site.path = pre ++ j :: rest := fun p1 hh =>
      walkChildSites_prefix as2 bs2 p1.2 pre (i + 1) site hh
    cases ca with
    | text sa =>
      cases cb with
      | text sb =>
        by_cases hc : jsTrim sa ≠ "" ∧ jsTrim sb ≠ "" ∧ jsTrim sa ≠ jsTrim sb
        · rw [show walkChildSites st pre i (.text sa :: as2) (.text sb :: bs2)
              = ((⟨.textK,
                  (getUniquePropKey st (textKeyBase (pre ++ [i]))).1,
                  pre ++ [i], none⟩ : VarSite) ::
                  (walkChildSites
                    (getUniquePropKey st (textKeyBase (pre ++ [i]))).2 pre
                    (i + 1) as2 bs2).1,
                (walkChildSites
                  (getUniquePropKey st (textKeyBase (pre ++ [i]))).2 pre
                  (i + 1) as2 bs2).2) from by
              simp only [walkChildSites]
              rw [if_pos hc]
              simp] at h
          rcases List.mem_cons.mp h with hh | hh
          · subst hh
            exact ⟨i, [], rfl⟩
          · exact hnext ⟨[],
              (getUniquePropKey st (textKeyBase (pre ++ [i]))).2⟩ hh
        · rw [show walkChildSites st pre i (.text sa :: as2) (.text sb :: bs2)
              = ((walkChildSites st pre (i + 1) as2 bs2).1,
                (walkChildSites st pre (i + 1) as2 bs2).2) from by
              simp only [walkChildSites]
              rw [if_neg hc]
              simp] at h
          exact hnext ⟨[], st⟩ h
      | exprChild e => exact hnext ⟨[], st⟩ (by
          simpa [walkChildSites] using h)
      | elem t2 a2 c2 => exact hnext ⟨[], st⟩ (by
          simpa [walkChildSites] using h)
      | fragment => exact hnext ⟨[], st⟩ (by
          simpa [walkChildSites] using h)
    | exprChild ea =>
      cases cb with
      | exprChild eb =>
        cases hla : getChildLiteral (.exprChild ea) with
        | none => exact hnext ⟨[], st⟩ (by
            simpa [walkChildSites, hla] using h)
        | some la =>
          cases hlb : getChildLiteral (.exprChild eb) with
          | none => exact hnext ⟨[], st⟩ (by
              simpa [walkChildSites, hla, hlb] using h)
          | some lb =>
            by_cases hc : exprCode la ≠ exprCode lb
            · rw [show walkChildSites st pre i
                  (.exprChild ea :: as2) (.exprChild eb :: bs2)
                  = ((⟨.textK,
                      (getUniquePropKey st (textKeyBase (pre ++ [i]))).1,
                      pre ++ [i], none⟩ : VarSite) ::
                      (walkChildSites
                        (getUniquePropKey st (textKeyBase (pre ++ [i]))).2
                        pre (i + 1) as2 bs2).1,
                    (walkChildSites
                      (getUniquePropKey st (textKeyBase (pre ++ [i]))).2 pre
                      (i + 1) as2 bs2).2) from by
                  simp only [walkChildSites, hla, hlb]
                  rw [if_pos hc]
                  simp] at h
              rcases List.mem_cons.mp h with hh | hh
              · subst hh
                exact ⟨i, [], rfl⟩
              · exact hnext ⟨[],
                  (getUniquePropKey st (textKeyBase (pre ++ [i]))).2⟩ hh
            · rw [show walkChildSites st pre i
                  (.exprChild ea :: as2) (.exprChild eb :: bs2)
                  = ((walkChildSites st pre (i + 1) as2 bs2).1,
                    (walkChildSites st pre (i + 1) as2 bs2).2) from by
                  simp only [walkChildSites, hla, hlb]
                  rw [if_neg hc]
                  simp] at h
              exact hnext ⟨[], st⟩ h
      | text sb => exact hnext ⟨[], st⟩ (by
          simpa [walkChildSites] using h)
      | elem t2 a2 c2 => exact hnext ⟨[], st⟩ (by
          simpa [walkChildSites] using h)
      | fragment => exact hnext ⟨[], st⟩ (by
          simpa [walkChildSites] using h)
    | elem t1 a1 c1 =>
      cases cb with
      | elem t2 a2 c2 =>
        rw [show walkChildSites st pre i
            (.elem t1 a1 c1 :: as2) (.elem t2 a2 c2 :: bs2)
            = ((walkSites st (pre ++ [i]) (.elem t1 a1 c1)
                (.elem t2 a2 c2)).1 ++
                (walkChildSites
                  (walkSites st (pre ++ [i]) (.elem t1 a1 c1)
                    (.elem t2 a2 c2)).2 pre (i + 1) as2 bs2).1,
              (walkChildSites
                (walkSites st (pre ++ [i]) (.elem t1 a1 c1)
                  (.elem t2 a2 c2)).2 pre (i + 1) as2 bs2).2) from rfl] at h
        rcases List.mem_append.mp h with hh | hh
        · obtain ⟨rest, hp, _⟩ := walkSites_prefix (.elem t1 a1 c1)
            (.elem t2 a2 c2) st (pre ++ [i]) site hh
          exact ⟨i, rest, by simpa using hp⟩
        · exact hnext _ hh
      | text sb => exact hnext ⟨[], st⟩ (by
          simpa [walkChildSites] using h)
      | exprChild e => exact hnext ⟨[], st⟩ (by
          simpa [walkChildSites] using h)
      | fragment => exact hnext ⟨[], st⟩ (by
          simpa [walkChildSites] using h)
    | fragment =>
      cases cb with
      | text sb => exact hnext ⟨[], st⟩ (by
          simpa [walkChildSites] using h)
      | exprChild e => exact hnext ⟨[], st⟩ (by
          simpa [walkChildSites] using h)
      | elem t2 a2 c2 => exact hnext ⟨[], st⟩ (by
          simpa [walkChildSites] using h)
      | fragment => exact hnext ⟨[], st⟩ (by
          simpa [walkChildSites] using h)
termination_by as2 _ _ _ _ _ _ => sizeOf as2

end

theorem navigateToPath_cons (t : String) (as : List JSXAttr)
    (cs : List JSXNode) (t2 : String) (a2 : List JSXAttr) (c2 : List JSXNode)
    (j : Nat) (hj : cs.get? j = some (.elem t2 a2 c2)) (m : Nat)
    (p' : List Nat) :
    navigateToPath (.elem t as cs) (j :: m :: p')
      = navigateToPath (.elem t2 a2 c2) (m :: p') := by
  unfold navigateToPath
  have hdl : (j :: m :: p').dropLast = j :: (m :: p').dropLast := rfl
  rw [hdl]
  have hnp : navigatePrefix (.elem t as cs) (j :: (m :: p').dropLast)
      = navigatePrefix (.elem t2 a2 c2) ((m :: p').dropLast) := by
    have h1 : navigatePrefix (.elem t as cs) (j :: (m :: p').dropLast)
        = (match cs.get? j with
          | some (.elem t' a' c') =>
            navigatePrefix (.elem t' a' c') ((m :: p').dropLast)
          | _ => none) := rfl
    rw [h1, hj]
  rw [hnp, List.getLast?_cons_cons]

theorem extract_cons (t : String) (as : List JSXAttr) (cs : List JSXNode)
    (t2 : String) (a2 : List JSXAttr) (c2 : List JSXNode) (j : Nat)
    (hj : cs.get? j = some (.elem t2 a2 c2)) (k : SiteKind) (key : String)
    (an : Option String) (p : List Nat) (hshape : p ≠ [] ∨ k = .attrK) :
    extractValue (.elem t as cs) ⟨k, key, j :: p, an⟩
      = extractValue (.elem t2 a2 c2) ⟨k, key, p, an⟩ := by
  cases p with
  | nil =>
    have hk : k = .attrK := by
      rcases hshape with hcontra | hk
      · exact absurd rfl hcontra
      · exact hk
    subst hk
    show extractValue (.elem t as cs) ⟨.attrK, key, [j], an⟩
      = extractValue (.elem t2 a2 c2) ⟨.attrK, key, [], an⟩
    have hnavL : navigateToPath (.elem t as cs) [j]
        = some (.elem t as cs, some j) := rfl
    have hnavR : navigateToPath (.elem t2 a2 c2) []
        = some (.elem t2 a2 c2, none) := rfl
    unfold extractValue
    rw [hnavL, hnavR]
    simp only [childrenOf]
    rw [hj]
  | cons m p' =>
    have hnav := navigateToPath_cons t as cs t2 a2 c2 j hj m p'
    unfold extractValue
    rw [show (⟨k, key, j :: m :: p', an⟩ : VarSite).path
        = j :: m :: p' from rfl,
      show (⟨k, key, m :: p', an⟩ : VarSite).path = m :: p' from rfl, hnav]

theorem updateAtPrefix_cons (t : String) (as : List JSXAttr)
    (cs : List JSXNode) (t2 : String) (a2 : List JSXAttr) (c2 : List JSXNode)
    (j : Nat) (hj : cs.get? j = some (.elem t2 a2 c2)) (rest : List Nat)
    (f : JSXNode → JSXNode) :
    updateAtPrefix (.elem t as cs) (j :: rest) f
      = .elem t as (cs.set j (updateAtPrefix (.elem t2 a2 c2) rest f)) := by
  have h1 : updateAtPrefix (.elem t as cs) (j :: rest) f
      = (match cs.get? j with
        | some (.elem t' a' c') =>
          JSXNode.elem t as (cs.set j (updateAtPrefix (.elem t' a' c') rest f))
        | _ => .elem t as cs) := rfl
  rw [h1, hj]

theorem replace_cons (t : String) (as : List JSXAttr) (cs : List JSXNode)
    (t2 : String) (a2 : List JSXAttr) (c2 : List JSXNode) (j : Nat)
    (hj : cs.get? j = some (.elem t2 a2 c2)) (k : SiteKind) (key : String)
    (an : Option String) (p : List Nat) (hshape : p ≠ [] ∨ k = .attrK) :
    replaceWithProp (.elem t as cs) ⟨k, key, j :: p, an⟩
      = .elem t as (cs.set j (replaceWithProp (.elem t2 a2 c2)
          ⟨k, key, p, an⟩)) := by
  cases p with
  | nil =>
    have hk : k = .attrK := by
      rcases hshape with hcontra | hk
      · exact absurd rfl hcontra
      · exact hk
    subst hk
    show replaceWithProp (.elem t as cs) ⟨.attrK, key, [j], an⟩
      = .elem t as (cs.set j (replaceWithProp (.elem t2 a2 c2)
          ⟨.attrK, key, [], an⟩))
    unfold replaceWithProp
    simp only [List.dropLast_single, List.getLast?_singleton]
    unfold updateAtPrefix
    dsimp only
    rw [hj]
    rfl
  | cons m p' =>
    cases k with
    | textK =>
      have hdl : (j :: m :: p').dropLast = j :: (m :: p').dropLast := rfl
      have hgl : (j :: m :: p').getLast? = (m :: p').getLast? :=
        List.getLast?_cons_cons ..
      unfold replaceWithProp
      simp only
      rw [hdl, hgl, updateAtPrefix_cons t as cs t2 a2 c2 j hj]
    | attrK =>
      have hdl : (j :: m :: p').dropLast = j :: (m :: p').dropLast := rfl
      have hgl : (j :: m :: p').getLast? = (m :: p').getLast? :=
        List.getLast?_cons_cons ..
      unfold replaceWithProp
      simp only
      rw [hdl, hgl, updateAtPrefix_cons t as cs t2 a2 c2 j hj]

theorem updateAtPrefix_elem (f : JSXNode → JSXNode)
    (hf : ∀ t' (as' : List JSXAttr) (cs' : List JSXNode),
      ∃ as2 cs2, f (.elem t' as' cs') = .elem t' as2 cs2) :
    ∀ (pre : List Nat) (t : String) (as : List JSXAttr) (cs : List JSXNode),
    ∃ as2 cs2, updateAtPrefix (.elem t as cs) pre f = .elem t as2 cs2 := by
  intro pre
  induction pre with
  | nil =>
    intro t as cs
    exact hf t as cs
  | cons i rest ih =>
    intro t as cs
    have h1 : updateAtPrefix (.elem t as cs) (i :: rest) f
        = (match cs.get? i with
          | some (.elem t' a' c') =>
            JSXNode.elem t as (cs.set i (updateAtPrefix (.elem t' a' c') rest f))
          | _ => .elem t as cs) := rfl
    rw [h1]
    cases hget : cs.get? i with
    | none => exact ⟨as, cs, rfl⟩
    | some ch =>
      cases ch with
      | elem t2 a2 c2 => exact ⟨as, _, rfl⟩
      | text s => exact ⟨as, cs, rfl⟩
      | exprChild e => exact ⟨as, cs, rfl⟩
      | fragment => exact ⟨as, cs, rfl⟩

theorem replace_shape (site : VarSite) (t : String) (as : List JSXAttr)
    (cs : List JSXNode) :
    ∃ as2 cs2, replaceWithProp (.elem t as cs) site = .elem t as2 cs2 := by
  cases hk : site.kind with
  | textK =>
    unfold replaceWithProp
    rw [hk]
    apply updateAtPrefix_elem
    intro t' as' cs'
    cases site.path.getLast? with
    | none => exact ⟨as', cs', rfl⟩
    | some i => exact ⟨as', _, rfl⟩
  | attrK =>
    unfold replaceWithProp
    rw [hk]
    apply updateAtPrefix_elem
    intro t' as' cs'
    cases site.path.getLast? with
    | none => exact ⟨_, cs', rfl⟩
    | some i =>
      show ∃ as2 cs2, (match cs'.get? i with
        | some (.elem t2 a2 c2) =>
          JSXNode.elem t' as' (cs'.set i (.elem t2
            (setFirstAttr a2 (site.attrName.getD "")
              (.expr (.ident site.propKey))) c2))
        | _ => .elem t' as' cs') = .elem t' as2 cs2
      cases hget : cs'.get? i with
      | none => exact ⟨as', cs', rfl⟩
      | some ch =>
        cases ch with
        | elem t2 a2 c2 => exact ⟨as', _, rfl⟩
        | text s => exact ⟨as', cs', rfl⟩
        | exprChild e => exact ⟨as', cs', rfl⟩
        | fragment => exact ⟨as', cs', rfl⟩

/-- The value of the first named attribute called `n` (the `find` used by
`extractValue` and `replaceWithProp`). -/
def firstAttr (attrs : List JSXAttr) (n : String) : Option AttrValue :=
  match (namedAttrs attrs).find? (fun a =>
      match a with
      | .attr m _ => m == n
      | .spread => false) with
  | some (.attr _ v) => some v
  | _ => none

/-- Sequential application of the attribute sites to an attribute list. -/
def applyAttrSites (sites : List VarSite) (attrs : List JSXAttr) :
    List JSXAttr :=
  sites.foldl (fun as s =>
    setFirstAttr as (s.attrName.getD "") (.expr (.ident s.propKey))) attrs

theorem extract_attr_root (t : String) (as : List JSXAttr)
    (cs : List JSXNode) (key n : String) :
    extractValue (.elem t as cs) ⟨.attrK, key, [], some n⟩
      = (match firstAttr as n with
        | some v => (getAttrLiteral v).getD (.strLit "")
        | none => .strLit "") := by
  have hnav : navigateToPath (.elem t as cs) []
      = some (.elem t as cs, none) := rfl
  unfold extractValue
  rw [hnav]
  unfold firstAttr
  dsimp only
  simp only [Option.getD_some]
  cases hfind : (namedAttrs as).find? (fun a =>
      match a with
      | .attr m _ => m == n
      | .spread => false) with
  | none => rfl
  | some a =>
    cases a with
    | attr m v => rfl
    | spread => rfl

theorem replace_attr_root (t : String) (as : List JSXAttr) (cs : List JSXNode)
    (key n : String) :
    replaceWithProp (.elem t as cs) ⟨.attrK, key, [], some n⟩
      = .elem t (setFirstAttr as n (.expr (.ident key))) cs := rfl

theorem applySites_attr_stage : ∀ (sites : List VarSite) (t : String)
    (as : List JSXAttr) (cs : List JSXNode),
    (∀ s ∈ sites, s.kind = .attrK ∧ s.path = [] ∧ ∃ n, s.attrName = some n) →
    applySites sites (.elem t as cs) = .elem t (applyAttrSites sites as) cs := by
  intro sites
  induction sites with
  | nil =>
    intro t as cs _
    rfl
  | cons s rest ih =>
    intro t as cs h
    obtain ⟨hk, hp, n, hn⟩ := h s (by simp)
    have hs : s = ⟨.attrK, s.propKey, [], some n⟩ := by
      cases s
      simp_all
    have hstep : replaceWithProp (.elem t as cs) s
        = .elem t (setFirstAttr as n (.expr (.ident s.propKey))) cs := by
      rw [hs]
      exact replace_attr_root t as cs s.propKey n
    show applySites rest (replaceWithProp (.elem t as cs) s)
      = .elem t (applyAttrSites (s :: rest) as) cs
    rw [hstep, ih _ _ _ (fun x hx => h x (by simp [hx]))]
    congr 1
    unfold applyAttrSites
    simp only [List.foldl_cons]
    rw [hn]
    simp only [Option.getD_some]

theorem setFirstAttr_ne (rest : List JSXAttr) (n : String) (v0 : AttrValue)
    (target : String) (hne : n ≠ target) (nv : AttrValue) :
    setFirstAttr (.attr n v0 :: rest) target nv
      = .attr n v0 :: setFirstAttr rest target nv := by
  show (if n = target then JSXAttr.attr n nv :: rest
    else .attr n v0 :: setFirstAttr rest target nv)
    = .attr n v0 :: setFirstAttr rest target nv
  rw [if_neg hne]

theorem applyAttrSites_cons (s : VarSite) (srest : List VarSite)
    (attrs : List JSXAttr) :
    applyAttrSites (s :: srest) attrs
      = applyAttrSites srest (setFirstAttr attrs (s.attrName.getD "")
          (.expr (.ident s.propKey))) := rfl

theorem applyAttrSites_ne : ∀ (sites : List VarSite) (n : String)
    (v0 : AttrValue) (rest : List JSXAttr),
    (∀ s ∈ sites, s.attrName.getD "" ≠ n) →
    applyAttrSites sites (.attr n v0 :: rest)
      = .attr n v0 :: applyAttrSites sites rest := by
  intro sites
  induction sites with
  | nil =>
    intro n v0 rest _
    rfl
  | cons s srest ih =>
    intro n v0 rest hne
    rw [applyAttrSites_cons, applyAttrSites_cons]
    rw [setFirstAttr_ne rest n v0 (s.attrName.getD "")
      (fun hcontra => (hne s (by simp)) hcontra.symm)]
    exact ih n v0 _ (fun x hx => hne x (by simp [hx]))

theorem applyAttrSites_spread : ∀ (sites : List VarSite)
    (rest : List JSXAttr),
    applyAttrSites sites (.spread :: rest)
      = .spread :: applyAttrSites sites rest := by
  intro sites
  induction sites with
  | nil =>
    intro rest
    rfl
  | cons s srest ih =>
    intro rest
    rw [applyAttrSites_cons, applyAttrSites_cons]
    rw [show setFirstAttr (.spread :: rest) (s.attrName.getD "")
        (.expr (.ident s.propKey))
        = .spread :: setFirstAttr rest (s.attrName.getD "")
            (.expr (.ident s.propKey)) from rfl]
    exact ih _

theorem firstAttr_of_mem_nodup : ∀ (as : List JSXAttr) (nm : String)
    (v1 : AttrValue), (.attr nm v1 ∈ namedAttrs as) →
    (namedNames as).Nodup → firstAttr as nm = some v1 := by
  intro as
  induction as with
  | nil =>
    intro nm v1 hmem _
    simp [namedAttrs] at hmem
  | cons a rest ih =>
    intro nm v1 hmem hnd
    cases a with
    | spread =>
      have h1 : namedAttrs (.spread :: rest) = namedAttrs rest := by
        simp [namedAttrs, List.filter_cons]
      have h2 : namedNames (.spread :: rest) = namedNames rest := by
        simp [namedNames, List.filterMap_cons]
      rw [h1] at hmem
      rw [h2] at hnd
      have := ih nm v1 hmem hnd
      unfold firstAttr at this ⊢
      rw [h1]
      exact this
    | attr m w =>
      have h1 : namedAttrs (.attr m w :: rest) = .attr m w :: namedAttrs rest := by
        simp [namedAttrs, List.filter_cons]
      have h2 : namedNames (.attr m w :: rest) = m :: namedNames rest := by
        simp [namedNames, List.filterMap_cons]
      rw [h1] at hmem
      rw [h2] at hnd
      by_cases hm : m = nm
      · subst hm
        have hfind : firstAttr (.attr m w :: rest) m = some w := by
          unfold firstAttr
          rw [h1]
          rw [List.find?_cons_of_pos _ (by simp)]
        rcases List.mem_cons.mp hmem with hh | hh
        · have : w = v1 := by
            cases hh
            rfl
          rw [hfind, this]
        · exfalso
          have hmn : m ∈ namedNames rest := by
            unfold namedNames
            apply List.mem_filterMap.mpr
            exact ⟨.attr m v1, (List.mem_filter.mp hh).1, by simp⟩
          exact (List.nodup_cons.mp hnd).1 hmn
      · have hmem' : JSXAttr.attr nm v1 ∈ namedAttrs rest := by
          rcases List.mem_cons.mp hmem with hh | hh
          · exfalso
            apply hm
            cases hh
            rfl
          · exact hh
        have := ih nm v1 hmem' (List.nodup_cons.mp hnd).2
        unfold firstAttr at this ⊢
        rw [h1, List.find?_cons_of_neg _ (by simpa using hm)]
        exact this

theorem firstAttr_spread (rest : List JSXAttr) (nm : String) :
    firstAttr (.spread :: rest) nm = firstAttr rest nm := by
  unfold firstAttr
  rw [show namedAttrs (.spread :: rest) = namedAttrs rest from by
    simp [namedAttrs, List.filter_cons]]

theorem firstAttr_cons_ne (n : String) (v0 : AttrValue) (rest : List JSXAttr)
    (nm : String) (h : nm ≠ n) :
    firstAttr (.attr n v0 :: rest) nm = firstAttr rest nm := by
  unfold firstAttr
  rw [show namedAttrs (.attr n v0 :: rest) = .attr n v0 :: namedAttrs rest
    from by simp [namedAttrs, List.filter_cons]]
  rw [List.find?_cons_of_neg _ (by
    show ¬ (n == nm) = true
    simp only [beq_iff_eq]
    exact fun hcontra => h hcontra.symm)]

theorem firstAttr_cons_eq (n : String) (v0 : AttrValue)
    (rest : List JSXAttr) :
    firstAttr (.attr n v0 :: rest) n = some v0 := by
  unfold firstAttr
  rw [show namedAttrs (.attr n v0 :: rest) = .attr n v0 :: namedAttrs rest
    from by simp [namedAttrs, List.filter_cons]]
  rw [List.find?_cons_of_pos _ (by simp)]

theorem attrSitesGo_cons_attr (st : List (String × Nat)) (pre : List Nat)
    (n1 : String) (v1 : AttrValue) (n2 : String) (v2 : AttrValue)
    (tail : List (JSXAttr × JSXAttr)) :
    attrSitesGo st pre ((.attr n1 v1, .attr n2 v2) :: tail)
      = if n1 = n2 then
          (match getAttrLiteral v1, getAttrLiteral v2 with
          | some av, some bv =>
            if exprCode av ≠ exprCode bv then
              ((⟨.attrK, (getUniquePropKey st (toCamelCase n1)).1, pre,
                  some n1⟩ : VarSite) ::
                  (attrSitesGo (getUniquePropKey st (toCamelCase n1)).2 pre
                    tail).1,
                (attrSitesGo (getUniquePropKey st (toCamelCase n1)).2 pre
                  tail).2)
            else attrSitesGo st pre tail
          | _, _ => attrSitesGo st pre tail)
        else attrSitesGo st pre tail := rfl

theorem attrSitesGo_cons_attr_cases (st : List (String × Nat))
    (pre : List Nat) (n1 : String) (v1 : AttrValue) (n2 : String)
    (v2 : AttrValue) (tail : List (JSXAttr × JSXAttr)) :
    (n1 = n2 ∧ ∃ av bv, getAttrLiteral v1 = some av ∧
      getAttrLiteral v2 = some bv ∧ exprCode av ≠ exprCode bv ∧
      attrSitesGo st pre ((.attr n1 v1, .attr n2 v2) :: tail)
        = ((⟨.attrK, (getUniquePropKey st (toCamelCase n1)).1, pre,
              some n1⟩ : VarSite) ::
            (attrSitesGo (getUniquePropKey st (toCamelCase n1)).2 pre
              tail).1,
          (attrSitesGo (getUniquePropKey st (toCamelCase n1)).2 pre
            tail).2))
    ∨ attrSitesGo st pre ((.attr n1 v1, .attr n2 v2) :: tail)
        = attrSitesGo st pre tail := by
  by_cases h : n1 = n2
  · cases hv1 : getAttrLiteral v1 with
    | none =>
      right
      rw [attrSitesGo_cons_attr, if_pos h, hv1]
    | some av =>
      cases hv2 : getAttrLiteral v2 with
      | none =>
        right
        rw [attrSitesGo_cons_attr, if_pos h, hv1, hv2]
      | some bv =>
        by_cases hc : exprCode av ≠ exprCode bv
        · left
          refine ⟨h, av, bv, rfl, rfl, hc, ?_⟩
          rw [attrSitesGo_cons_attr, if_pos h, hv1, hv2]
          exact if_pos hc
        · right
          rw [attrSitesGo_cons_attr, if_pos h, hv1, hv2]
          exact if_neg hc
  · right
    rw [attrSitesGo_cons_attr, if_neg h]

theorem attr_stage_tail (σ : List (String × Expr)) (n : String)
    (v0 : AttrValue) (rest : List JSXAttr) (sites : List VarSite)
    (hnames : ∀ s ∈ sites, s.attrName.getD "" ≠ n)
    (hid : substAttr σ (.attr n v0) = .attr n v0)
    (htail : ((applyAttrSites sites rest).map (substAttr σ)).map normAttr
      = rest.map normAttr) :
    ((applyAttrSites sites (.attr n v0 :: rest)).map (substAttr σ)).map
        normAttr
      = (JSXAttr.attr n v0 :: rest).map normAttr := by
  rw [applyAttrSites_ne sites n v0 rest hnames]
  simp only [List.map_cons, hid, htail]

theorem attr_stage_roundtrip : ∀ (aAttrs : List JSXAttr)
    (bNamed : List JSXAttr) (st : List (String × Nat)) (pre : List Nat)
    (σ : List (String × Expr)),
    (namedNames aAttrs).Nodup →
    (∀ site ∈ (attrSitesGo st pre ((namedAttrs aAttrs).zip bNamed)).1,
      ∀ nm, site.attrName = some nm →
      ∃ w1 aw, firstAttr aAttrs nm = some w1 ∧ getAttrLiteral w1 = some aw ∧
        lookupProp σ site.propKey = some aw) →
    (∀ n ∈ (aAttrs.map collectRefsAttr).flatten,
      lookupProp σ n = some (.ident n) ∨ lookupProp σ n = none) →
    ((applyAttrSites (attrSitesGo st pre
        ((namedAttrs aAttrs).zip bNamed)).1 aAttrs).map
          (substAttr σ)).map normAttr
      = aAttrs.map normAttr := by
  intro aAttrs
  induction aAttrs with
  | nil =>
    intro bNamed st pre σ _ _ _
    rfl
  | cons a rest ih =>
    intro bNamed st pre σ hnd h1 h2
    have h2head : ∀ n ∈ collectRefsAttr a,
        lookupProp σ n = some (.ident n) ∨ lookupProp σ n = none :=
      fun n hn => h2 n (by
        simp only [List.map_cons, List.flatten_cons, List.mem_append]
        exact Or.inl hn)
    have h2rest : ∀ n ∈ (rest.map collectRefsAttr).flatten,
        lookupProp σ n = some (.ident n) ∨ lookupProp σ n = none :=
      fun n hn => h2 n (by
        simp only [List.map_cons, List.flatten_cons, List.mem_append]
        exact Or.inr hn)
    cases a with
    | spread =>
      have hna : namedAttrs (.spread :: rest) = namedAttrs rest := by
        simp [namedAttrs, List.filter_cons]
      have hnn : namedNames (.spread :: rest) = namedNames rest := by
        simp [namedNames, List.filterMap_cons]
      rw [hna]
      rw [applyAttrSites_spread]
      simp only [List.map_cons]
      have hihtail := ih bNamed st pre σ (by rw [← hnn]; exact hnd)
        (fun site hsite nm hnm => by
          obtain ⟨w1, aw, hfa, hlit, hlk⟩ := h1 site (by rw [hna]; exact hsite)
            nm hnm
          exact ⟨w1, aw, by rw [← firstAttr_spread rest nm]; exact hfa,
            hlit, hlk⟩)
        h2rest
      rw [hihtail]
      rfl
    | attr n v0 =>
      have hna : namedAttrs (.attr n v0 :: rest)
          = .attr n v0 :: namedAttrs rest := by
        simp [namedAttrs, List.filter_cons]
      have hnn : namedNames (.attr n v0 :: rest) = n :: namedNames rest := by
        simp [namedNames, List.filterMap_cons]
      have hndrest : (namedNames rest).Nodup := by
        rw [hnn] at hnd
        exact (List.nodup_cons.mp hnd).2
      have hnotin : n ∉ namedNames rest := by
        rw [hnn] at hnd
        exact (List.nodup_cons.mp hnd).1
      have hid : substAttr σ (.attr n v0) = .attr n v0 :=
        substAttr_id σ _ h2head
      have hTailNames : ∀ (st' : List (String × Nat)) (bR : List JSXAttr),
          ∀ s ∈ (attrSitesGo st' pre ((namedAttrs rest).zip bR)).1,
          s.attrName.getD "" ≠ n := by
        intro st' bR s hs
        obtain ⟨_, _, nm, w1, w2, av, bv, hmem, hnm, _⟩ :=
          attrSitesGo_mem _ _ _ _ hs
        have hin : (JSXAttr.attr nm w1) ∈ namedAttrs rest :=
          (List.of_mem_zip hmem).1
        have : nm ∈ namedNames rest := by
          unfold namedNames
          apply List.mem_filterMap.mpr
          exact ⟨.attr nm w1, (List.mem_filter.mp hin).1, by simp⟩
        rw [hnm]
        intro hcontra
        apply hnotin
        rw [← hcontra]
        exact this
      have hIHfor : ∀ (st' : List (String × Nat)) (bR : List JSXAttr),
          (∀ site ∈ (attrSitesGo st' pre ((namedAttrs rest).zip bR)).1,
            ∀ nm, site.attrName = some nm →
            ∃ w1 aw, firstAttr rest nm = some w1 ∧
              getAttrLiteral w1 = some aw ∧
              lookupProp σ site.propKey = some aw) →
          ((applyAttrSites (attrSitesGo st' pre
              ((namedAttrs rest).zip bR)).1 rest).map
                (substAttr σ)).map normAttr
            = rest.map normAttr := by
        intro st' bR hh
        exact ih bR st' pre σ hndrest hh h2rest
      have hshift : ∀ (st' : List (String × Nat)) (bR : List JSXAttr),
          (∀ site ∈ (attrSitesGo st' pre ((namedAttrs rest).zip bR)).1,
            ∀ nm, site.attrName = some nm →
            ∃ w1 aw, firstAttr (.attr n v0 :: rest) nm = some w1 ∧
              getAttrLiteral w1 = some aw ∧
              lookupProp σ site.propKey = some aw) →
          (∀ site ∈ (attrSitesGo st' pre ((namedAttrs rest).zip bR)).1,
            ∀ nm, site.attrName = some nm →
            ∃ w1 aw, firstAttr rest nm = some w1 ∧
              getAttrLiteral w1 = some aw ∧
              lookupProp σ site.propKey = some aw) := by
        intro st' bR hh site hsite nm hnm
        obtain ⟨w1, aw, hfa, hlit, hlk⟩ := hh site hsite nm hnm
        refine ⟨w1, aw, ?_, hlit, hlk⟩
        rw [← firstAttr_cons_ne n v0 rest nm (by
          have := hTailNames st' bR site hsite
          rw [hnm] at this
          simpa using this)]
        exact hfa
      cases bNamed with
      | nil =>
        rw [hna]
        rw [show ((JSXAttr.attr n v0 :: namedAttrs rest).zip
            ([] : List JSXAttr)) = [] from by simp]
        rw [show (attrSitesGo st pre []).1 = [] from rfl]
        rw [show applyAttrSites [] (.attr n v0 :: rest)
          = .attr n v0 :: rest from rfl]
        rw [mapSubstAttr_id σ _ h2]
      | cons bb bRest =>
        rw [hna]
        rw [show ((JSXAttr.attr n v0 :: namedAttrs rest).zip (bb :: bRest))
          = (JSXAttr.attr n v0, bb) :: (namedAttrs rest).zip bRest from rfl]
        cases bb with
        | spread =>
          rw [show attrSitesGo st pre
              ((JSXAttr.attr n v0, JSXAttr.spread) :: (namedAttrs rest).zip
                bRest)
            = attrSitesGo st pre ((namedAttrs rest).zip bRest) from rfl]
          exact attr_stage_tail σ n v0 rest _ (hTailNames st bRest) hid
            (hIHfor st bRest (hshift st bRest (fun site hsite nm hnm =>
              h1 site (by
                rw [hna, show ((JSXAttr.attr n v0 :: namedAttrs rest).zip
                    (JSXAttr.spread :: bRest))
                  = (JSXAttr.attr n v0, JSXAttr.spread) ::
                      (namedAttrs rest).zip bRest from rfl]
                exact hsite) nm hnm)))
        | attr n2 v2 =>
          rcases attrSitesGo_cons_attr_cases st pre n v0 n2 v2
              ((namedAttrs rest).zip bRest) with
            ⟨_, av, bv, hav, hbv, hcode, hsites⟩ | hsites
          · set key0 := (getUniquePropKey st (toCamelCase n)).1 with hkey0
            set st1 := (getUniquePropKey st (toCamelCase n)).2 with hst1
            have hgoal1 : (attrSitesGo st pre
                ((JSXAttr.attr n v0, JSXAttr.attr n2 v2) ::
                  (namedAttrs rest).zip bRest)).1
              = (⟨.attrK, key0, pre, some n⟩ : VarSite) ::
                  (attrSitesGo st1 pre ((namedAttrs rest).zip bRest)).1 := by
              rw [congrArg Prod.fst hsites]
            have hfull1 : (attrSitesGo st pre
                ((namedAttrs (JSXAttr.attr n v0 :: rest)).zip
                  (JSXAttr.attr n2 v2 :: bRest))).1
              = (⟨.attrK, key0, pre, some n⟩ : VarSite) ::
                  (attrSitesGo st1 pre ((namedAttrs rest).zip bRest)).1 := by
              rw [hna]
              exact hgoal1
            rw [hfull1] at h1
            rw [hgoal1]
            have hsite0mem : (⟨SiteKind.attrK, key0, pre, some n⟩ : VarSite) ∈
                (⟨SiteKind.attrK, key0, pre, some n⟩ : VarSite) ::
                  (attrSitesGo st1 pre ((namedAttrs rest).zip bRest)).1 :=
              List.mem_cons_self _ _
            obtain ⟨w1, aw, hfa, hlit, hlk⟩ := h1 _ hsite0mem n rfl
            have hw1 : w1 = v0 := by
              rw [firstAttr_cons_eq] at hfa
              cases hfa
              rfl
            have haw : aw = av := by
              rw [hw1, hav] at hlit
              cases hlit
              rfl
            rw [applyAttrSites_cons]
            rw [show setFirstAttr (.attr n v0 :: rest)
                ((⟨SiteKind.attrK, key0, pre,
                  some n⟩ : VarSite).attrName.getD "")
                (.expr (.ident (⟨SiteKind.attrK, key0, pre,
                  some n⟩ : VarSite).propKey))
              = .attr n (.expr (.ident key0)) :: rest from by
              show setFirstAttr (.attr n v0 :: rest) n
                (.expr (.ident key0)) = _
              show (if n = n then
                JSXAttr.attr n (.expr (.ident key0)) :: rest
                else _) = _
              rw [if_pos rfl]]
            rw [applyAttrSites_ne _ n _ rest (hTailNames st1 bRest)]
            simp only [List.map_cons]
            have hhead : normAttr (substAttr σ
                (.attr n (.expr (.ident key0))))
                = normAttr (.attr n v0) := by
              show normAttr (.attr n (.expr (substExpr σ
                (.ident key0)))) = normAttr (.attr n v0)
              rw [show substExpr σ (.ident key0)
                = (lookupProp σ key0).getD (.ident key0) from rfl]
              rw [hlk]
              simp only [Option.getD_some]
              rw [show normAttr (.attr n (.expr aw))
                = .attr n (.expr aw) from rfl]
              rw [show normAttr (.attr n v0)
                = .attr n (normAttrValue v0) from rfl]
              rw [getAttrLiteral_norm hav, haw]
            rw [hhead]
            have htail := hIHfor st1 bRest (hshift st1 bRest
              (fun site hsite nm hnm =>
                h1 site (List.mem_cons_of_mem _ hsite) nm hnm))
            rw [htail]
          · have hgoal1 : (attrSitesGo st pre
                ((JSXAttr.attr n v0, JSXAttr.attr n2 v2) ::
                  (namedAttrs rest).zip bRest)).1
              = (attrSitesGo st pre ((namedAttrs rest).zip bRest)).1 := by
              rw [congrArg Prod.fst hsites]
            have hfull1 : (attrSitesGo st pre
                ((namedAttrs (JSXAttr.attr n v0 :: rest)).zip
                  (JSXAttr.attr n2 v2 :: bRest))).1
              = (attrSitesGo st pre ((namedAttrs rest).zip bRest)).1 := by
              rw [hna]
              exact hgoal1
            rw [hfull1] at h1
            rw [hgoal1]
            exact attr_stage_tail σ n v0 rest _ (hTailNames st bRest) hid
              (hIHfor st bRest (hshift st bRest h1))

theorem stripSite_nil (s : VarSite) : stripSite [] s = s := rfl

theorem stripSite_comp (pre : List Nat) (i : Nat) (s : VarSite) :
    stripSite [i] (stripSite pre s) = stripSite (pre ++ [i]) s := by
  have h : (pre ++ [i]).length = pre.length + 1 := by simp
  show VarSite.mk s.kind s.propKey ((s.path.drop pre.length).drop 1)
      s.attrName
    = VarSite.mk s.kind s.propKey (s.path.drop ((pre ++ [i]).length))
      s.attrName
  rw [h]
  congr 1
  rw [List.drop_drop, Nat.add_comm]

theorem list_get_append_len {α : Type _} : ∀ (pref : List α) (x : α)
    (suf : List α), (pref ++ x :: suf).get? pref.length = some x := by
  intro pref x suf
  induction pref with
  | nil => rfl
  | cons a t ih => exact ih

theorem list_set_append_len {α : Type _} : ∀ (pref : List α) (x y : α)
    (suf : List α),
    (pref ++ x :: suf).set pref.length y = pref ++ y :: suf := by
  intro pref x y suf
  induction pref with
  | nil => rfl
  | cons a t ih =>
    show a :: (t ++ x :: suf).set t.length y = a :: (t ++ y :: suf)
    rw [ih]

theorem list_set_get_eq {α : Type _} : ∀ (cs : List α) (i : Nat) (x : α),
    cs.get? i = some x → cs.set i x = cs := by
  intro cs
  induction cs with
  | nil =>
    intro i x h
    cases h
  | cons a t ih =>
    intro i x h
    cases i with
    | zero =>
      have hax : a = x := by
        cases h
        rfl
      rw [show (a :: t).set 0 x = x :: t from rfl, ← hax]
    | succ n =>
      show a :: t.set n x = a :: t
      rw [ih n x h]

theorem list_get_set_self {α : Type _} : ∀ (cs : List α) (i : Nat) (x y : α),
    cs.get? i = some x → (cs.set i y).get? i = some y := by
  intro cs
  induction cs with
  | nil =>
    intro i x y h
    cases h
  | cons a t ih =>
    intro i x y h
    cases i with
    | zero => rfl
    | succ n => exact ih n x y h

theorem applySites_append (x y : List VarSite) (t : JSXNode) :
    applySites (x ++ y) t = applySites y (applySites x t) := by
  unfold applySites
  rw [List.foldl_append]

theorem applyAttrSites_strip (pre : List Nat) (sites : List VarSite)
    (as : List JSXAttr) :
    applyAttrSites (sites.map (stripSite pre)) as
      = applyAttrSites sites as := by
  unfold applyAttrSites
  rw [List.foldl_map]
  congr 1

theorem applySites_child : ∀ (sites : List VarSite) (t : String)
    (A : List JSXAttr) (cs : List JSXNode) (i : Nat) (t1 : String)
    (a1 : List JSXAttr) (c1 : List JSXNode),
    cs.get? i = some (.elem t1 a1 c1) →
    (∀ s ∈ sites, ∃ p, s.path = i :: p ∧ (p ≠ [] ∨ s.kind = .attrK)) →
    applySites sites (.elem t A cs)
      = .elem t A (cs.set i
          (applySites (sites.map (stripSite [i])) (.elem t1 a1 c1))) := by
  intro sites
  induction sites with
  | nil =>
    intro t A cs i t1 a1 c1 hget _
    show JSXNode.elem t A cs = .elem t A (cs.set i (.elem t1 a1 c1))
    rw [list_set_get_eq cs i _ hget]
  | cons s rest ih =>
    intro t A cs i t1 a1 c1 hget hsh
    obtain ⟨p, hpath, hshape⟩ := hsh s (by simp)
    have hstrip : stripSite [i] s = ⟨s.kind, s.propKey, p, s.attrName⟩ := by
      show VarSite.mk s.kind s.propKey (s.path.drop 1) s.attrName
        = VarSite.mk s.kind s.propKey p s.attrName
      rw [hpath]
      rfl
    have hs_eq : s = ⟨s.kind, s.propKey, i :: p, s.attrName⟩ := by
      obtain ⟨k, key, pa, an⟩ := s
      simp only at hpath
      rw [hpath]
    have hrep : replaceWithProp (.elem t A cs) s
        = .elem t A (cs.set i (replaceWithProp (.elem t1 a1 c1)
            ⟨s.kind, s.propKey, p, s.attrName⟩)) := by
      conv_lhs => rw [hs_eq]
      exact replace_cons t A cs t1 a1 c1 i hget s.kind s.propKey
        s.attrName p hshape
    obtain ⟨a2, c2, hshape2⟩ :=
      replace_shape ⟨s.kind, s.propKey, p, s.attrName⟩ t1 a1 c1
    show applySites rest (replaceWithProp (.elem t A cs) s)
      = .elem t A (cs.set i (applySites ((s :: rest).map (stripSite [i]))
          (.elem t1 a1 c1)))
    rw [hrep, hshape2]
    have hget2 : (cs.set i (.elem t1 a2 c2)).get? i = some (.elem t1 a2 c2) :=
      list_get_set_self cs i _ _ hget
    rw [ih t A _ i t1 a2 c2 hget2 (fun x hx => hsh x (by simp [hx]))]
    rw [List.set_set]
    congr 2
    rw [show (s :: rest).map (stripSite [i])
      = stripSite [i] s :: rest.map (stripSite [i]) from rfl]
    rw [show applySites (stripSite [i] s :: rest.map (stripSite [i]))
        (.elem t1 a1 c1)
      = applySites (rest.map (stripSite [i]))
          (replaceWithProp (.elem t1 a1 c1) (stripSite [i] s)) from rfl]
    rw [hstrip, hshape2]

theorem extract_textK_general (t : String) (aAttrs : List JSXAttr)
    (cs : List JSXNode) (key : String) (i : Nat) :
    extractValue (.elem t aAttrs cs) ⟨.textK, key, [i], none⟩
      = (match cs.get? i with
        | some ch => (getChildLiteral ch).getD (.strLit "")
        | none => .strLit "") := by
  have hnav : navigateToPath (.elem t aAttrs cs) [i]
      = some (.elem t aAttrs cs, some i) := rfl
  unfold extractValue
  rw [show (⟨SiteKind.textK, key, [i], none⟩ : VarSite).path = [i] from rfl,
    hnav]
  dsimp only
  rw [show childrenOf (.elem t aAttrs cs) = cs from rfl]

theorem extract_child_at (t : String) (aAttrs : List JSXAttr)
    (prefO : List JSXNode) (ca : JSXNode) (as2 : List JSXNode)
    (key : String) :
    extractValue (.elem t aAttrs (prefO ++ ca :: as2))
        ⟨.textK, key, [prefO.length], none⟩
      = (getChildLiteral ca).getD (.strLit "") := by
  rw [extract_textK_general, list_get_append_len]

mutual

/-- Round-trip at one representative pair: applying the recorded sites
(relative to the current prefix) to the first representative and then
substituting the values extracted from it renders identically to the
original. -/
theorem walkSitesRT : ∀ (a b : JSXNode), ∀ (st : List (String × Nat))
    (pre : List Nat) (σ : List (String × Expr)),
    attrsNodupB a = true →
    (∀ s ∈ (walkSites st pre a b).1,
      lookupProp σ s.propKey = some (extractValue a (stripSite pre s))) →
    (∀ n ∈ collectRefsNode a,
      lookupProp σ n = some (.ident n) ∨ lookupProp σ n = none) →
    normNode (substNode σ
        (applySites ((walkSites st pre a b).1.map (stripSite pre)) a))
      = normNode a
  | .elem t1 aAttrs aCs, .elem t2 bAttrs bCs => by
    intro st pre σ hwf h1 h2
    have hws1 : (walkSites st pre (.elem t1 aAttrs aCs)
        (.elem t2 bAttrs bCs)).1
      = (attrSitesGo st pre
          ((namedAttrs aAttrs).zip (namedAttrs bAttrs))).1
        ++ (walkChildSites
            (attrSitesGo st pre
              ((namedAttrs aAttrs).zip (namedAttrs bAttrs))).2 pre 0
            aCs bCs).1 := rfl
    rw [hws1] at h1 ⊢
    rw [List.map_append, applySites_append]
    have hwf0 := hwf
    rw [show attrsNodupB (.elem t1 aAttrs aCs)
      = (decide (namedNames aAttrs).Nodup && attrsNodupList aCs)
      from rfl] at hwf0
    rw [Bool.and_eq_true] at hwf0
    obtain ⟨hnd0, hndcs⟩ := hwf0
    have hnd : (namedNames aAttrs).Nodup := of_decide_eq_true hnd0
    have hattrshape : ∀ s' ∈ ((attrSitesGo st pre
        ((namedAttrs aAttrs).zip (namedAttrs bAttrs))).1.map
          (stripSite pre)),
        s'.kind = .attrK ∧ s'.path = [] ∧ ∃ n, s'.attrName = some n := by
      intro s' hs'
      obtain ⟨s, hs, hmap⟩ := List.mem_map.mp hs'
      obtain ⟨hk, hp, n, v1, v2, av, bv, hmem, hattr, _⟩ :=
        attrSitesGo_mem _ _ _ _ hs
      subst hmap
      refine ⟨hk, ?_, n, hattr⟩
      show s.path.drop pre.length = []
      rw [hp, List.drop_length]
    rw [applySites_attr_stage _ t1 aAttrs aCs hattrshape]
    rw [applyAttrSites_strip]
    have h1c : ∀ s ∈ (walkChildSites
        (attrSitesGo st pre
          ((namedAttrs aAttrs).zip (namedAttrs bAttrs))).2 pre 0
        aCs bCs).1,
        lookupProp σ s.propKey
          = some (extractValue
              (.elem t1 aAttrs (([] : List JSXNode) ++ aCs))
              (stripSite pre s)) :=
      fun s hs => h1 s (List.mem_append_right _ hs)
    have h2c : ∀ n ∈ collectRefsList aCs,
        lookupProp σ n = some (.ident n) ∨ lookupProp σ n = none :=
      fun n hn => h2 n (by
        simp only [collectRefsNode, List.mem_append]
        exact Or.inr hn)
    obtain ⟨ds, happ, hnorm⟩ := walkChildRT aCs bCs
      (attrSitesGo st pre ((namedAttrs aAttrs).zip (namedAttrs bAttrs))).2
      pre 0 σ t1 aAttrs [] []
      (applyAttrSites (attrSitesGo st pre
        ((namedAttrs aAttrs).zip (namedAttrs bAttrs))).1 aAttrs)
      rfl rfl hndcs h1c h2c
    simp only [List.nil_append] at happ
    rw [happ]
    show JSXNode.elem t1
        (((applyAttrSites (attrSitesGo st pre
            ((namedAttrs aAttrs).zip (namedAttrs bAttrs))).1 aAttrs).map
              (substAttr σ)).map normAttr)
        (normList (substList σ ds))
      = .elem t1 (aAttrs.map normAttr) (normList aCs)
    have h2attr : ∀ n ∈ (aAttrs.map collectRefsAttr).flatten,
        lookupProp σ n = some (.ident n) ∨ lookupProp σ n = none :=
      fun n hn => h2 n (by
        simp only [collectRefsNode, List.mem_append]
        exact Or.inl hn)
    have h1attr : ∀ site ∈ (attrSitesGo st pre
        ((namedAttrs aAttrs).zip (namedAttrs bAttrs))).1,
        ∀ nm, site.attrName = some nm →
        ∃ w1 aw, firstAttr aAttrs nm = some w1 ∧
          getAttrLiteral w1 = some aw ∧
          lookupProp σ site.propKey = some aw := by
      intro site hsite nm hnm
      have hlk := h1 site (List.mem_append_left _ hsite)
      obtain ⟨hk, hp, n, v1, v2, av, bv, hmem, hattr, hglit1, hglit2,
        hcode⟩ := attrSitesGo_mem _ _ _ _ hsite
      have hnmn : nm = n := by
        rw [hnm] at hattr
        cases hattr
        rfl
      subst hnmn
      have hv1mem : JSXAttr.attr nm v1 ∈ namedAttrs aAttrs :=
        (List.of_mem_zip hmem).1
      have hfa : firstAttr aAttrs nm = some v1 :=
        firstAttr_of_mem_nodup aAttrs nm v1 hv1mem hnd
      refine ⟨v1, av, hfa, hglit1, ?_⟩
      have hstrip : stripSite pre site
          = ⟨.attrK, site.propKey, [], some nm⟩ := by
        obtain ⟨k, key, pa, an⟩ := site
        have hk2 : k = .attrK := hk
        have hp2 : pa = pre := hp
        have han2 : an = some nm := hattr
        show VarSite.mk k key (pa.drop pre.length) an
          = VarSite.mk .attrK key [] (some nm)
        rw [hk2, hp2, han2, List.drop_length]
      rw [hstrip] at hlk
      rw [extract_attr_root] at hlk
      rw [hfa] at hlk
      have hlk2 : lookupProp σ site.propKey
          = some ((getAttrLiteral v1).getD (.strLit "")) := hlk
      rw [hglit1] at hlk2
      simp only [Option.getD_some] at hlk2
      exact hlk2
    rw [attr_stage_roundtrip aAttrs (namedAttrs bAttrs) st pre σ hnd
      h1attr h2attr]
    rw [hnorm]
  | .elem t1 a1 c1, .text s2 => by
    intro st pre σ _ _ h2
    exact congrArg normNode (substNode_id _ σ h2)
  | .elem t1 a1 c1, .exprChild e2 => by
    intro st pre σ _ _ h2
    exact congrArg normNode (substNode_id _ σ h2)
  | .elem t1 a1 c1, .fragment => by
    intro st pre σ _ _ h2
    exact congrArg normNode (substNode_id _ σ h2)
  | .text s1, _ => by
    intro st pre σ _ _ h2
    exact congrArg normNode (substNode_id _ σ h2)
  | .exprChild e1, _ => by
    intro st pre σ _ _ h2
    exact congrArg normNode (substNode_id _ σ h2)
  | .fragment, _ => by
    intro st pre σ _ _ h2
    exact congrArg normNode (substNode_id _ σ h2)
termination_by a _ => sizeOf a

/-- Round-trip of the child loop: applying the loop's sites to the element
whose children are the current prefix followed by the remaining pairs, and
substituting the extracted values, renders the remaining children
identically. -/
theorem walkChildRT : ∀ (as2 bs2 : List JSXNode), ∀ (st : List (String × Nat))
    (pre : List Nat) (i : Nat) (σ : List (String × Expr)) (t : String)
    (aAttrs : List JSXAttr) (prefO prefM : List JSXNode)
    (A2 : List JSXAttr),
    i = prefO.length →
    prefO.length = prefM.length →
    attrsNodupList as2 = true →
    (∀ s ∈ (walkChildSites st pre i as2 bs2).1,
      lookupProp σ s.propKey
        = some (extractValue (.elem t aAttrs (prefO ++ as2))
            (stripSite pre s))) →
    (∀ n ∈ collectRefsList as2,
      lookupProp σ n = some (.ident n) ∨ lookupProp σ n = none) →
    ∃ ds, applySites ((walkChildSites st pre i as2 bs2).1.map
          (stripSite pre)) (.elem t A2 (prefM ++ as2))
        = .elem t A2 (prefM ++ ds)
      ∧ normList (substList σ ds) = normList as2
  | [], bs2 => by
    intro st pre i σ t aAttrs prefO prefM A2 _ _ _ _ _
    exact ⟨[], rfl, rfl⟩
  | ca :: as2', [] => by
    intro st pre i σ t aAttrs prefO prefM A2 _ _ _ _ h2
    exact ⟨ca :: as2', rfl, by rw [substList_id _ σ h2]⟩
  | ca :: as2', cb :: bs2' => by
    intro st pre i σ t aAttrs prefO prefM A2 hi hlen hnodups h1 h2
    subst hi
    have hnodups2 : attrsNodupB ca = true ∧ attrsNodupList as2' = true := by
      have h0 : (attrsNodupB ca && attrsNodupList as2') = true := hnodups
      rw [Bool.and_eq_true] at h0
      exact h0
    have hndca : attrsNodupB ca = true := hnodups2.1
    have hndtail : attrsNodupList as2' = true := hnodups2.2
    have h2head : ∀ n ∈ collectRefsNode ca,
        lookupProp σ n = some (.ident n) ∨ lookupProp σ n = none :=
      fun n hn => h2 n (by
        simp only [collectRefsList, List.mem_append]
        exact Or.inl hn)
    have h2tail : ∀ n ∈ collectRefsList as2',
        lookupProp σ n = some (.ident n) ∨ lookupProp σ n = none :=
      fun n hn => h2 n (by
        simp only [collectRefsList, List.mem_append]
        exact Or.inr hn)
    have hstep_nosite :
        (walkChildSites st pre prefO.length (ca :: as2') (cb :: bs2')).1
          = (walkChildSites st pre (prefO.length + 1) as2' bs2').1 →
        ∃ ds, applySites (((walkChildSites st pre prefO.length
              (ca :: as2') (cb :: bs2')).1).map (stripSite pre))
            (.elem t A2 (prefM ++ ca :: as2'))
          = .elem t A2 (prefM ++ ds)
          ∧ normList (substList σ ds) = normList (ca :: as2') := by
      intro heq
      rw [heq] at h1 ⊢
      obtain ⟨ds', happ', hnorm'⟩ := walkChildRT as2' bs2' st pre
        (prefO.length + 1) σ t aAttrs (prefO ++ [ca]) (prefM ++ [ca]) A2
        (by simp) (by simp [hlen]) hndtail
        (fun s hs => by
          rw [List.append_assoc]
          exact h1 s hs)
        h2tail
      refine ⟨ca :: ds', ?_, ?_⟩
      · rw [show prefM ++ ca :: as2' = (prefM ++ [ca]) ++ as2' from by simp]
        rw [happ']
        rw [show (prefM ++ [ca]) ++ ds' = prefM ++ ca :: ds' from by simp]
      · show normNode (substNode σ ca) :: normList (substList σ ds')
          = normNode ca :: normList as2'
        rw [hnorm', substNode_id ca σ h2head]
    cases ca with
    | text sa =>
      cases cb with
      | text sb =>
        by_cases hc : jsTrim sa ≠ "" ∧ jsTrim sb ≠ "" ∧
            jsTrim sa ≠ jsTrim sb
        · have heq : walkChildSites st pre prefO.length
              (.text sa :: as2') (.text sb :: bs2')
            = ((⟨.textK,
                (getUniquePropKey st
                  (textKeyBase (pre ++ [prefO.length]))).1,
                pre ++ [prefO.length], none⟩ : VarSite) ::
                (walkChildSites
                  (getUniquePropKey st
                    (textKeyBase (pre ++ [prefO.length]))).2 pre
                  (prefO.length + 1) as2' bs2').1,
              (walkChildSites
                (getUniquePropKey st
                  (textKeyBase (pre ++ [prefO.length]))).2 pre
                (prefO.length + 1) as2' bs2').2) := by
            simp only [walkChildSites]
            rw [if_pos hc]
            simp
          have heq1 : (walkChildSites st pre prefO.length
              (.text sa :: as2') (.text sb :: bs2')).1
            = (⟨.textK,
                (getUniquePropKey st
                  (textKeyBase (pre ++ [prefO.length]))).1,
                pre ++ [prefO.length], none⟩ : VarSite) ::
                (walkChildSites
                  (getUniquePropKey st
                    (textKeyBase (pre ++ [prefO.length]))).2 pre
                  (prefO.length + 1) as2' bs2').1 := by
            rw [heq]
          rw [heq1] at h1 ⊢
          rw [List.map_cons]
          have hstrip0 : stripSite pre
              (⟨.textK,
                (getUniquePropKey st
                  (textKeyBase (pre ++ [prefO.length]))).1,
                pre ++ [prefO.length], none⟩ : VarSite)
            = ⟨.textK,
                (getUniquePropKey st
                  (textKeyBase (pre ++ [prefO.length]))).1,
                [prefO.length], none⟩ := by
            show VarSite.mk .textK
                (getUniquePropKey st
                  (textKeyBase (pre ++ [prefO.length]))).1
                ((pre ++ [prefO.length]).drop pre.length) none = _
            rw [List.drop_left]
          rw [hstrip0]
          rw [show applySites
              ((⟨.textK,
                (getUniquePropKey st
                  (textKeyBase (pre ++ [prefO.length]))).1,
                [prefO.length], none⟩ : VarSite) ::
                ((walkChildSites
                  (getUniquePropKey st
                    (textKeyBase (pre ++ [prefO.length]))).2 pre
                  (prefO.length + 1) as2' bs2').1.map (stripSite pre)))
              (.elem t A2 (prefM ++ .text sa :: as2'))
            = applySites
                ((walkChildSites
                  (getUniquePropKey st
                    (textKeyBase (pre ++ [prefO.length]))).2 pre
                  (prefO.length + 1) as2' bs2').1.map (stripSite pre))
                (replaceWithProp (.elem t A2 (prefM ++ .text sa :: as2'))
                  (⟨.textK,
                    (getUniquePropKey st
                      (textKeyBase (pre ++ [prefO.length]))).1,
                    [prefO.length], none⟩ : VarSite)) from rfl]
          have hrep0 : replaceWithProp
              (.elem t A2 (prefM ++ .text sa :: as2'))
              (⟨.textK,
                (getUniquePropKey st
                  (textKeyBase (pre ++ [prefO.length]))).1,
                [prefO.length], none⟩ : VarSite)
            = .elem t A2 (prefM ++
                .exprChild (.ident
                  (getUniquePropKey st
                    (textKeyBase (pre ++ [prefO.length]))).1) :: as2') := by
            show JSXNode.elem t A2
              ((prefM ++ JSXNode.text sa :: as2').set prefO.length
                (.exprChild (.ident
                  (getUniquePropKey st
                    (textKeyBase (pre ++ [prefO.length]))).1)))
              = _
            rw [hlen, list_set_append_len]
          rw [hrep0]
          obtain ⟨ds', happ', hnorm'⟩ := walkChildRT as2' bs2'
            (getUniquePropKey st (textKeyBase (pre ++ [prefO.length]))).2
            pre (prefO.length + 1) σ t aAttrs (prefO ++ [.text sa])
            (prefM ++ [.exprChild (.ident
              (getUniquePropKey st
                (textKeyBase (pre ++ [prefO.length]))).1)]) A2
            (by simp) (by simp [hlen]) hndtail
            (fun s hs => by
              rw [List.append_assoc]
              exact h1 s (List.mem_cons_of_mem _ hs))
            h2tail
          refine ⟨.exprChild (.ident
            (getUniquePropKey st
              (textKeyBase (pre ++ [prefO.length]))).1) :: ds', ?_, ?_⟩
          · rw [show prefM ++ JSXNode.exprChild (.ident
                (getUniquePropKey st
                  (textKeyBase (pre ++ [prefO.length]))).1) :: as2'
              = (prefM ++ [JSXNode.exprChild (.ident
                  (getUniquePropKey st
                    (textKeyBase (pre ++ [prefO.length]))).1)]) ++ as2'
              from by simp]
            rw [happ']
            rw [show (prefM ++ [JSXNode.exprChild (.ident
                (getUniquePropKey st
                  (textKeyBase (pre ++ [prefO.length]))).1)]) ++ ds'
              = prefM ++ JSXNode.exprChild (.ident
                  (getUniquePropKey st
                    (textKeyBase (pre ++ [prefO.length]))).1) :: ds'
              from by simp]
          · have hlk := h1 _ (List.mem_cons_self _ _)
            rw [hstrip0] at hlk
            rw [extract_child_at] at hlk
            have hgc : getChildLiteral (.text sa)
                = some (.strLit (jsTrim sa)) := by
              show (if jsTrim sa ≠ "" then some (Expr.strLit (jsTrim sa))
                else none) = _
              rw [if_pos hc.1]
            rw [hgc] at hlk
            simp only [Option.getD_some] at hlk
            show normNode (substNode σ (.exprChild (.ident
                (getUniquePropKey st
                  (textKeyBase (pre ++ [prefO.length]))).1))) ::
                normList (substList σ ds')
              = normNode (.text sa) :: normList as2'
            rw [hnorm']
            congr 1
            show JSXNode.exprChild (substExpr σ (.ident
              (getUniquePropKey st
                (textKeyBase (pre ++ [prefO.length]))).1))
              = normNode (.text sa)
            rw [show substExpr σ (.ident
                (getUniquePropKey st
                  (textKeyBase (pre ++ [prefO.length]))).1)
              = (lookupProp σ
                  (getUniquePropKey st
                    (textKeyBase (pre ++ [prefO.length]))).1).getD
                  (.ident (getUniquePropKey st
                    (textKeyBase (pre ++ [prefO.length]))).1) from rfl]
            rw [hlk]
            simp only [Option.getD_some]
            exact (getChildLiteral_norm hgc).symm
        · exact hstep_nosite (by
            rw [show walkChildSites st pre prefO.length
                (.text sa :: as2') (.text sb :: bs2')
              = ((walkChildSites st pre (prefO.length + 1) as2' bs2').1,
                (walkChildSites st pre (prefO.length + 1) as2' bs2').2)
              from by
              simp only [walkChildSites]
              rw [if_neg hc]
              simp])
      | exprChild e => exact hstep_nosite (by simp [walkChildSites])
      | elem t2 a2 c2 => exact hstep_nosite (by simp [walkChildSites])
      | fragment => exact hstep_nosite (by simp [walkChildSites])
    | exprChild ea =>
      cases cb with
      | exprChild eb =>
        cases hla : getChildLiteral (.exprChild ea) with
        | none => exact hstep_nosite (by
            rw [show walkChildSites st pre prefO.length
                (.exprChild ea :: as2') (.exprChild eb :: bs2')
              = ((walkChildSites st pre (prefO.length + 1) as2' bs2').1,
                (walkChildSites st pre (prefO.length + 1) as2' bs2').2)
              from by
              simp only [walkChildSites, hla]
              simp])
        | some la =>
          cases hlb : getChildLiteral (.exprChild eb) with
          | none => exact hstep_nosite (by
              rw [show walkChildSites st pre prefO.length
                  (.exprChild ea :: as2') (.exprChild eb :: bs2')
                = ((walkChildSites st pre (prefO.length + 1) as2' bs2').1,
                  (walkChildSites st pre (prefO.length + 1) as2' bs2').2)
                from by
                simp only [walkChildSites, hla, hlb]
                simp])
          | some lb =>
            by_cases hcode : exprCode la ≠ exprCode lb
            · have heq : walkChildSites st pre prefO.length
                  (.exprChild ea :: as2') (.exprChild eb :: bs2')
                = ((⟨.textK,
                    (getUniquePropKey st
                      (textKeyBase (pre ++ [prefO.length]))).1,
                    pre ++ [prefO.length], none⟩ : VarSite) ::
                    (walkChildSites
                      (getUniquePropKey st
                        (textKeyBase (pre ++ [prefO.length]))).2 pre
                      (prefO.length + 1) as2' bs2').1,
                  (walkChildSites
                    (getUniquePropKey st
                      (textKeyBase (pre ++ [prefO.length]))).2 pre
                    (prefO.length + 1) as2' bs2').2) := by
                simp only [walkChildSites, hla, hlb]
                rw [if_pos hcode]
                simp
              have heq1 : (walkChildSites st pre prefO.length
                  (.exprChild ea :: as2') (.exprChild eb :: bs2')).1
                = (⟨.textK,
                    (getUniquePropKey st
                      (textKeyBase (pre ++ [prefO.length]))).1,
                    pre ++ [prefO.length], none⟩ : VarSite) ::
                    (walkChildSites
                      (getUniquePropKey st
                        (textKeyBase (pre ++ [prefO.length]))).2 pre
                      (prefO.length + 1) as2' bs2').1 := by
                rw [heq]
              rw [heq1] at h1 ⊢
              rw [List.map_cons]
              have hstrip0 : stripSite pre
                  (⟨.textK,
                    (getUniquePropKey st
                      (textKeyBase (pre ++ [prefO.length]))).1,
                    pre ++ [prefO.length], none⟩ : VarSite)
                = ⟨.textK,
                    (getUniquePropKey st
                      (textKeyBase (pre ++ [prefO.length]))).1,
                    [prefO.length], none⟩ := by
                show VarSite.mk .textK
                    (getUniquePropKey st
                      (textKeyBase (pre ++ [prefO.length]))).1
                    ((pre ++ [prefO.length]).drop pre.length) none = _
                rw [List.drop_left]
              rw [hstrip0]
              rw [show applySites
                  ((⟨.textK,
                    (getUniquePropKey st
                      (textKeyBase (pre ++ [prefO.length]))).1,
                    [prefO.length], none⟩ : VarSite) ::
                    ((walkChildSites
                      (getUniquePropKey st
                        (textKeyBase (pre ++ [prefO.length]))).2 pre
                      (prefO.length + 1) as2' bs2').1.map
                        (stripSite pre)))
                  (.elem t A2 (prefM ++ .exprChild ea :: as2'))
                = applySites
                    ((walkChildSites
                      (getUniquePropKey st
                        (textKeyBase (pre ++ [prefO.length]))).2 pre
                      (prefO.length + 1) as2' bs2').1.map
                        (stripSite pre))
                    (replaceWithProp
                      (.elem t A2 (prefM ++ .exprChild ea :: as2'))
                      (⟨.textK,
                        (getUniquePropKey st
                          (textKeyBase (pre ++ [prefO.length]))).1,
                        [prefO.length], none⟩ : VarSite)) from rfl]
              have hrep0 : replaceWithProp
                  (.elem t A2 (prefM ++ .exprChild ea :: as2'))
                  (⟨.textK,
                    (getUniquePropKey st
                      (textKeyBase (pre ++ [prefO.length]))).1,
                    [prefO.length], none⟩ : VarSite)
                = .elem t A2 (prefM ++
                    .exprChild (.ident
                      (getUniquePropKey st
                        (textKeyBase (pre ++ [prefO.length]))).1) ::
                      as2') := by
                show JSXNode.elem t A2
                  ((prefM ++ JSXNode.exprChild ea :: as2').set
                    prefO.length
                    (.exprChild (.ident
                      (getUniquePropKey st
                        (textKeyBase (pre ++ [prefO.length]))).1)))
                  = _
                rw [hlen, list_set_append_len]
              rw [hrep0]
              obtain ⟨ds', happ', hnorm'⟩ := walkChildRT as2' bs2'
                (getUniquePropKey st
                  (textKeyBase (pre ++ [prefO.length]))).2
                pre (prefO.length + 1) σ t aAttrs
                (prefO ++ [.exprChild ea])
                (prefM ++ [.exprChild (.ident
                  (getUniquePropKey st
                    (textKeyBase (pre ++ [prefO.length]))).1)]) A2
                (by simp) (by simp [hlen]) hndtail
                (fun s hs => by
                  rw [List.append_assoc]
                  exact h1 s (List.mem_cons_of_mem _ hs))
                h2tail
              refine ⟨.exprChild (.ident
                (getUniquePropKey st
                  (textKeyBase (pre ++ [prefO.length]))).1) :: ds',
                ?_, ?_⟩
              · rw [show prefM ++ JSXNode.exprChild (.ident
                    (getUniquePropKey st
                      (textKeyBase (pre ++ [prefO.length]))).1) :: as2'
                  = (prefM ++ [JSXNode.exprChild (.ident
                      (getUniquePropKey st
                        (textKeyBase (pre ++ [prefO.length]))).1)]) ++
                      as2'
                  from by simp]
                rw [happ']
                rw [show (prefM ++ [JSXNode.exprChild (.ident
                    (getUniquePropKey st
                      (textKeyBase (pre ++ [prefO.length]))).1)]) ++ ds'
                  = prefM ++ JSXNode.exprChild (.ident
                      (getUniquePropKey st
                        (textKeyBase (pre ++ [prefO.length]))).1) ::
                      ds'
                  from by simp]
              · have hlk := h1 _ (List.mem_cons_self _ _)
                rw [hstrip0] at hlk
                rw [extract_child_at] at hlk
                rw [hla] at hlk
                simp only [Option.getD_some] at hlk
                show normNode (substNode σ (.exprChild (.ident
                    (getUniquePropKey st
                      (textKeyBase (pre ++ [prefO.length]))).1))) ::
                    normList (substList σ ds')
                  = normNode (.exprChild ea) :: normList as2'
                rw [hnorm']
                congr 1
                show JSXNode.exprChild (substExpr σ (.ident
                  (getUniquePropKey st
                    (textKeyBase (pre ++ [prefO.length]))).1))
                  = normNode (.exprChild ea)
                rw [show substExpr σ (.ident
                    (getUniquePropKey st
                      (textKeyBase (pre ++ [prefO.length]))).1)
                  = (lookupProp σ
                      (getUniquePropKey st
                        (textKeyBase (pre ++ [prefO.length]))).1).getD
                      (.ident (getUniquePropKey st
                        (textKeyBase (pre ++ [prefO.length]))).1)
                  from rfl]
                rw [hlk]
                simp only [Option.getD_some]
                exact (getChildLiteral_norm hla).symm
            · exact hstep_nosite (by
                rw [show walkChildSites st pre prefO.length
                    (.exprChild ea :: as2') (.exprChild eb :: bs2')
                  = ((walkChildSites st pre (prefO.length + 1)
                      as2' bs2').1,
                    (walkChildSites st pre (prefO.length + 1)
                      as2' bs2').2)
                  from by
                  simp only [walkChildSites, hla, hlb]
                  rw [if_neg hcode]
                  simp])
      | text sb => exact hstep_nosite (by simp [walkChildSites])
      | elem t2 a2 c2 => exact hstep_nosite (by simp [walkChildSites])
      | fragment => exact hstep_nosite (by simp [walkChildSites])
    | elem te ae ce =>
      cases cb with
      | elem tf af cf =>
        have heq1 : (walkChildSites st pre prefO.length
            (.elem te ae ce :: as2') (.elem tf af cf :: bs2')).1
          = (walkSites st (pre ++ [prefO.length]) (.elem te ae ce)
              (.elem tf af cf)).1
            ++ (walkChildSites
                (walkSites st (pre ++ [prefO.length]) (.elem te ae ce)
                  (.elem tf af cf)).2 pre (prefO.length + 1)
                as2' bs2').1 := rfl
        rw [heq1] at h1 ⊢
        rw [List.map_append, applySites_append]
        have hget : (prefM ++ JSXNode.elem te ae ce :: as2').get?
            prefO.length = some (.elem te ae ce) := by
          rw [hlen]
          exact list_get_append_len prefM _ as2'
        have hshapes : ∀ s' ∈ (walkSites st (pre ++ [prefO.length])
            (.elem te ae ce) (.elem tf af cf)).1.map (stripSite pre),
            ∃ p, s'.path = prefO.length :: p ∧
              (p ≠ [] ∨ s'.kind = .attrK) := by
          intro s' hs'
          obtain ⟨s, hs, hmap⟩ := List.mem_map.mp hs'
          subst hmap
          obtain ⟨rest, hp, htext⟩ := walkSites_prefix (.elem te ae ce)
            (.elem tf af cf) st (pre ++ [prefO.length]) s hs
          refine ⟨rest, ?_, ?_⟩
          · show s.path.drop pre.length = prefO.length :: rest
            rw [hp, List.append_assoc, List.drop_left]
            rfl
          · cases hk : s.kind with
            | attrK => exact Or.inr hk
            | textK => exact Or.inl (htext hk)
        rw [applySites_child _ t A2 _ prefO.length te ae ce hget hshapes]
        rw [List.map_map]
        rw [show ((walkSites st (pre ++ [prefO.length]) (.elem te ae ce)
              (.elem tf af cf)).1.map
                (stripSite [prefO.length] ∘ stripSite pre))
          = (walkSites st (pre ++ [prefO.length]) (.elem te ae ce)
              (.elem tf af cf)).1.map
                (stripSite (pre ++ [prefO.length]))
          from List.map_congr_left
            (fun s _ => stripSite_comp pre prefO.length s)]
        have hset : (prefM ++ JSXNode.elem te ae ce :: as2').set
            prefO.length
            (applySites ((walkSites st (pre ++ [prefO.length])
              (.elem te ae ce) (.elem tf af cf)).1.map
                (stripSite (pre ++ [prefO.length])))
              (.elem te ae ce))
          = prefM ++ (applySites ((walkSites st (pre ++ [prefO.length])
              (.elem te ae ce) (.elem tf af cf)).1.map
                (stripSite (pre ++ [prefO.length])))
              (.elem te ae ce)) :: as2' := by
          rw [hlen]
          exact list_set_append_len prefM _ _ as2'
        rw [hset]
        have h1head : ∀ s ∈ (walkSites st (pre ++ [prefO.length])
            (.elem te ae ce) (.elem tf af cf)).1,
            lookupProp σ s.propKey
              = some (extractValue (.elem te ae ce)
                  (stripSite (pre ++ [prefO.length]) s)) := by
          intro s hs
          have hl := h1 s (List.mem_append_left _ hs)
          obtain ⟨rest, hp, htext⟩ := walkSites_prefix (.elem te ae ce)
            (.elem tf af cf) st (pre ++ [prefO.length]) s hs
          have hstripPre : stripSite pre s
              = ⟨s.kind, s.propKey, prefO.length :: rest, s.attrName⟩ := by
            show VarSite.mk s.kind s.propKey (s.path.drop pre.length)
              s.attrName = _
            rw [hp, List.append_assoc, List.drop_left]
            rfl
          have hstripFull : stripSite (pre ++ [prefO.length]) s
              = ⟨s.kind, s.propKey, rest, s.attrName⟩ := by
            show VarSite.mk s.kind s.propKey
              (s.path.drop (pre ++ [prefO.length]).length) s.attrName = _
            rw [hp, List.drop_left]
          have hshk : rest ≠ [] ∨ s.kind = .attrK := by
            cases hk : s.kind with
            | attrK => exact Or.inr rfl
            | textK => exact Or.inl (htext hk)
          rw [hstripPre] at hl
          rw [hstripFull]
          rw [extract_cons t aAttrs (prefO ++ JSXNode.elem te ae ce ::
              as2') te ae ce prefO.length
              (list_get_append_len prefO _ as2') s.kind s.propKey
              s.attrName rest hshk] at hl
          exact hl
        have hhead := walkSitesRT (.elem te ae ce) (.elem tf af cf) st
          (pre ++ [prefO.length]) σ hndca h1head h2head
        obtain ⟨ds', happ', hnorm'⟩ := walkChildRT as2' bs2'
          (walkSites st (pre ++ [prefO.length]) (.elem te ae ce)
            (.elem tf af cf)).2 pre (prefO.length + 1) σ t aAttrs
          (prefO ++ [.elem te ae ce])
          (prefM ++ [applySites ((walkSites st (pre ++ [prefO.length])
            (.elem te ae ce) (.elem tf af cf)).1.map
              (stripSite (pre ++ [prefO.length])))
            (.elem te ae ce)]) A2
          (by simp) (by simp [hlen]) hndtail
          (fun s hs => by
            rw [List.append_assoc]
            exact h1 s (List.mem_append_right _ hs))
          h2tail
        refine ⟨(applySites ((walkSites st (pre ++ [prefO.length])
            (.elem te ae ce) (.elem tf af cf)).1.map
              (stripSite (pre ++ [prefO.length])))
            (.elem te ae ce)) :: ds', ?_, ?_⟩
        · rw [show prefM ++ (applySites ((walkSites st
                (pre ++ [prefO.length]) (.elem te ae ce)
                (.elem tf af cf)).1.map
                  (stripSite (pre ++ [prefO.length])))
                (.elem te ae ce)) :: as2'
            = (prefM ++ [applySites ((walkSites st
                (pre ++ [prefO.length]) (.elem te ae ce)
                (.elem tf af cf)).1.map
                  (stripSite (pre ++ [prefO.length])))
                (.elem te ae ce)]) ++ as2'
            from by simp]
          rw [happ']
          rw [show (prefM ++ [applySites ((walkSites st
              (pre ++ [prefO.length]) (.elem te ae ce)
              (.elem tf af cf)).1.map
                (stripSite (pre ++ [prefO.length])))
              (.elem te ae ce)]) ++ ds'
            = prefM ++ (applySites ((walkSites st
                (pre ++ [prefO.length]) (.elem te ae ce)
                (.elem tf af cf)).1.map
                  (stripSite (pre ++ [prefO.length])))
                (.elem te ae ce)) :: ds'
            from by simp]
        · show normNode (substNode σ (applySites ((walkSites st
              (pre ++ [prefO.length]) (.elem te ae ce)
              (.elem tf af cf)).1.map
                (stripSite (pre ++ [prefO.length])))
              (.elem te ae ce))) :: normList (substList σ ds')
            = normNode (.elem te ae ce) :: normList as2'
          rw [hnorm', hhead]
      | text sb => exact hstep_nosite (by simp [walkChildSites])
      | exprChild e => exact hstep_nosite (by simp [walkChildSites])
      | fragment => exact hstep_nosite (by simp [walkChildSites])
    | fragment =>
      cases cb with
      | text sb => exact hstep_nosite (by simp [walkChildSites])
      | exprChild e => exact hstep_nosite (by simp [walkChildSites])
      | elem t2 a2 c2 => exact hstep_nosite (by simp [walkChildSites])
      | fragment => exact hstep_nosite (by simp [walkChildSites])
termination_by as2 _ => sizeOf as2

end

theorem instanceProps_cons_expr (cn : String) (n : String) (e : Expr)
    (rest : List JSXAttr) (cs : List JSXNode) :
    instanceProps (.elem cn (.attr n (.expr e) :: rest) cs)
      = (n, e) :: instanceProps (.elem cn rest cs) := rfl

theorem instanceProps_createInstance (original : JSXNode) (cn : String) :
    ∀ (sites : List VarSite) (addl : List String),
    instanceProps (createInstance original cn sites addl)
      = sites.map (fun s => (s.propKey, extractValue original s))
        ++ addl.map (fun r => (r, Expr.ident r)) := by
  intro sites addl
  show instanceProps (.elem cn
      (sites.map (fun s =>
        JSXAttr.attr s.propKey (.expr (extractValue original s))) ++
        addl.map (fun r => JSXAttr.attr r (.expr (.ident r)))) [])
    = sites.map (fun s => (s.propKey, extractValue original s))
      ++ addl.map (fun r => (r, Expr.ident r))
  induction sites with
  | nil =>
    simp only [List.map_nil, List.nil_append]
    induction addl with
    | nil => rfl
    | cons r rs ih =>
      simp only [List.map_cons]
      rw [instanceProps_cons_expr, ih]
  | cons s ss ih =>
    simp only [List.map_cons, List.cons_append] at ih ⊢
    rw [instanceProps_cons_expr]
    rw [show instanceProps (.elem cn
        (ss.map (fun s =>
          JSXAttr.attr s.propKey (.expr (extractValue original s))) ++
          addl.map (fun r => JSXAttr.attr r (.expr (.ident r)))) [])
      = ss.map (fun s => (s.propKey, extractValue original s))
        ++ addl.map (fun r => (r, Expr.ident r)) from ih]

theorem lookupProp_sites_self : ∀ (sites : List VarSite)
    (g : VarSite → Expr) (tail : List (String × Expr)) (s : VarSite),
    s ∈ sites → ((sites.map (fun x => x.propKey)).Nodup) →
    lookupProp (sites.map (fun x => (x.propKey, g x)) ++ tail) s.propKey
      = some (g s) := by
  intro sites g tail
  induction sites with
  | nil =>
    intro s h _
    cases h
  | cons s0 rest ih =>
    intro s hmem hnd
    by_cases he : s0.propKey = s.propKey
    · have hs : s = s0 := by
        rcases List.mem_cons.mp hmem with h | h
        · exact h
        · exfalso
          have hpk : s.propKey ∈ rest.map (fun x => x.propKey) :=
            List.mem_map.mpr ⟨s, h, rfl⟩
          rw [← he] at hpk
          rw [List.map_cons] at hnd
          exact (List.nodup_cons.mp hnd).1 hpk
      subst hs
      show lookupProp ((s.propKey, g s) ::
        (rest.map (fun x => (x.propKey, g x)) ++ tail)) s.propKey
        = some (g s)
      unfold lookupProp
      rw [List.find?_cons_of_pos _ (by simp)]
      rfl
    · have hsrest : s ∈ rest := by
        rcases List.mem_cons.mp hmem with h | h
        · exact absurd (by rw [h]) he
        · exact h
      show lookupProp ((s0.propKey, g s0) ::
        (rest.map (fun x => (x.propKey, g x)) ++ tail)) s.propKey
        = some (g s)
      unfold lookupProp
      rw [List.find?_cons_of_neg _ (by
        simp only [beq_iff_eq]
        exact he)]
      have hndrest : (rest.map (fun x => x.propKey)).Nodup := by
        rw [List.map_cons] at hnd
        exact (List.nodup_cons.mp hnd).2
      exact ih s hsrest hndrest

theorem lookupProp_skip (n : String) : ∀ (part1 part2 : List (String × Expr)),
    (∀ p ∈ part1, p.1 ≠ n) →
    lookupProp (part1 ++ part2) n = lookupProp part2 n := by
  intro part1 part2
  induction part1 with
  | nil =>
    intro _
    rfl
  | cons p ps ih =>
    intro h
    show lookupProp (p :: (ps ++ part2)) n = _
    unfold lookupProp
    rw [List.find?_cons_of_neg _ (by
      simp only [beq_iff_eq]
      exact h p (by simp))]
    exact ih (fun q hq => h q (by simp [hq]))

theorem lookupProp_ident_map (n : String) : ∀ (addl : List String),
    lookupProp (addl.map (fun r => (r, Expr.ident r))) n = some (.ident n)
      ∨ lookupProp (addl.map (fun r => (r, Expr.ident r))) n = none := by
  intro addl
  induction addl with
  | nil => exact Or.inr rfl
  | cons r rs ih =>
    by_cases hr : r = n
    · left
      show lookupProp ((r, Expr.ident r) ::
        rs.map (fun x => (x, Expr.ident x))) n = some (.ident n)
      unfold lookupProp
      rw [List.find?_cons_of_pos _ (by simp [hr])]
      rw [hr]
      rfl
    · have hskip : lookupProp ((r, Expr.ident r) ::
          rs.map (fun x => (x, Expr.ident x))) n
        = lookupProp (rs.map (fun x => (x, Expr.ident x))) n := by
        show lookupProp ([(r, Expr.ident r)] ++
          rs.map (fun x => (x, Expr.ident x))) n = _
        exact lookupProp_skip n [(r, Expr.ident r)] _ (by
          intro p hp
          have hp2 : p = (r, Expr.ident r) := by
            rcases List.mem_singleton.mp hp with h
            exact h
          rw [hp2]
          exact hr)
      rw [show ((r :: rs).map (fun x => (x, Expr.ident x)))
        = (r, Expr.ident r) :: rs.map (fun x => (x, Expr.ident x))
        from rfl]
      rw [hskip]
      exact ih

theorem map_stripSite_nil : ∀ (l : List VarSite),
    l.map (stripSite []) = l := by
  intro l
  induction l with
  | nil => rfl
  | cons x xs ih => simp only [List.map_cons, stripSite_nil, ih]

/-- Claim C1 (amended): under the well-formedness proviso that every
element's named attributes have distinct names, that the generated property
keys are pairwise distinct, and that no property key collides with an
identifier already referenced in the representative, inlining the
synthesized template at the representative call site — substituting the
instantiation's extracted argument values for the template's parameter
references — renders identically to the original representative occurrence
(same tag, same attribute values, same children up to the extractor's own
text-literalization).  The unamended claim, quantifying over every
extracted occurrence, is refuted by `C1_counterexample`. -/
theorem C1_amended (a b : JSXNode) (name : String)
    (hwf : attrsNodupB a = true)
    (hkeys : ((findVariableSites a b).map (fun s => s.propKey)).Nodup)
    (hfresh : ∀ s ∈ findVariableSites a b,
      s.propKey ∉ collectRefsNode a) :
    normNode (inlineInstance
        (createComponent name a (findVariableSites a b))
        (createInstance a name (findVariableSites a b)
          (additionalRefsOf a (findVariableSites a b))))
      = normNode a := by
  have hσ := instanceProps_createInstance a name (findVariableSites a b)
    (additionalRefsOf a (findVariableSites a b))
  have h1 : ∀ s ∈ (walkSites [] [] a b).1,
      lookupProp (instanceProps (createInstance a name
        (findVariableSites a b)
        (additionalRefsOf a (findVariableSites a b)))) s.propKey
      = some (extractValue a (stripSite [] s)) := by
    intro s hs
    rw [stripSite_nil, hσ]
    exact lookupProp_sites_self (findVariableSites a b)
      (fun x => extractValue a x) _ s hs hkeys
  have h2 : ∀ n ∈ collectRefsNode a,
      lookupProp (instanceProps (createInstance a name
        (findVariableSites a b)
        (additionalRefsOf a (findVariableSites a b)))) n
        = some (.ident n)
      ∨ lookupProp (instanceProps (createInstance a name
          (findVariableSites a b)
          (additionalRefsOf a (findVariableSites a b)))) n
        = none := by
    intro n hn
    rw [hσ]
    rw [lookupProp_skip n _ _ (by
      intro p hp
      obtain ⟨s, hsmem, hpeq⟩ := List.mem_map.mp hp
      rw [← hpeq]
      intro hcontra
      have hc2 : s.propKey = n := hcontra
      exact hfresh s hsmem (by
        rw [hc2]
        exact hn))]
    exact lookupProp_ident_map n _
  have hrt := walkSitesRT a b [] []
    (instanceProps (createInstance a name (findVariableSites a b)
      (additionalRefsOf a (findVariableSites a b)))) hwf h1 h2
  rw [show (walkSites [] [] a b).1 = findVariableSites a b from rfl] at hrt
  rw [map_stripSite_nil] at hrt
  show normNode (substNode
      (instanceProps (createInstance a name (findVariableSites a b)
        (additionalRefsOf a (findVariableSites a b))))
      (applySites (findVariableSites a b) a))
    = normNode a
  exact hrt

theorem C1_amended_witness :
    (attrsNodupB (JSXNode.elem "div" [JSXAttr.attr "alt" (.str "A")] [])
      = true)
    ∧ (((findVariableSites
        (JSXNode.elem "div" [JSXAttr.attr "alt" (.str "A")] [])
        (JSXNode.elem "div" [JSXAttr.attr "alt" (.str "B")] [])).map
          (fun s => s.propKey)).Nodup)
    ∧ (∀ s ∈ findVariableSites
        (JSXNode.elem "div" [JSXAttr.attr "alt" (.str "A")] [])
        (JSXNode.elem "div" [JSXAttr.attr "alt" (.str "B")] []),
        s.propKey ∉ collectRefsNode
          (JSXNode.elem "div" [JSXAttr.attr "alt" (.str "A")] []))
    ∧ normNode (inlineInstance
        (createComponent "Item"
          (JSXNode.elem "div" [JSXAttr.attr "alt" (.str "A")] [])
          (findVariableSites
            (JSXNode.elem "div" [JSXAttr.attr "alt" (.str "A")] [])
            (JSXNode.elem "div" [JSXAttr.attr "alt" (.str "B")] [])))
        (createInstance
          (JSXNode.elem "div" [JSXAttr.attr "alt" (.str "A")] []) "Item"
          (findVariableSites
            (JSXNode.elem "div" [JSXAttr.attr "alt" (.str "A")] [])
            (JSXNode.elem "div" [JSXAttr.attr "alt" (.str "B")] []))
          (additionalRefsOf
            (JSXNode.elem "div" [JSXAttr.attr "alt" (.str "A")] [])
            (findVariableSites
              (JSXNode.elem "div" [JSXAttr.attr "alt" (.str "A")] [])
              (JSXNode.elem "div" [JSXAttr.attr "alt" (.str "B")] [])))))
      = normNode (JSXNode.elem "div" [JSXAttr.attr "alt" (.str "A")] []) :=
  ⟨by decide, by decide, by decide,
    C1_amended (JSXNode.elem "div" [JSXAttr.attr "alt" (.str "A")] [])
      (JSXNode.elem "div" [JSXAttr.attr "alt" (.str "B")] []) "Item"
      (by decide) (by decide) (by decide)⟩

/-- The `SKIP_AUTO_COMPONENT_TAGS` set of `transformJsx` (SVG-related
tags, compared lowercased). -/
def skipAutoComponentTags : List String :=
  ["svg", "clippath", "defs", "ellipse", "g", "lineargradient", "mask",
   "path", "pattern", "polygon", "polyline", "radialgradient", "rect",
   "stop", "circle", "image", "line", "text", "tspan", "use",
   "foreignobject"]

/-- Embedding of `getElementTagName` (every element of the embedding carries
an identifier tag). -/
def getElementTagName : JSXNode → Option String
  | .elem tag _ _ => some tag
  | _ => none

/-- The JS test `/^[A-Z]/.test(s)`. -/
def isCapitalized (s : String) : Bool :=
  match s.data with
  | c :: _ => isAsciiUpperC c
  | [] => false

/-- Embedding of `lowerFirst`. -/
def lowerFirst (s : String) : String :=
  match s.data with
  | c :: rest => String.mk (lowerAsciiChar c :: rest)
  | [] => s

/-- The passthrough-pattern guard of `transformJsx`: the representative has
exactly one meaningful child and that child is an element with a capitalized
tag. -/
def passthroughGuard (first : JSXNode) : Bool :=
  let firstChildren := (childrenOf first).filter (fun ch =>
    match ch with
    | .text s => 0 < (jsTrim s).length
    | .elem .. => true
    | .exprChild _ => true
    | .fragment => false)
  match firstChildren with
  | [onlyChild] =>
    match onlyChild with
    | .elem ct _ _ => isCapitalized ct
    | _ => false
  | _ => false

/-- The capitalized-tag guard on the best group's representative
(`/^[A-Z]/.test(firstTag)`). -/
def firstTagCapitalized (first : JSXNode) : Bool :=
  match getElementTagName first with
  | some ft => isCapitalized ft
  | none => false

/-- The guard chain of `transformJsx` after the best group is selected:
skip capitalized representatives, groups without variation, passthrough
wrappers, and contentless representatives; otherwise commit to extraction
with the diffed Variable Sites. -/
def extractionChecks (first second : JSXNode) : Option (List VarSite) :=
  if firstTagCapitalized first then none
  else
    let sites := findVariableSites first second
    if sites.length = 0 then none
    else if passthroughGuard first then none
    else if !hasMeaningfulContent first then none
    else some sites

/-- The selection stage on the best group: destructure the first two
representatives and run the extraction guard chain. -/
def groupDecision (g : SigGroup) :
    Option (SigGroup × JSXNode × JSXNode × List VarSite) :=
  match g.nodes with
  | first :: second :: _ =>
    match extractionChecks first second with
    | some sites => some (g, first, second, sites)
    | none => none
  | _ => none

/-- The best-group stage: nothing qualifies, nothing is extracted. -/
def bestStage (og : Option SigGroup) :
    Option (SigGroup × JSXNode × JSXNode × List VarSite) :=
  match og with
  | none => none
  | some g => groupDecision g

/-- The container stage of one visit: the SVG-parent guard, the minimum
count of element children, then grouping and selection over the parent's
child list. -/
def containerStage (minRepeats : Nat) (ptag : String)
    (pcs : List JSXNode) :
    Option (SigGroup × JSXNode × JSXNode × List VarSite) :=
  if lowerStr ptag = "svg"
      || skipAutoComponentTags.contains (lowerStr ptag) then none
  else
    if (pcs.filter (fun ch =>
        match ch with
        | .elem .. => true
        | _ => false)).length < minRepeats then none
    else bestStage (bestGroup (groupBySig pcs) minRepeats)

/-- One `JSXElement` visit of `transformJsx`, modelled up to the point where
extraction is committed: the visited element's tag, its parent, the
already-generated component names, and the repeat threshold determine
whether a group of the parent's children is extracted, and which. -/
def visitDecision (generated : List String) (minRepeats : Nat)
    (vtag : String) (parent : Option JSXNode) :
    Option (SigGroup × JSXNode × JSXNode × List VarSite) :=
  if skipAutoComponentTags.contains (lowerStr vtag)
      || generated.contains vtag then none
  else
    match parent with
    | some (.elem ptag _ pcs) => containerStage minRepeats ptag pcs
    | _ => none

theorem extractionChecks_notCapitalized (first second : JSXNode)
    (sites : List VarSite)
    (h : extractionChecks first second = some sites) :
    firstTagCapitalized first = false := by
  unfold extractionChecks at h
  split at h
  · cases h
  · next hcap =>
    cases hc : firstTagCapitalized first
    · rfl
    · exact absurd hc hcap

theorem groupDecision_some (g : SigGroup) (r : SigGroup × JSXNode ×
    JSXNode × List VarSite) (h : groupDecision g = some r) :
    ∃ first second rest sites, g.nodes = first :: second :: rest ∧
      extractionChecks first second = some sites ∧
      r = (g, first, second, sites) := by
  unfold groupDecision at h
  cases hn : g.nodes with
  | nil =>
    rw [hn] at h
    exact Option.noConfusion h
  | cons f tail =>
    cases tail with
    | nil =>
      rw [hn] at h
      exact Option.noConfusion h
    | cons s rest =>
      rw [hn] at h
      have h2 : (match extractionChecks f s with
          | some sites => some (g, f, s, sites)
          | none => none) = some r := h
      cases hchecks : extractionChecks f s with
      | none =>
        rw [hchecks] at h2
        exact Option.noConfusion h2
      | some sites =>
        rw [hchecks] at h2
        refine ⟨f, s, rest, sites, rfl, hchecks, ?_⟩
        cases h2
        rfl

theorem bestStage_some (og : Option SigGroup) (r : SigGroup × JSXNode ×
    JSXNode × List VarSite) (h : bestStage og = some r) :
    ∃ g, og = some g ∧ groupDecision g = some r := by
  cases og with
  | none => cases h
  | some g => exact ⟨g, rfl, h⟩

theorem containerStage_some (minRepeats : Nat) (ptag : String)
    (pcs : List JSXNode) (r : SigGroup × JSXNode × JSXNode × List VarSite)
    (h : containerStage minRepeats ptag pcs = some r) :
    bestStage (bestGroup (groupBySig pcs) minRepeats) = some r := by
  unfold containerStage at h
  split at h
  · cases h
  · split at h
    · cases h
    · exact h

theorem visitDecision_some (generated : List String) (minRepeats : Nat)
    (vtag : String) (parent : Option JSXNode) (g : SigGroup)
    (first second : JSXNode) (sites : List VarSite)
    (hdec : visitDecision generated minRepeats vtag parent
      = some (g, first, second, sites)) :
    firstTagCapitalized first = false
      ∧ generated.contains vtag = false := by
  unfold visitDecision at hdec
  split at hdec
  · cases hdec
  · next hguard1 =>
    have hcontain : generated.contains vtag = false := by
      have hor : (skipAutoComponentTags.contains (lowerStr vtag)
          || generated.contains vtag) = false := by
        cases hcc : (skipAutoComponentTags.contains (lowerStr vtag)
            || generated.contains vtag)
        · rfl
        · exact absurd hcc hguard1
      exact (Bool.or_eq_false_iff.mp hor).2
    refine ⟨?_, hcontain⟩
    split at hdec
    · next ptag pa pcs =>
      have hbs := containerStage_some minRepeats ptag pcs _ hdec
      obtain ⟨g2, _, hgd⟩ := bestStage_some _ _ hbs
      obtain ⟨f, s, rest, sites2, _, hchecks, hr⟩ :=
        groupDecision_some g2 _ hgd
      have hf : f = first := by
        have := congrArg (fun x => x.2.1) hr
        exact this.symm
      rw [hf] at hchecks
      exact extractionChecks_notCapitalized first s sites2 hchecks
    · cases hdec

theorem isCapitalized_uniqueCand (base : String) (k : Nat)
    (h : isCapitalized base = true) :
    isCapitalized (uniqueCand base k) = true := by
  cases k with
  | zero => exact h
  | succ m =>
    cases hd : base.data with
    | nil =>
      exfalso
      unfold isCapitalized at h
      rw [hd] at h
      cases h
    | cons c cs =>
      have hc : isAsciiUpperC c = true := by
        unfold isCapitalized at h
        rw [hd] at h
        exact h
      show isCapitalized (base ++ natRepr (m + 2)) = true
      unfold isCapitalized
      rw [String.data_append, hd]
      exact hc

theorem isCapitalized_getUniqueName (base : String)
    (used bnd refs : List String) (h : isCapitalized base = true) :
    isCapitalized (getUniqueName base used bnd refs).1 = true :=
  isCapitalized_uniqueCand base _ h

/-- Claim C5 (amended): whenever a visit of `transformJsx` commits to an
extraction, the selected group's representative does not have a capitalized
tag and the visited element's tag is not an already-generated component
name; in particular the representative is never an instantiation of a
component named by `getUniqueName` from a capitalized base name (the
default `ExtractedItem` included), since `getUniqueName` preserves the
base's first character.  The unconditional claim — that repeated children
whose tag is ANY generated component name are never extracted — is refuted
by `C5_counterexample`: with a lowercase configured base name, instances of
the generated template are wrapped again when the visit enters through a
sibling. -/
theorem C5_amended (generated : List String) (minRepeats : Nat)
    (vtag : String) (parent : Option JSXNode) (g : SigGroup)
    (first second : JSXNode) (sites : List VarSite)
    (hdec : visitDecision generated minRepeats vtag parent
      = some (g, first, second, sites)) :
    firstTagCapitalized first = false
    ∧ generated.contains vtag = false
    ∧ ∀ (base : String) (used bnd refs : List String) (orig : JSXNode)
        (sites0 : List VarSite) (addl : List String),
        isCapitalized base = true →
        first ≠ createInstance orig (getUniqueName base used bnd refs).1
          sites0 addl := by
  obtain ⟨h1, h2⟩ := visitDecision_some generated minRepeats vtag parent
    g first second sites hdec
  refine ⟨h1, h2, ?_⟩
  intro base used bnd refs orig sites0 addl hcap heq
  have hcapf : firstTagCapitalized first = true := by
    rw [heq]
    rw [show firstTagCapitalized (createInstance orig
        (getUniqueName base used bnd refs).1 sites0 addl)
      = isCapitalized (getUniqueName base used bnd refs).1 from rfl]
    exact isCapitalized_getUniqueName base used bnd refs hcap
  rw [h1] at hcapf
  cases hcapf

theorem C5_amended_witness :
    visitDecision [] 2 "p"
        (some (.elem "section" []
          [.elem "div" [] [.text "A"], .elem "div" [] [.text "B"],
           .elem "p" [] [.text "z"]]))
      = some (⟨[.elem "div" [] [.text "A"], .elem "div" [] [.text "B"]],
          [0, 1]⟩,
        .elem "div" [] [.text "A"], .elem "div" [] [.text "B"],
        [⟨.textK, "text0", [0], none⟩])
    ∧ (firstTagCapitalized (.elem "div" [] [.text "A"]) = false
      ∧ ([] : List String).contains "p" = false
      ∧ ∀ (base : String) (used bnd refs : List String) (orig : JSXNode)
          (sites0 : List VarSite) (addl : List String),
          isCapitalized base = true →
          (JSXNode.elem "div" [] [.text "A"])
            ≠ createInstance orig (getUniqueName base used bnd refs).1
              sites0 addl) :=
  ⟨rfl, C5_amended [] 2 "p"
    (some (.elem "section" []
      [.elem "div" [] [.text "A"], .elem "div" [] [.text "B"],
       .elem "p" [] [.text "z"]]))
    ⟨[.elem "div" [] [.text "A"], .elem "div" [] [.text "B"]], [0, 1]⟩
    (.elem "div" [] [.text "A"]) (.elem "div" [] [.text "B"])
    [⟨.textK, "text0", [0], none⟩] rfl⟩

/-- Claim C5 is false as stated: `item` is a perfectly possible generated
component name (`getUniqueName "item" ...` returns it when the configured
base name is lowercase), and a container whose repeated children are
instances of that previously generated template IS extracted again when the
visit enters through a sibling whose own tag is neither generated nor
skipped — the generated-components guard only tests the visited element's
tag, and the capitalized-tag guard does not fire on a lowercase name. -/
theorem C5_counterexample :
    (getUniqueName "item" [] [] []).1 = "item"
    ∧ (visitDecision ["item"] 2 "p"
        (some (.elem "section" []
          [createInstance
              (.elem "div" [.attr "a" (.str "A1"), .attr "b" (.str "B1"),
                .attr "c" (.str "C1"), .attr "d" (.str "D1")] [])
              "item"
              (findVariableSites
                (.elem "div" [.attr "a" (.str "A1"), .attr "b" (.str "B1"),
                  .attr "c" (.str "C1"), .attr "d" (.str "D1")] [])
                (.elem "div" [.attr "a" (.str "A2"), .attr "b" (.str "B2"),
                  .attr "c" (.str "C2"), .attr "d" (.str "D2")] []))
              [],
            createInstance
              (.elem "div" [.attr "a" (.str "A2"), .attr "b" (.str "B2"),
                .attr "c" (.str "C2"), .attr "d" (.str "D2")] [])
              "item"
              (findVariableSites
                (.elem "div" [.attr "a" (.str "A1"), .attr "b" (.str "B1"),
                  .attr "c" (.str "C1"), .attr "d" (.str "D1")] [])
                (.elem "div" [.attr "a" (.str "A2"), .attr "b" (.str "B2"),
                  .attr "c" (.str "C2"), .attr "d" (.str "D2")] []))
              [],
            .elem "p" [] [.text "z"]]))).isSome = true := by
  constructor
  · show uniqueCand "item"
      (Nat.find (exists_free_candidate "item" [] [] [])) = "item"
    have hf : Nat.find (exists_free_candidate "item" [] [] []) = 0 :=
      (Nat.find_eq_zero _).mpr rfl
    rw [hf]
    rfl
  · rfl

theorem mem_enumFrom_get {α : Type _} : ∀ (l : List α) (n : Nat)
    (p : Nat × α), p ∈ l.enumFrom n →
    n ≤ p.1 ∧ l.get? (p.1 - n) = some p.2 := by
  intro l
  induction l with
  | nil =>
    intro n p h
    cases h
  | cons a t ih =>
    intro n p h
    rw [show (a :: t).enumFrom n = (n, a) :: t.enumFrom (n + 1) from rfl]
      at h
    rcases List.mem_cons.mp h with h | h
    · subst h
      exact ⟨le_refl _, by simp⟩
    · obtain ⟨hle, hget⟩ := ih (n + 1) p h
      refine ⟨by omega, ?_⟩
      have hsub : p.1 - n = (p.1 - (n + 1)) + 1 := by omega
      rw [hsub]
      exact hget

theorem pairwise_enumFrom_lt {α : Type _} : ∀ (l : List α) (n : Nat),
    List.Pairwise (fun p q : Nat × α => p.1 < q.1) (l.enumFrom n) := by
  intro l
  induction l with
  | nil =>
    intro n
    exact List.Pairwise.nil
  | cons a t ih =>
    intro n
    rw [show (a :: t).enumFrom n = (n, a) :: t.enumFrom (n + 1) from rfl]
    refine List.Pairwise.cons ?_ (ih (n + 1))
    intro q hq
    have := (mem_enumFrom_get t (n + 1) q hq).1
    show n < q.1
    omega

theorem insAsc_sorted_cons (x : Nat) (l : List Nat)
    (h : ∀ y ∈ l, x ≤ y) : insAsc x l = x :: l := by
  cases l with
  | nil => rfl
  | cons b t =>
    show (if x ≤ b then x :: b :: t else b :: insAsc x t) = x :: b :: t
    rw [if_pos (h b (by simp))]

theorem sortNatAsc_sorted : ∀ (l : List Nat),
    List.Pairwise (· ≤ ·) l → sortNatAsc l = l := by
  intro l
  induction l with
  | nil =>
    intro _
    rfl
  | cons a t ih =>
    intro h
    show insAsc a (sortNatAsc t) = a :: t
    rw [ih (List.Pairwise.sublist (List.sublist_cons_self a t) h)]
    exact insAsc_sorted_cons a t (fun y hy =>
      List.rel_of_pairwise_cons h hy)

theorem chainSucc_range : ∀ (l : List Nat) (a : Nat),
    chainSucc (a :: l) = true → a :: l = List.range' a (l.length + 1) := by
  intro l
  induction l with
  | nil =>
    intro a _
    rfl
  | cons b t ih =>
    intro a h
    have h2 : (b == a + 1) = true ∧ chainSucc (b :: t) = true := by
      have h0 : ((b == a + 1) && chainSucc (b :: t)) = true := h
      rw [Bool.and_eq_true] at h0
      exact h0
    have hb : b = a + 1 := by simpa using h2.1
    subst hb
    have hrest := ih (a + 1) h2.2
    show a :: (a + 1) :: t = a :: List.range' (a + 1) (t.length + 1)
    rw [← hrest]

theorem range_getLastD : ∀ (n a d : Nat),
    (List.range' a (n + 1)).getLastD d = a + n := by
  intro n
  induction n with
  | zero =>
    intro a d
    rfl
  | succ m ih =>
    intro a d
    show (List.range' (a + 1) (m + 1)).getLastD a = a + (m + 1)
    rw [ih (a + 1) a]
    omega

/-- The iteration construct built by the preferMap branch:
`arrName.map((d, i) => <CompName {...d} key={i} />)` — the data-table name,
the two arrow parameters, and the per-item instantiation element carrying
the `key` attribute bound to the map index. -/
structure MapIteration where
  arrName : String
  itemParam : String
  indexParam : String
  itemElement : JSXNode
deriving Repr

/-- The `jsxElement`/`arrowFunctionExpression` construction of the
preferMap branch. -/
def buildMapIteration (arrName compName : String) : MapIteration :=
  ⟨arrName, "d", "i",
    .elem compName [.spread, .attr "key" (.expr (.ident "i"))] []⟩

/-- The spliced-in child holding the iteration (a `JSXExpressionContainer`
around the `.map` call, opaque except for its data-table reference). -/
def mapIterationChild (arrName : String) : JSXNode :=
  .exprChild (.otherExpr "CallExpression" [arrName])

/-- The two replacement shapes `transformJsx` produces for the chosen
group. -/
inductive GroupReplacement where
  | mapped (records : List (List (String × Expr))) (arrName : String)
      (iteration : MapIteration) (newChildren : List JSXNode)
  | individual (newChildren : List JSXNode)

/-- Embedding of the replacement stage of `transformJsx`: with `preferMap`
and consecutive original positions, build one literal record per occurrence
(one field per Variable Site, extracted against that occurrence), and
splice the whole span `[indices[0], indices[last]]` with the single
iteration child; otherwise replace each group member in place by an
individual instantiation (JS reference equality of `includes` coincides
with structural equality here, since grouping is by structural
signature). -/
def replaceGroup (children : List JSXNode) (g : SigGroup)
    (sites : List VarSite) (compName arrName : String)
    (addl : List String) (preferMap : Bool) : GroupReplacement :=
  if preferMap && areConsecutive g.indices then
    let items := g.nodes.map (fun node =>
      sites.map (fun s => (s.propKey, extractValue node s)))
    let start := g.indices.headD 0
    let stop := g.indices.getLastD 0
    .mapped items arrName (buildMapIteration arrName compName)
      (children.take start ++ [mapIterationChild arrName]
        ++ children.drop (stop + 1))
  else
    .individual (children.map (fun ch =>
      match ch with
      | .elem t a c =>
        if g.nodes.any (fun n => beqNode n (.elem t a c))
        then createInstance (.elem t a c) compName sites addl
        else .elem t a c
      | other => other))

theorem replaceGroup_mapped (children : List JSXNode) (g : SigGroup)
    (sites : List VarSite) (compName arrName : String)
    (addl : List String) (hcons : areConsecutive g.indices = true) :
    replaceGroup children g sites compName arrName addl true
      = .mapped (g.nodes.map (fun node =>
          sites.map (fun s => (s.propKey, extractValue node s))))
        arrName (buildMapIteration arrName compName)
        (children.take (g.indices.headD 0)
          ++ [mapIterationChild arrName]
          ++ children.drop (g.indices.getLastD 0 + 1)) := by
  unfold replaceGroup
  rw [Bool.true_and, if_pos hcons]

theorem replaceGroup_individual (children : List JSXNode) (g : SigGroup)
    (sites : List VarSite) (compName arrName : String)
    (addl : List String) (preferMap : Bool)
    (hguard : (preferMap && areConsecutive g.indices) = false) :
    replaceGroup children g sites compName arrName addl preferMap
      = .individual (children.map (fun ch =>
          match ch with
          | .elem t a c =>
            if g.nodes.any (fun n => beqNode n (.elem t a c))
            then createInstance (.elem t a c) compName sites addl
            else .elem t a c
          | other => other)) := by
  unfold replaceGroup
  rw [hguard]
  rw [if_neg (by simp)]

theorem bestGroup_mem (gs : List (String × SigGroup)) (minRepeats : Nat)
    (g : SigGroup) (h : bestGroup gs minRepeats = some g) :
    ∃ sig, (sig, g) ∈ gs ∧ minRepeats ≤ g.nodes.length := by
  unfold bestGroup at h
  obtain ⟨i, hget, _, _⟩ := sortGroupsDesc_head_spec _ g h
  have hmem : g ∈ (gs.map (fun p => p.2)).filter
      (fun g => minRepeats ≤ g.nodes.length) := List.get?_mem hget
  have hf := List.mem_filter.mp hmem
  obtain ⟨p, hp, hpe⟩ := List.mem_map.mp hf.1
  refine ⟨p.1, ?_, by simpa using hf.2⟩
  rw [← hpe]
  exact hp

/-- Claim C4: with the prefer-collapsed-iteration mode, when the chosen
group's original positions are contiguous in the parent's child list (the
`areConsecutive` test), the replacement builds one literal data record per
occurrence — one `(propertyKey, value)` field per Variable Site, the value
extracted via the site's path against that occurrence — binds them to the
data-table name generated from the component name (`lowerFirst(comp) ++
"Data"` through `getUniqueName`), and replaces exactly the contiguous span
`[indices[0] .. indices[last]]` — whose positions hold exactly the group's
occurrences, in order — with the single iteration child; the iteration's
per-item element instantiates the template with a spread of the record and
a `key` attribute bound to the map index.  When the positions are not
contiguous, every group member is instead replaced in place by an
individual instantiation. -/
theorem C4_preferMap_replacement (children : List JSXNode)
    (minRepeats : Nat) (g : SigGroup) (sites : List VarSite)
    (compName : String) (used bnd refs : List String)
    (addl : List String)
    (hbest : bestGroup (groupBySig children) minRepeats = some g) :
    (areConsecutive g.indices = true →
      g.indices = List.range' (g.indices.headD 0) g.indices.length ∧
      replaceGroup children g sites compName
          (getUniqueName (lowerFirst compName ++ "Data") used bnd refs).1
          addl true
        = .mapped
            (g.nodes.map (fun node =>
              sites.map (fun s => (s.propKey, extractValue node s))))
            (getUniqueName (lowerFirst compName ++ "Data") used bnd refs).1
            (buildMapIteration
              (getUniqueName (lowerFirst compName ++ "Data") used bnd
                refs).1 compName)
            (children.take (g.indices.headD 0)
              ++ [mapIterationChild
                (getUniqueName (lowerFirst compName ++ "Data") used bnd
                  refs).1]
              ++ children.drop (g.indices.headD 0 + g.indices.length)) ∧
      (∀ k node, g.nodes.get? k = some node →
        children.get? (g.indices.headD 0 + k) = some node) ∧
      g.nodes.length = g.indices.length)
    ∧ (areConsecutive g.indices = false →
      replaceGroup children g sites compName
          (getUniqueName (lowerFirst compName ++ "Data") used bnd refs).1
          addl true
        = .individual (children.map (fun ch =>
            match ch with
            | .elem t a c =>
              if g.nodes.any (fun n => beqNode n (.elem t a c))
              then createInstance (.elem t a c) compName sites addl
              else .elem t a c
            | other => other)))
    ∧ (buildMapIteration
        (getUniqueName (lowerFirst compName ++ "Data") used bnd refs).1
        compName).itemElement
      = .elem compName
          [.spread, .attr "key" (.expr (.ident (buildMapIteration
            (getUniqueName (lowerFirst compName ++ "Data") used bnd
              refs).1 compName).indexParam))] [] := by
  obtain ⟨sig, hmem, _⟩ := bestGroup_mem (groupBySig children) minRepeats
    g hbest
  obtain ⟨hn, hi⟩ := groupBySig_entry_spec children sig g hmem
  have hpairs : ∀ p ∈ sigFilter children.enum sig,
      children.get? p.1 = some p.2 := by
    intro p hp
    have hpe : p ∈ children.enum := (List.mem_filter.mp hp).1
    have := (mem_enumFrom_get children 0 p hpe).2
    simpa using this
  have hinc : List.Pairwise (· < ·) g.indices := by
    rw [hi]
    exact List.pairwise_map.mpr
      ((pairwise_enumFrom_lt children 0).filter _)
  refine ⟨?_, ?_, rfl⟩
  · intro hcons
    have hparts : (!g.indices.isEmpty) = true ∧
        chainSucc (sortNatAsc g.indices) = true := by
      have h0 : ((!g.indices.isEmpty) &&
          chainSucc (sortNatAsc g.indices)) = true := hcons
      rw [Bool.and_eq_true] at h0
      exact h0
    have hsorted : sortNatAsc g.indices = g.indices :=
      sortNatAsc_sorted _ (hinc.imp le_of_lt)
    have hchain : chainSucc g.indices = true := by
      rw [← hsorted]
      exact hparts.2
    have hrangeIdx : g.indices
        = List.range' (g.indices.headD 0) g.indices.length := by
      cases hidx : g.indices with
      | nil =>
        exfalso
        rw [hidx] at hparts
        exact Bool.noConfusion hparts.1
      | cons a l =>
        rw [hidx] at hchain
        exact chainSucc_range l a hchain
    have hstop : g.indices.getLastD 0 + 1
        = g.indices.headD 0 + g.indices.length := by
      cases hidx : g.indices with
      | nil =>
        exfalso
        rw [hidx] at hparts
        exact Bool.noConfusion hparts.1
      | cons a l =>
        have hr2 : a :: l = List.range' a (l.length + 1) := by
          rw [hidx] at hchain
          exact chainSucc_range l a hchain
        show (a :: l).getLastD 0 + 1 = (a :: l).headD 0 + (a :: l).length
        rw [show ((a :: l).headD 0) = a from rfl,
          show (a :: l).length = l.length + 1 from rfl]
        rw [hr2, range_getLastD]
        omega
    refine ⟨hrangeIdx, ?_, ?_, ?_⟩
    · rw [replaceGroup_mapped children g sites compName _ addl hcons]
      rw [hstop]
    · intro k node hk
      rw [hn, List.get?_map] at hk
      cases hFk : (sigFilter children.enum sig).get? k with
      | none =>
        rw [hFk] at hk
        cases hk
      | some p =>
        rw [hFk] at hk
        have hp2 : p.2 = node := by
          have hk2 : some p.2 = some node := hk
          cases hk2
          rfl
        have hidxk : g.indices.get? k = some p.1 := by
          rw [hi, List.get?_map, hFk]
          rfl
        obtain ⟨hklt, _⟩ := List.get?_eq_some.mp hidxk
        have hp1 : p.1 = g.indices.headD 0 + k := by
          rw [hrangeIdx] at hidxk
          rw [List.get?_range' _ _ (by
            rw [hrangeIdx] at hklt
            simpa using hklt)] at hidxk
          have hx : some (g.indices.headD 0 + 1 * k) = some p.1 := hidxk
          have hx2 : g.indices.headD 0 + 1 * k = p.1 :=
            Option.some.inj hx
          omega
        have hcp := hpairs p (List.get?_mem hFk)
        rw [hp1, hp2] at hcp
        exact hcp
    · rw [hn, hi]
      simp
  · intro hncons
    exact replaceGroup_individual children g sites compName _ addl true
      (by rw [Bool.true_and, hncons])

theorem C4_preferMap_replacement_witness :
    bestGroup (groupBySig
        [JSXNode.elem "div" [] [.text "A"],
         JSXNode.elem "div" [] [.text "B"],
         JSXNode.elem "span" [] []]) 2
      = some ⟨[JSXNode.elem "div" [] [.text "A"],
          JSXNode.elem "div" [] [.text "B"]], [0, 1]⟩
    ∧ areConsecutive ([0, 1] : List Nat) = true
    ∧ ((⟨[JSXNode.elem "div" [] [.text "A"],
          JSXNode.elem "div" [] [.text "B"]], [0, 1]⟩ : SigGroup).indices
        = List.range' 0 2 ∧
      replaceGroup
          [JSXNode.elem "div" [] [.text "A"],
           JSXNode.elem "div" [] [.text "B"],
           JSXNode.elem "span" [] []]
          ⟨[JSXNode.elem "div" [] [.text "A"],
            JSXNode.elem "div" [] [.text "B"]], [0, 1]⟩
          (findVariableSites (.elem "div" [] [.text "A"])
            (.elem "div" [] [.text "B"]))
          "Item" (getUniqueName (lowerFirst "Item" ++ "Data") [] [] []).1
          [] true
        = .mapped
            ((⟨[JSXNode.elem "div" [] [.text "A"],
              JSXNode.elem "div" [] [.text "B"]], [0, 1]⟩ :
                SigGroup).nodes.map (fun node =>
              (findVariableSites (.elem "div" [] [.text "A"])
                (.elem "div" [] [.text "B"])).map
                  (fun s => (s.propKey, extractValue node s))))
            (getUniqueName (lowerFirst "Item" ++ "Data") [] [] []).1
            (buildMapIteration
              (getUniqueName (lowerFirst "Item" ++ "Data") [] [] []).1
              "Item")
            ([JSXNode.elem "div" [] [.text "A"],
              JSXNode.elem "div" [] [.text "B"],
              JSXNode.elem "span" [] []].take 0
              ++ [mapIterationChild
                (getUniqueName (lowerFirst "Item" ++ "Data") [] [] []).1]
              ++ [JSXNode.elem "div" [] [.text "A"],
                JSXNode.elem "div" [] [.text "B"],
                JSXNode.elem "span" [] []].drop 2) ∧
      (∀ k node,
        (⟨[JSXNode.elem "div" [] [.text "A"],
          JSXNode.elem "div" [] [.text "B"]], [0, 1]⟩ :
            SigGroup).nodes.get? k = some node →
        [JSXNode.elem "div" [] [.text "A"],
         JSXNode.elem "div" [] [.text "B"],
         JSXNode.elem "span" [] []].get? (0 + k) = some node) ∧
      (⟨[JSXNode.elem "div" [] [.text "A"],
        JSXNode.elem "div" [] [.text "B"]], [0, 1]⟩ :
          SigGroup).nodes.length = ([0, 1] : List Nat).length) :=
  ⟨rfl, rfl,
    (C4_preferMap_replacement
      [JSXNode.elem "div" [] [.text "A"],
       JSXNode.elem "div" [] [.text "B"],
       JSXNode.elem "span" [] []] 2
      ⟨[JSXNode.elem "div" [] [.text "A"],
        JSXNode.elem "div" [] [.text "B"]], [0, 1]⟩
      (findVariableSites (.elem "div" [] [.text "A"])
        (.elem "div" [] [.text "B"]))
      "Item" [] [] [] [] rfl).1 rfl⟩

/-- A statement of the miniature program model `transformJsx` operates on:
either a plain `const` numeric binding (enough to exercise the printer
round-trip at the module level) or a JSX expression statement holding a
tree the Extractor traverses. -/
inductive Stmt where
  | constDecl (name : String) (value : Expr)
  | jsxStmt (root : JSXNode)
deriving Repr

/-- Model of `@babel/generator` on one statement: canonical spacing and a
terminating semicolon, as `generate` prints regardless of the input's own
formatting. -/
def printStmt : Stmt → String
  | .constDecl n v => "const " ++ n ++ " = " ++ exprCode v ++ ";"
  | .jsxStmt root => printNode root ++ ";"

/-- Model of `generate(ast).code` for a program. -/
def printProgram (p : List Stmt) : String :=
  String.intercalate "\n" (p.map printStmt)

def identRestChar (c : Char) : Bool := isAsciiAlnumC c || c = '_'

/-- Lex one identifier. -/
def takeIdent : List Char → Option (String × List Char)
  | c :: rest =>
    if isAsciiAlphaC c || c = '_' then
      some (String.mk (c :: rest.takeWhile identRestChar),
        rest.dropWhile identRestChar)
    else none
  | [] => none

/-- Lex one decimal numeral. -/
def takeNum (l : List Char) : Option (Nat × List Char) :=
  match l with
  | c :: _ =>
    if isAsciiDigitC c then
      some ((l.takeWhile isAsciiDigitC).foldl
        (fun acc d => acc * 10 + (d.toNat - 48)) 0,
        l.dropWhile isAsciiDigitC)
    else none
  | [] => none

def dropWs (l : List Char) : List Char := l.dropWhile isJsWhitespace

def expectKeyword (kw : List Char) (l : List Char) : Option (List Char) :=
  if l.take kw.length = kw then some (l.drop kw.length) else none

/-- Model of `parse` on the fragment needed here: a single
`const IDENT = NUM` statement with arbitrary whitespace and an optional
semicolon — enough surface syntax to exhibit that `generate` reprints
rather than echoing the input bytes. -/
def parseProgram (code : String) : Option (List Stmt) :=
  let l := dropWs code.data
  match expectKeyword "const".data l with
  | none => none
  | some l1 =>
    match l1 with
    | c :: _ =>
      if isJsWhitespace c then
        match takeIdent (dropWs l1) with
        | none => none
        | some (nm, l3) =>
          match dropWs l3 with
          | '=' :: l5 =>
            match takeNum (dropWs l5) with
            | none => none
            | some (n, l7) =>
              let l8 := dropWs l7
              let l9 := match l8 with
                | ';' :: r => dropWs r
                | _ => l8
              if l9 = [] then
                some [.constDecl nm (.numLit (Int.ofNat n))]
              else none
          | _ => none
      else none
    | [] => none

/-- The first child of a container whose visit commits an extraction (the
traversal fires the visitor on each child in document order; the decision
depends on the child only through its tag, so the first non-skipped element
child commits). -/
def findTrigger (minRepeats : Nat) (container : JSXNode) :
    List JSXNode → Option (SigGroup × JSXNode × JSXNode × List VarSite)
  | [] => none
  | c :: rest =>
    match c with
    | .elem ct _ _ =>
      match visitDecision [] minRepeats ct (some container) with
      | some r => some r
      | none => findTrigger minRepeats container rest
    | _ => findTrigger minRepeats container rest

mutual

/-- The traversal of `transformJsx` over one JSX tree, container-centric:
at each element, if some child visit commits an extraction, the container's
children are rewritten by the replacement stage and (modelling
`path.skip()`) the rewritten subtree is not revisited; otherwise the walk
descends.  Additional pass-through refs and name uniquification are elided
here — they affect the inserted declarations, not whether a change
occurs. -/
def transformTree (minRepeats : Nat) (preferMap : Bool)
    (compName : String) : JSXNode → JSXNode × Bool
  | .elem t a cs =>
    match findTrigger minRepeats (.elem t a cs) cs with
    | some (g, _, _, sites) =>
      match replaceGroup cs g sites compName
          (lowerFirst compName ++ "Data") [] preferMap with
      | .mapped _ _ _ newCs => (.elem t a newCs, true)
      | .individual newCs => (.elem t a newCs, true)
    | none =>
      let r := transformList minRepeats preferMap compName cs
      (.elem t a r.1, r.2)
  | x => (x, false)

/-- The traversal over a child list. -/
def transformList (minRepeats : Nat) (preferMap : Bool)
    (compName : String) : List JSXNode → List JSXNode × Bool
  | [] => ([], false)
  | c :: rest =>
    let r1 := transformTree minRepeats preferMap compName c
    let r2 := transformList minRepeats preferMap compName rest
    (r1.1 :: r2.1, r1.2 || r2.2)

end

/-- The traversal over one statement (only JSX statements are visited). -/
def transformStmt (minRepeats : Nat) (preferMap : Bool)
    (compName : String) : Stmt → Stmt × Bool
  | .constDecl n v => (.constDecl n v, false)
  | .jsxStmt root =>
    let r := transformTree minRepeats preferMap compName root
    (.jsxStmt r.1, r.2)

/-- The traversal over a program. -/
def transformProgram (minRepeats : Nat) (preferMap : Bool)
    (compName : String) : List Stmt → List Stmt × Bool
  | [] => ([], false)
  | s :: rest =>
    let r1 := transformStmt minRepeats preferMap compName s
    let r2 := transformProgram minRepeats preferMap compName rest
    (r1.1 :: r2.1, r1.2 || r2.2)

/-- End-to-end model of `transformJsx` on source text with the default
options: parse, traverse, and REPRINT through the generator model —
`generate` always reprints the tree, it never echoes the input bytes. -/
def transformJsxStr (code : String) : Option (String × Bool) :=
  (parseProgram code).map (fun p =>
    (printProgram (transformProgram 2 false "ExtractedItem" p).1,
      (transformProgram 2 false "ExtractedItem" p).2))

mutual

/-- Every container in the tree has every signature group below the repeat
threshold (the hypothesis of the no-op claim). -/
def belowThresholdB (minRepeats : Nat) : JSXNode → Bool
  | .elem _ _ cs =>
    ((groupBySig cs).all (fun p =>
      decide (p.2.nodes.length < minRepeats))) &&
      belowThresholdListB minRepeats cs
  | _ => true

/-- `belowThresholdB` over a child list. -/
def belowThresholdListB (minRepeats : Nat) : List JSXNode → Bool
  | [] => true
  | c :: cs => belowThresholdB minRepeats c && belowThresholdListB minRepeats cs

end

/-- `belowThresholdB` over a statement. -/
def belowThresholdStmtB (minRepeats : Nat) : Stmt → Bool
  | .constDecl _ _ => true
  | .jsxStmt root => belowThresholdB minRepeats root

/-- `belowThresholdB` over a program. -/
def belowThresholdProgB (minRepeats : Nat) (p : List Stmt) : Bool :=
  p.all (belowThresholdStmtB minRepeats)

theorem bestGroup_none (gs : List (String × SigGroup)) (minRepeats : Nat)
    (h : ∀ p ∈ gs, p.2.nodes.length < minRepeats) :
    bestGroup gs minRepeats = none := by
  unfold bestGroup
  have hfil : (gs.map (fun p => p.2)).filter
      (fun g => minRepeats ≤ g.nodes.length) = [] := by
    rw [List.filter_eq_nil_iff]
    intro g hg
    obtain ⟨p, hp, hpe⟩ := List.mem_map.mp hg
    subst hpe
    simp only [decide_eq_true_eq, not_le]
    exact h p hp
  rw [hfil]
  rfl

theorem containerStage_none (minRepeats : Nat) (ptag : String)
    (pcs : List JSXNode)
    (h : bestGroup (groupBySig pcs) minRepeats = none) :
    containerStage minRepeats ptag pcs = none := by
  unfold containerStage
  split
  · rfl
  · split
    · rfl
    · rw [h]
      rfl

theorem visitDecision_of_containerStage_none (generated : List String)
    (minRepeats : Nat) (vtag ptag : String) (pa : List JSXAttr)
    (pcs : List JSXNode)
    (h : containerStage minRepeats ptag pcs = none) :
    visitDecision generated minRepeats vtag
      (some (.elem ptag pa pcs)) = none := by
  unfold visitDecision
  split
  · rfl
  · exact h

theorem findTrigger_none (minRepeats : Nat) (t : String)
    (a : List JSXAttr) (cs : List JSXNode)
    (h : containerStage minRepeats t cs = none) :
    ∀ (l : List JSXNode),
    findTrigger minRepeats (.elem t a cs) l = none := by
  intro l
  induction l with
  | nil => rfl
  | cons c rest ih =>
    cases c with
    | elem ct ca cc =>
      show (match visitDecision [] minRepeats ct
          (some (.elem t a cs)) with
        | some r => some r
        | none => findTrigger minRepeats (.elem t a cs) rest) = none
      rw [visitDecision_of_containerStage_none [] minRepeats ct t a cs h]
      exact ih
    | text s => exact ih
    | exprChild e => exact ih
    | fragment => exact ih

mutual

/-- Below the repeat threshold everywhere, the traversal rewrites
nothing. -/
theorem transformTree_noop : ∀ (node : JSXNode) (minRepeats : Nat)
    (preferMap : Bool) (compName : String),
    belowThresholdB minRepeats node = true →
    transformTree minRepeats preferMap compName node = (node, false)
  | .elem t a cs, minRepeats, preferMap, compName, h => by
    have hparts : ((groupBySig cs).all (fun p =>
        decide (p.2.nodes.length < minRepeats))) = true
        ∧ belowThresholdListB minRepeats cs = true := by
      have h0 : (((groupBySig cs).all (fun p =>
          decide (p.2.nodes.length < minRepeats))) &&
          belowThresholdListB minRepeats cs) = true := h
      rw [Bool.and_eq_true] at h0
      exact h0
    have hbg : bestGroup (groupBySig cs) minRepeats = none := by
      apply bestGroup_none
      intro p hp
      have := List.all_eq_true.mp hparts.1 p hp
      simpa using this
    have hft := findTrigger_none minRepeats t a cs
      (containerStage_none minRepeats t cs hbg) cs
    show (match findTrigger minRepeats (.elem t a cs) cs with
      | some (g, _, _, sites) =>
        match replaceGroup cs g sites compName
            (lowerFirst compName ++ "Data") [] preferMap with
        | .mapped _ _ _ newCs => (JSXNode.elem t a newCs, true)
        | .individual newCs => (JSXNode.elem t a newCs, true)
      | none =>
        ((.elem t a (transformList minRepeats preferMap compName cs).1,
          (transformList minRepeats preferMap compName cs).2) :
          JSXNode × Bool)) = (.elem t a cs, false)
    rw [hft]
    rw [transformList_noop cs minRepeats preferMap compName hparts.2]
  | .text s, _, _, _, _ => rfl
  | .exprChild e, _, _, _, _ => rfl
  | .fragment, _, _, _, _ => rfl

/-- `transformTree_noop` over a child list. -/
theorem transformList_noop : ∀ (l : List JSXNode) (minRepeats : Nat)
    (preferMap : Bool) (compName : String),
    belowThresholdListB minRepeats l = true →
    transformList minRepeats preferMap compName l = (l, false)
  | [], _, _, _, _ => rfl
  | c :: rest, minRepeats, preferMap, compName, h => by
    have hparts : belowThresholdB minRepeats c = true
        ∧ belowThresholdListB minRepeats rest = true := by
      have h0 : (belowThresholdB minRepeats c &&
          belowThresholdListB minRepeats rest) = true := h
      rw [Bool.and_eq_true] at h0
      exact h0
    show ((transformTree minRepeats preferMap compName c).1 ::
        (transformList minRepeats preferMap compName rest).1,
      (transformTree minRepeats preferMap compName c).2 ||
        (transformList minRepeats preferMap compName rest).2)
      = (c :: rest, false)
    rw [transformTree_noop c minRepeats preferMap compName hparts.1,
      transformList_noop rest minRepeats preferMap compName hparts.2]
    rfl

end

/-- Claim C2 (amended): on a program whose containers all have fewer than
`minRepeats` same-signature element children, the traversal is a no-op at
the TREE level — the program is returned unchanged and `changed` is
`false`.  The byte-identity half of the original claim is refuted by
`C2_counterexample`: the transformed source is `generate`'s reprint of the
unchanged tree, not the input text. -/
theorem C2_amended (p : List Stmt) (minRepeats : Nat) (preferMap : Bool)
    (compName : String)
    (h : belowThresholdProgB minRepeats p = true) :
    transformProgram minRepeats preferMap compName p = (p, false) := by
  induction p with
  | nil => rfl
  | cons s rest ih =>
    have hparts : belowThresholdStmtB minRepeats s = true
        ∧ belowThresholdProgB minRepeats rest = true := by
      have h0 : (belowThresholdStmtB minRepeats s &&
          rest.all (belowThresholdStmtB minRepeats)) = true := h
      rw [Bool.and_eq_true] at h0
      exact h0
    have hs : transformStmt minRepeats preferMap compName s
        = (s, false) := by
      cases s with
      | constDecl n v => rfl
      | jsxStmt root =>
        have hroot := transformTree_noop root minRepeats preferMap
          compName hparts.1
        show (Stmt.jsxStmt
            (transformTree minRepeats preferMap compName root).1,
          (transformTree minRepeats preferMap compName root).2)
          = (.jsxStmt root, false)
        rw [hroot]
    show ((transformStmt minRepeats preferMap compName s).1 ::
        (transformProgram minRepeats preferMap compName rest).1,
      (transformStmt minRepeats preferMap compName s).2 ||
        (transformProgram minRepeats preferMap compName rest).2)
      = (s :: rest, false)
    rw [hs, ih hparts.2]
    rfl

theorem C2_amended_witness :
    belowThresholdProgB 2
        [Stmt.jsxStmt (.elem "div" []
          [.elem "span" [] [], .elem "p" [] []])] = true
    ∧ transformProgram 2 false "ExtractedItem"
        [Stmt.jsxStmt (.elem "div" []
          [.elem "span" [] [], .elem "p" [] []])]
      = ([Stmt.jsxStmt (.elem "div" []
          [.elem "span" [] [], .elem "p" [] []])], false) :=
  ⟨by decide,
    C2_amended [Stmt.jsxStmt (.elem "div" []
      [.elem "span" [] [], .elem "p" [] []])] 2 false "ExtractedItem"
      (by decide)⟩

/-- Claim C2 is false as stated: `transformJsx` always reprints through
`generate`, so even a pure no-op run (here: a source with no JSX at all,
hence trivially below every repeat threshold, returning `changed: false`)
yields a transformed source with the generator's canonical formatting —
`const x=1` comes back as `const x = 1;`, which is not byte-identical to
the input. -/
theorem C2_counterexample :
    transformJsxStr "const x=1" = some ("const x = 1;", false)
    ∧ "const x = 1;" ≠ "const x=1" :=
  ⟨rfl, by decide⟩

end VibeFigma
